import Mathlib

/-!
# stress-ng `matrix-3d` stressor: a verification development

Shallow embedding of `src/stress-matrix-3d.c`.

* The element type `stress_matrix_3d_type_t` is C `float`; it is modelled by
  `Binary32`, the IEEE-754 single precision data with round-to-nearest-even
  arithmetic.
* A `float x[n][n][n]` array is a function from three indices to elements; the
  assignment `r[i][j][k] = v` is a point update.
* A `for (i = 0; i < n; i++)` loop is a left fold over `0, 1, ..., n-1`.
* A function pointer is the name of the function it designates; a call through
  a pointer that cannot return (an index outside the table, or the all wrapper
  calling itself) has no result.
* The collaborators `stress_time_now`, `stress_continue` and `stress_mwc64` are
  given by the sequence of values their successive calls return; the calls made
  are recorded in a trace.
* Whether each `mmap` of a run succeeds, and the page size, are given by the
  environment; `size_t` is 64 bits wide and a `float` takes 4 bytes.
* The clock readings are exact integers of clock units, and a reported rate is
  the exact quotient `count / duration`.
* The settings that `stress_get_setting` finds are a parameter, and so is the
  number that `stress_get_uint64` parses; `stress_check_range`, which is not in
  this source file, is modelled from the spec.

The definitions come first, then the lemmas, then the claims `C1`, `C2`, ... in
order.
-/

set_option linter.unusedVariables false

namespace Matrix3D

/-! ## The element type: IEEE-754 binary32 -/

/-- An IEEE-754 binary32 datum. A finite datum `fin s m e` denotes
`(-1)^s * m * 2^e`; the canonical finite data have `m < 2^24`,
`-149 ≤ e ≤ 104`, and `2^23 ≤ m` unless `e = -149` (zero is `m = 0, e = -149`).
NaN payloads are not distinguished. -/
inductive Binary32 where
  | nan : Binary32
  | inf (sign : Bool) : Binary32
  | fin (sign : Bool) (m : Nat) (e : Int) : Binary32
  deriving DecidableEq, Repr

namespace Binary32

/-- Number of binary digits of `m`, counted with at most `fuel` halvings. -/
def bitLengthAux : Nat → Nat → Nat
  | 0, _ => 0
  | fuel + 1, m => if m = 0 then 0 else bitLengthAux fuel (m / 2) + 1

/-- Number of binary digits of `m` (0 for `m = 0`). -/
def bitLength (m : Nat) : Nat := bitLengthAux m m

/-- Round the exact value `(-1)^sign * m * 2^e` to the nearest binary32 datum,
ties to even, with gradual underflow and overflow to infinity. -/
def round (sign : Bool) (m : Nat) (e : Int) : Binary32 :=
  if m = 0 then fin sign 0 (-149)
  else
    let bits : Int := (bitLength m : Int)
    let e1 : Int := max (e + bits - 24) (-149)
    if e1 ≤ e then
      if e1 > 104 then inf sign else fin sign (m * 2 ^ (e - e1).toNat) e1
    else
      let sh : Nat := (e1 - e).toNat
      let q : Nat := m / 2 ^ sh
      let rem : Nat := m % 2 ^ sh
      let half : Nat := 2 ^ (sh - 1)
      let q1 : Nat := if rem > half ∨ (rem = half ∧ q % 2 = 1) then q + 1 else q
      let q2 : Nat := if q1 = 2 ^ 24 then 2 ^ 23 else q1
      let e2 : Int := if q1 = 2 ^ 24 then e1 + 1 else e1
      if e2 > 104 then inf sign else fin sign q2 e2

/-- The float constant `0.0`. -/
def zero : Binary32 := fin false 0 (-149)

/-- The float constant `1.0`. -/
def one : Binary32 := fin false (2 ^ 23) (-23)

/-- The float constant `2.0`. -/
def two : Binary32 := fin false (2 ^ 23) (-22)

/-- Unary minus: flips the sign. -/
def neg : Binary32 → Binary32
  | nan => nan
  | inf s => inf (!s)
  | fin s m e => fin (!s) m e

/-- The signed integer `(-1)^s * m`. -/
def signed (s : Bool) (m : Nat) : Int := if s then -(m : Int) else (m : Int)

/-- Float addition. -/
def add : Binary32 → Binary32 → Binary32
  | nan, _ => nan
  | _, nan => nan
  | inf s, inf t => if s = t then inf s else nan
  | inf s, fin _ _ _ => inf s
  | fin _ _ _, inf t => inf t
  | fin s m e, fin t k f =>
    let e0 : Int := min e f
    let z : Int := signed s (m * 2 ^ (e - e0).toNat) + signed t (k * 2 ^ (f - e0).toNat)
    if z = 0 then fin (s && t) 0 (-149)
    else round (decide (z < 0)) z.natAbs e0

/-- Float subtraction, `a - b = a + (-b)`. -/
def sub (a b : Binary32) : Binary32 := add a (neg b)

/-- Float multiplication. -/
def mul : Binary32 → Binary32 → Binary32
  | nan, _ => nan
  | _, nan => nan
  | inf s, inf t => inf (xor s t)
  | inf s, fin t k _ => if k = 0 then nan else inf (xor s t)
  | fin s m _, inf t => if m = 0 then nan else inf (xor s t)
  | fin s m e, fin t k f => round (xor s t) (m * k) (e + f)

/-- Float division; the quotient of the significands is computed with 64 extra
bits and a sticky bit, which rounds as the exact quotient does. -/
def div : Binary32 → Binary32 → Binary32
  | nan, _ => nan
  | _, nan => nan
  | inf _, inf _ => nan
  | inf s, fin t _ _ => inf (xor s t)
  | fin s _ _, inf t => fin (xor s t) 0 (-149)
  | fin s m e, fin t k f =>
    if k = 0 then (if m = 0 then nan else inf (xor s t))
    else
      let q : Nat := (m * 2 ^ 64) / k
      let sticky : Nat := if (m * 2 ^ 64) % k = 0 then 0 else 1
      round (xor s t) (2 * q + sticky) (e - f - 65)

/-- Conversion `(float)r` of an unsigned 64-bit integer. -/
def ofUInt64 (r : Nat) : Binary32 := round false r 0

end Binary32

/-- The C typedef `stress_matrix_3d_type_t`, which is `float`. -/
abbrev stress_matrix_3d_type_t : Type := Binary32

/-! ## Arrays and loops -/

/-- A `stress_matrix_3d_type_t x[n][n][n]` array, indexed `x[i][j][k]`. -/
abbrev Vol : Type := Nat → Nat → Nat → stress_matrix_3d_type_t

/-- The assignment `r[i][j][k] = v`. -/
def Vol.set (r : Vol) (i j k : Nat) (v : stress_matrix_3d_type_t) : Vol :=
  fun x y z => if x = i ∧ y = j ∧ z = k then v else r x y z

/-- The loop `for (i = 0; i < n; i++) body`, threading the state `s`. -/
def forLoop {σ : Type} (n : Nat) (body : Nat → σ → σ) (s : σ) : σ :=
  (List.range n).foldl (fun st i => body i st) s

/-! ## The kernels

Each kernel has the C signature `(n, a, b, r)` and returns the final contents of
`r`. The `xyz` variants nest the loops `i`, `j`, `k` (outer to inner), the `zyx`
variants nest them `k`, `j`, `i`. -/

/-- Function `stress_matrix_3d_xyz_add`, matrix addition: `r[i][j][k] = a[i][j][k] + b[i][j][k]`. -/
def stress_matrix_3d_xyz_add (n : Nat) (a b r : Vol) : Vol :=
  forLoop n (fun i r =>
    forLoop n (fun j r =>
      forLoop n (fun k r =>
        r.set i j k (Binary32.add (a i j k) (b i j k))) r) r) r

/-- Function `stress_matrix_3d_zyx_add`, matrix addition: `r[i][j][k] = a[i][j][k] + b[i][j][k]`. -/
def stress_matrix_3d_zyx_add (n : Nat) (a b r : Vol) : Vol :=
  forLoop n (fun k r =>
    forLoop n (fun j r =>
      forLoop n (fun i r =>
        r.set i j k (Binary32.add (a i j k) (b i j k))) r) r) r

/-- Function `stress_matrix_3d_xyz_sub`, matrix subtraction: `r[i][j][k] = a[i][j][k] - b[i][j][k]`. -/
def stress_matrix_3d_xyz_sub (n : Nat) (a b r : Vol) : Vol :=
  forLoop n (fun i r =>
    forLoop n (fun j r =>
      forLoop n (fun k r =>
        r.set i j k (Binary32.sub (a i j k) (b i j k))) r) r) r

/-- Function `stress_matrix_3d_zyx_sub` (documented in the source as matrix subtraction); its
loop body is `r[i][j][k] = a[i][j][k] + b[i][j][k]`. -/
def stress_matrix_3d_zyx_sub (n : Nat) (a b r : Vol) : Vol :=
  forLoop n (fun k r =>
    forLoop n (fun j r =>
      forLoop n (fun i r =>
        r.set i j k (Binary32.add (a i j k) (b i j k))) r) r) r

/-- Function `stress_matrix_3d_xyz_trans`, matrix transpose: `r[i][j][k] = a[k][j][i]`. -/
def stress_matrix_3d_xyz_trans (n : Nat) (a b r : Vol) : Vol :=
  forLoop n (fun i r =>
    forLoop n (fun j r =>
      forLoop n (fun k r =>
        r.set i j k (a k j i)) r) r) r

/-- Function `stress_matrix_3d_zyx_trans`, matrix transpose: `r[i][j][k] = a[k][j][i]`. -/
def stress_matrix_3d_zyx_trans (n : Nat) (a b r : Vol) : Vol :=
  forLoop n (fun k r =>
    forLoop n (fun j r =>
      forLoop n (fun i r =>
        r.set i j k (a k j i)) r) r) r

/-- Function `stress_matrix_3d_xyz_mult`, matrix scalar multiply: `r[i][j][k] = v * a[i][j][k]`, with `v = b[0][0][0]`. -/
def stress_matrix_3d_xyz_mult (n : Nat) (a b r : Vol) : Vol :=
  let v : stress_matrix_3d_type_t := b 0 0 0
  forLoop n (fun i r =>
    forLoop n (fun j r =>
      forLoop n (fun k r =>
        r.set i j k (Binary32.mul v (a i j k))) r) r) r

/-- Function `stress_matrix_3d_zyx_mult`, matrix scalar multiply: `r[i][j][k] = v * a[i][j][k]`, with `v = b[0][0][0]`. -/
def stress_matrix_3d_zyx_mult (n : Nat) (a b r : Vol) : Vol :=
  let v : stress_matrix_3d_type_t := b 0 0 0
  forLoop n (fun k r =>
    forLoop n (fun j r =>
      forLoop n (fun i r =>
        r.set i j k (Binary32.mul v (a i j k))) r) r) r

/-- Function `stress_matrix_3d_xyz_div`, matrix scalar divide: `r[i][j][k] = a[i][j][k] / v`, with `v = b[0][0][0]`. -/
def stress_matrix_3d_xyz_div (n : Nat) (a b r : Vol) : Vol :=
  let v : stress_matrix_3d_type_t := b 0 0 0
  forLoop n (fun i r =>
    forLoop n (fun j r =>
      forLoop n (fun k r =>
        r.set i j k (Binary32.div (a i j k) v)) r) r) r

/-- Function `stress_matrix_3d_zyx_div`, matrix scalar divide: `r[i][j][k] = a[i][j][k] / v`, with `v = b[0][0][0]`. -/
def stress_matrix_3d_zyx_div (n : Nat) (a b r : Vol) : Vol :=
  let v : stress_matrix_3d_type_t := b 0 0 0
  forLoop n (fun k r =>
    forLoop n (fun j r =>
      forLoop n (fun i r =>
        r.set i j k (Binary32.div (a i j k) v)) r) r) r

/-- Function `stress_matrix_3d_xyz_hadamard`, matrix hadamard product: `r[i][j][k] = a[i][j][k] * b[i][j][k]`. -/
def stress_matrix_3d_xyz_hadamard (n : Nat) (a b r : Vol) : Vol :=
  forLoop n (fun i r =>
    forLoop n (fun j r =>
      forLoop n (fun k r =>
        r.set i j k (Binary32.mul (a i j k) (b i j k))) r) r) r

/-- Function `stress_matrix_3d_zyx_hadamard`, matrix hadamard product: `r[i][j][k] = a[i][j][k] * b[i][j][k]`. -/
def stress_matrix_3d_zyx_hadamard (n : Nat) (a b r : Vol) : Vol :=
  forLoop n (fun k r =>
    forLoop n (fun j r =>
      forLoop n (fun i r =>
        r.set i j k (Binary32.mul (a i j k) (b i j k))) r) r) r

/-- The accumulator `sum` of `stress_matrix_3d_xyz_frobenius` after its loops:
`sum = 0.0; ... sum += a[i][j][k] * b[i][j][k]`. -/
def stress_matrix_3d_xyz_frobenius_sum (n : Nat) (a b : Vol) : stress_matrix_3d_type_t :=
  forLoop n (fun i sum =>
    forLoop n (fun j sum =>
      forLoop n (fun k sum =>
        Binary32.add sum (Binary32.mul (a i j k) (b i j k))) sum) sum) Binary32.zero

/-- Function `stress_matrix_3d_xyz_frobenius`, matrix frobenius product: it accumulates
`stress_matrix_3d_xyz_frobenius_sum`, hands it to `stress_float_put`, and never assigns to
`r` (`(void)r`). The pair is the final `r` and the value put. -/
def stress_matrix_3d_xyz_frobenius_put (n : Nat) (a b r : Vol) : Vol × stress_matrix_3d_type_t :=
  (r, stress_matrix_3d_xyz_frobenius_sum n a b)

/-- The effect of `stress_matrix_3d_xyz_frobenius` on the result array `r`. -/
def stress_matrix_3d_xyz_frobenius (n : Nat) (a b r : Vol) : Vol :=
  (stress_matrix_3d_xyz_frobenius_put n a b r).1

/-- The accumulator `sum` of `stress_matrix_3d_zyx_frobenius` after its loops:
`sum = 0.0; ... sum += a[i][j][k] * b[i][j][k]`. -/
def stress_matrix_3d_zyx_frobenius_sum (n : Nat) (a b : Vol) : stress_matrix_3d_type_t :=
  forLoop n (fun k sum =>
    forLoop n (fun j sum =>
      forLoop n (fun i sum =>
        Binary32.add sum (Binary32.mul (a i j k) (b i j k))) sum) sum) Binary32.zero

/-- Function `stress_matrix_3d_zyx_frobenius`, matrix frobenius product: it accumulates
`stress_matrix_3d_zyx_frobenius_sum`, hands it to `stress_float_put`, and never assigns to
`r` (`(void)r`). The pair is the final `r` and the value put. -/
def stress_matrix_3d_zyx_frobenius_put (n : Nat) (a b r : Vol) : Vol × stress_matrix_3d_type_t :=
  (r, stress_matrix_3d_zyx_frobenius_sum n a b)

/-- The effect of `stress_matrix_3d_zyx_frobenius` on the result array `r`. -/
def stress_matrix_3d_zyx_frobenius (n : Nat) (a b r : Vol) : Vol :=
  (stress_matrix_3d_zyx_frobenius_put n a b r).1

/-- Function `stress_matrix_3d_xyz_copy`, naive matrix copy: `r[i][j][k] = a[i][j][k]`. -/
def stress_matrix_3d_xyz_copy (n : Nat) (a b r : Vol) : Vol :=
  forLoop n (fun i r =>
    forLoop n (fun j r =>
      forLoop n (fun k r =>
        r.set i j k (a i j k)) r) r) r

/-- Function `stress_matrix_3d_zyx_copy`, naive matrix copy: `r[i][j][k] = a[i][j][k]`. -/
def stress_matrix_3d_zyx_copy (n : Nat) (a b r : Vol) : Vol :=
  forLoop n (fun k r =>
    forLoop n (fun j r =>
      forLoop n (fun i r =>
        r.set i j k (a i j k)) r) r) r

/-- Function `stress_matrix_3d_xyz_mean`, arithmetic mean: `r[i][j][k] = (a[i][j][k] + b[i][j][k]) / 2.0`. -/
def stress_matrix_3d_xyz_mean (n : Nat) (a b r : Vol) : Vol :=
  forLoop n (fun i r =>
    forLoop n (fun j r =>
      forLoop n (fun k r =>
        r.set i j k (Binary32.div (Binary32.add (a i j k) (b i j k)) Binary32.two)) r) r) r

/-- Function `stress_matrix_3d_zyx_mean`, arithmetic mean: `r[i][j][k] = (a[i][j][k] + b[i][j][k]) / 2.0`. -/
def stress_matrix_3d_zyx_mean (n : Nat) (a b r : Vol) : Vol :=
  forLoop n (fun k r =>
    forLoop n (fun j r =>
      forLoop n (fun i r =>
        r.set i j k (Binary32.div (Binary32.add (a i j k) (b i j k)) Binary32.two)) r) r) r

/-- Function `stress_matrix_3d_xyz_zero`, zero the result matrix: `r[i][j][k] = 0.0`. -/
def stress_matrix_3d_xyz_zero (n : Nat) (a b r : Vol) : Vol :=
  forLoop n (fun i r =>
    forLoop n (fun j r =>
      forLoop n (fun k r =>
        r.set i j k Binary32.zero) r) r) r

/-- Function `stress_matrix_3d_zyx_zero`, zero the result matrix: `r[i][j][k] = 0.0`. -/
def stress_matrix_3d_zyx_zero (n : Nat) (a b r : Vol) : Vol :=
  forLoop n (fun k r =>
    forLoop n (fun j r =>
      forLoop n (fun i r =>
        r.set i j k Binary32.zero) r) r) r

/-- Function `stress_matrix_3d_xyz_negate`, negate the matrix a and put the result in r: `r[i][j][k] = -a[i][j][k]`. -/
def stress_matrix_3d_xyz_negate (n : Nat) (a b r : Vol) : Vol :=
  forLoop n (fun i r =>
    forLoop n (fun j r =>
      forLoop n (fun k r =>
        r.set i j k (Binary32.neg (a i j k))) r) r) r

/-- Function `stress_matrix_3d_zyx_negate`, negate the matrix a and put the result in r: `r[i][j][k] = -a[i][j][k]`. -/
def stress_matrix_3d_zyx_negate (n : Nat) (a b r : Vol) : Vol :=
  forLoop n (fun k r =>
    forLoop n (fun j r =>
      forLoop n (fun i r =>
        r.set i j k (Binary32.neg (a i j k))) r) r) r

/-- Function `stress_matrix_3d_xyz_identity`, set r to the identity matrix: `r[i][j][k] = ((i == j) && (j == k)) ? 1.0 : 0.0`. -/
def stress_matrix_3d_xyz_identity (n : Nat) (a b r : Vol) : Vol :=
  forLoop n (fun i r =>
    forLoop n (fun j r =>
      forLoop n (fun k r =>
        r.set i j k (if i = j ∧ j = k then Binary32.one else Binary32.zero)) r) r) r

/-- Function `stress_matrix_3d_zyx_identity`, set r to the identity matrix: `r[i][j][k] = ((i == j) && (j == k)) ? 1.0 : 0.0`. -/
def stress_matrix_3d_zyx_identity (n : Nat) (a b r : Vol) : Vol :=
  forLoop n (fun k r =>
    forLoop n (fun j r =>
      forLoop n (fun i r =>
        r.set i j k (if i = j ∧ j = k then Binary32.one else Binary32.zero)) r) r) r

/-! ## The method table -/

/-- The functions a `stress_matrix_3d_func_t` pointer of the program can
designate. -/
inductive stress_matrix_3d_func_t where
  | xyz_all | zyx_all
  | xyz_add | zyx_add
  | xyz_sub | zyx_sub
  | xyz_trans | zyx_trans
  | xyz_mult | zyx_mult
  | xyz_div | zyx_div
  | xyz_hadamard | zyx_hadamard
  | xyz_frobenius | zyx_frobenius
  | xyz_copy | zyx_copy
  | xyz_mean | zyx_mean
  | xyz_zero | zyx_zero
  | xyz_negate | zyx_negate
  | xyz_identity | zyx_identity
  deriving DecidableEq, Repr

/-- The C struct `stress_matrix_3d_method_info_t`: a name and the array
`func[2]` (x by y by z, z by y by x). -/
structure stress_matrix_3d_method_info_t where
  name : String
  func : List stress_matrix_3d_func_t
  deriving DecidableEq, Repr

/-- Table `matrix_3d_methods[]`. -/
def matrix_3d_methods : List stress_matrix_3d_method_info_t := [
  { name := "all", func := [.xyz_all, .zyx_all] },
  { name := "add", func := [.xyz_add, .zyx_add] },
  { name := "copy", func := [.xyz_copy, .zyx_copy] },
  { name := "div", func := [.xyz_div, .zyx_div] },
  { name := "frobenius", func := [.xyz_frobenius, .zyx_frobenius] },
  { name := "hadamard", func := [.xyz_hadamard, .zyx_hadamard] },
  { name := "identity", func := [.xyz_identity, .zyx_identity] },
  { name := "mean", func := [.xyz_mean, .zyx_mean] },
  { name := "mult", func := [.xyz_mult, .zyx_mult] },
  { name := "negate", func := [.xyz_negate, .zyx_negate] },
  { name := "sub", func := [.xyz_sub, .zyx_sub] },
  { name := "trans", func := [.xyz_trans, .zyx_trans] },
  { name := "zero", func := [.xyz_zero, .zyx_zero] }
]

/-- What a call through a pointer to one of the plain kernels does to its
fourth argument. The two `all` wrappers are not plain kernels: they work on the
file-scope state, see `stress_matrix_3d_xyz_all`. -/
def kernel_of : stress_matrix_3d_func_t → Option (Nat → Vol → Vol → Vol → Vol)
  | .xyz_all => none
  | .zyx_all => none
  | .xyz_add => some stress_matrix_3d_xyz_add
  | .zyx_add => some stress_matrix_3d_zyx_add
  | .xyz_sub => some stress_matrix_3d_xyz_sub
  | .zyx_sub => some stress_matrix_3d_zyx_sub
  | .xyz_trans => some stress_matrix_3d_xyz_trans
  | .zyx_trans => some stress_matrix_3d_zyx_trans
  | .xyz_mult => some stress_matrix_3d_xyz_mult
  | .zyx_mult => some stress_matrix_3d_zyx_mult
  | .xyz_div => some stress_matrix_3d_xyz_div
  | .zyx_div => some stress_matrix_3d_zyx_div
  | .xyz_hadamard => some stress_matrix_3d_xyz_hadamard
  | .zyx_hadamard => some stress_matrix_3d_zyx_hadamard
  | .xyz_frobenius => some stress_matrix_3d_xyz_frobenius
  | .zyx_frobenius => some stress_matrix_3d_zyx_frobenius
  | .xyz_copy => some stress_matrix_3d_xyz_copy
  | .zyx_copy => some stress_matrix_3d_zyx_copy
  | .xyz_mean => some stress_matrix_3d_xyz_mean
  | .zyx_mean => some stress_matrix_3d_zyx_mean
  | .xyz_zero => some stress_matrix_3d_xyz_zero
  | .zyx_zero => some stress_matrix_3d_zyx_zero
  | .xyz_negate => some stress_matrix_3d_xyz_negate
  | .zyx_negate => some stress_matrix_3d_zyx_negate
  | .xyz_identity => some stress_matrix_3d_xyz_identity
  | .zyx_identity => some stress_matrix_3d_zyx_identity

/-! ## File-scope state and the collaborators of the exercise loop -/

/-- The four buffers of `stress_matrix_3d_exercise`. -/
inductive Buf where
  | a | b | r | s
  deriving DecidableEq, Repr

/-- The C struct `stress_metrics_t` as used here: accumulated duration (in clock
units) and number of invocations. -/
structure stress_metrics_t where
  duration : Int
  count : Nat
  deriving DecidableEq, Repr

/-- Calls to collaborators and calls through function pointers, in the order
they are made. -/
inductive Event where
  | call (f : stress_matrix_3d_func_t) (target : Buf)
  | bogo_inc
  | pr_fail (msg : String)
  | stress_continue (result : Bool)
  | mmap (target : Buf) (size : Nat) (ok : Bool)
  | munmap (target : Buf) (size : Nat)
  | stress_metrics_set (idx : Nat) (description : String) (rate : ℚ)
  deriving DecidableEq, Repr

/-- What the run is given from outside: `args->name`, the verify flag
`g_opt_flags & OPT_FLAGS_VERIFY`, the values returned by the successive
calls of `stress_time_now()`, `stress_continue(args)` and `stress_mwc64()`,
`args->page_size`, and whether the successive calls of `mmap` succeed (call 0
maps `a`, call 1 maps `b`, call 2 maps `r`, call 3 maps `s`). -/
structure Env where
  name : String
  verify : Bool
  time_now : Nat → Int
  stress_continue : Nat → Bool
  stress_mwc64 : Nat → Nat
  page_size : Nat
  mmap_ok : Nat → Bool

/-- The file-scope variables `current_method`, `method_all_index` and
`matrix_3d_metrics[]`, the contents of the buffers `a`, `b`, `r`, `s`, how many
times each collaborator has been called, the bogo-op counter, and the events so
far. -/
structure State where
  current_method : String
  method_all_index : Nat
  matrix_3d_metrics : Nat → stress_metrics_t
  a : Vol
  b : Vol
  r : Vol
  s : Vol
  time_calls : Nat
  continue_calls : Nat
  mwc64_calls : Nat
  bogo : Nat
  trace : List Event

namespace State

/-- Contents of a buffer. -/
def buf (st : State) : Buf → Vol
  | .a => st.a
  | .b => st.b
  | .r => st.r
  | .s => st.s

/-- Replace the contents of a buffer. -/
def setBuf (st : State) (t : Buf) (v : Vol) : State :=
  match t with
  | .a => { st with a := v }
  | .b => { st with b := v }
  | .r => { st with r := v }
  | .s => { st with s := v }

/-- Record an event. -/
def log (st : State) (e : Event) : State := { st with trace := st.trace ++ [e] }

/-- One more call of `stress_time_now()` has been made. -/
def tick (st : State) : State := { st with time_calls := st.time_calls + 1 }

/-- The statement `matrix_3d_metrics[i].duration += d`. -/
def add_duration (st : State) (i : Nat) (d : Int) : State :=
  { st with matrix_3d_metrics := fun x =>
      if x = i then { duration := (st.matrix_3d_metrics x).duration + d,
                      count := (st.matrix_3d_metrics x).count }
      else st.matrix_3d_metrics x }

/-- The statement `matrix_3d_metrics[i].count += 1.0`. -/
def add_count (st : State) (i : Nat) : State :=
  { st with matrix_3d_metrics := fun x =>
      if x = i then { duration := (st.matrix_3d_metrics x).duration,
                      count := (st.matrix_3d_metrics x).count + 1 }
      else st.matrix_3d_metrics x }

end State

/-- The call `stress_bogo_inc(args)`. -/
def stress_bogo_inc (st : State) : State :=
  { st with bogo := st.bogo + 1, trace := st.trace ++ [Event.bogo_inc] }

/-- The test `shim_memcmp(r, s, matrix_3d_size)` with
`matrix_3d_size = sizeof(stress_matrix_3d_type_t) * n * n * n`: true (nonzero)
when some element inside the `n`-cube differs. -/
def shim_memcmp (r s : Vol) (n : Nat) : Bool :=
  !decide (∀ i, i < n → ∀ j, j < n → ∀ k, k < n → r i j k = s i j k)

/-- A call through a function pointer that designates a plain kernel, with
`a`, `b` and the buffer `target` as arguments. A pointer to an `all` wrapper
has no result here. -/
def call_kernel (f : stress_matrix_3d_func_t) (n : Nat) (target : Buf) (st : State) :
    Option State :=
  match kernel_of f with
  | none => none
  | some kernel =>
    some ((st.setBuf target (kernel n st.a st.b (st.buf target))).log (Event.call f target))

/-- Function `stress_matrix_3d_xyz_all`, called with result buffer `target`.
No result when `method_all_index` is outside the table, or is 0 (the wrapper
would call itself without end). -/
def stress_matrix_3d_xyz_all (env : Env) (n : Nat) (target : Buf) (st : State) : Option State :=
  match matrix_3d_methods[st.method_all_index]? with
  | none => none
  | some m =>
    let st := { st with current_method := m.name }
    let t := env.time_now st.time_calls
    let st := st.tick
    match m.func[0]? with
    | none => none
    | some f =>
      match call_kernel f n target st with
      | none => none
      | some st =>
        let t1 := env.time_now st.time_calls
        let st := st.tick
        let st := st.add_duration st.method_all_index (t1 - t)
        let st := st.add_count st.method_all_index
        some st

/-- Function `stress_matrix_3d_zyx_all`, called with result buffer `target`. -/
def stress_matrix_3d_zyx_all (env : Env) (n : Nat) (target : Buf) (st : State) : Option State :=
  match matrix_3d_methods[st.method_all_index]? with
  | none => none
  | some m =>
    let st := { st with current_method := m.name }
    let t := env.time_now st.time_calls
    let st := st.tick
    match m.func[1]? with
    | none => none
    | some f =>
      match call_kernel f n target st with
      | none => none
      | some st =>
        let t1 := env.time_now st.time_calls
        let st := st.tick
        let st := st.add_duration st.method_all_index (t1 - t)
        let st := st.add_count st.method_all_index
        some st

/-- The call `func(n, a, b, target)` made by the exercise loop. -/
def call_func (env : Env) (func : stress_matrix_3d_func_t) (n : Nat) (target : Buf)
    (st : State) : Option State :=
  match func with
  | .xyz_all => stress_matrix_3d_xyz_all env n target (st.log (Event.call .xyz_all target))
  | .zyx_all => stress_matrix_3d_zyx_all env n target (st.log (Event.call .zyx_all target))
  | f => call_kernel f n target st

/-! ## The exercise routine -/

/-- Contents of a fresh anonymous private mapping: zero bytes, that is the float
`0.0`, everywhere. -/
def mmap_zero : Vol := fun _ _ _ => Binary32.zero

/-- The pointer `func = matrix_3d_methods[matrix_3d_method].func[matrix_3d_zyx]`
of `stress_matrix_3d_exercise`. -/
def exercise_func (matrix_3d_method matrix_3d_zyx : Nat) : Option stress_matrix_3d_func_t :=
  match matrix_3d_methods[matrix_3d_method]? with
  | none => none
  | some m => m.func[matrix_3d_zyx]?

/-- State of `stress_matrix_3d_exercise` once `method_all_index = 1`,
`current_method = matrix_3d_methods[matrix_3d_method].name` and the metrics are
zeroed; the buffer fields hold what fresh mappings hold. -/
def exercise_setup (matrix_3d_method : Nat) : Option State :=
  match matrix_3d_methods[matrix_3d_method]? with
  | none => none
  | some m =>
    some { current_method := m.name
           method_all_index := 1
           matrix_3d_metrics := fun _ => { duration := 0, count := 0 }
           a := mmap_zero
           b := mmap_zero
           r := mmap_zero
           s := mmap_zero
           time_calls := 0
           continue_calls := 0
           mwc64_calls := 0
           bogo := 0
           trace := [] }

/-- The constant `v = 65535 / (stress_matrix_3d_type_t)((uint64_t)~0)`. -/
def exercise_v : stress_matrix_3d_type_t :=
  Binary32.div (Binary32.ofUInt64 65535) (Binary32.ofUInt64 (2 ^ 64 - 1))

/-- Function `stress_matrix_data`: `v * (stress_matrix_3d_type_t)stress_mwc64()`;
returns the value and the state after the call of `stress_mwc64`. -/
def stress_matrix_data (env : Env) (v : stress_matrix_3d_type_t) (st : State) :
    stress_matrix_3d_type_t × State :=
  let r : Nat := env.stress_mwc64 st.mwc64_calls % 2 ^ 64
  (Binary32.mul v (Binary32.ofUInt64 r), { st with mwc64_calls := st.mwc64_calls + 1 })

/-- The loops that initialise the matrices:
`a[i][j][k] = stress_matrix_data(v); b[i][j][k] = stress_matrix_data(v); r[i][j][k] = 0.0`. -/
def init_matrices (env : Env) (n : Nat) (st : State) : State :=
  forLoop n (fun i st =>
    forLoop n (fun j st =>
      forLoop n (fun k st =>
        let x := stress_matrix_data env exercise_v st
        let st := x.2.setBuf .a (x.2.a.set i j k x.1)
        let y := stress_matrix_data env exercise_v st
        let st := y.2.setBuf .b (y.2.b.set i j k y.1)
        st.setBuf .r (st.r.set i j k Binary32.zero)) st) st) st

/-- State on entry to the `do ... while (stress_continue(args))` loop. -/
def exercise_loop_entry (env : Env) (matrix_3d_method n : Nat) : Option State :=
  match exercise_setup matrix_3d_method with
  | none => none
  | some st => some (init_matrices env n st)

/-- The statement `pr_fail("%s: %s: data difference between identical matrix-3d
computations\n", args->name, current_method)`. -/
def pr_fail_difference (env : Env) (st : State) : State :=
  st.log (Event.pr_fail (env.name ++ ": " ++ st.current_method ++
    ": data difference between identical matrix-3d computations\n"))

/-- The timed call `func(n, a, b, target)` of the loop with its bookkeeping:
`t = stress_time_now(); func(...); matrix_3d_metrics[matrix_3d_method].duration +=
stress_time_now() - t; matrix_3d_metrics[matrix_3d_method].count += 1.0;
stress_bogo_inc(args)`. -/
def timed_call (env : Env) (func : stress_matrix_3d_func_t) (matrix_3d_method n : Nat)
    (target : Buf) (st : State) : Option State :=
  let t := env.time_now st.time_calls
  let st := st.tick
  match call_func env func n target st with
  | none => none
  | some st =>
    let t1 := env.time_now st.time_calls
    let st := st.tick
    let st := st.add_duration matrix_3d_method (t1 - t)
    let st := st.add_count matrix_3d_method
    some (stress_bogo_inc st)

/-- The `if (verify)` block of the loop body: the timed call into `s`, then the
comparison of `r` and `s`. -/
def verify_block (env : Env) (func : stress_matrix_3d_func_t) (matrix_3d_method n : Nat)
    (st : State) : Option State :=
  if env.verify then
    match timed_call env func matrix_3d_method n .s st with
    | none => none
    | some st => some (if shim_memcmp st.r st.s n then pr_fail_difference env st else st)
  else some st

/-- The `if (matrix_3d_method == 0)` block that ends the loop body. -/
def advance_all_index (matrix_3d_method : Nat) (st : State) : State :=
  if matrix_3d_method = 0 then
    let st := { st with method_all_index := st.method_all_index + 1 }
    if st.method_all_index ≥ matrix_3d_methods.length then { st with method_all_index := 1 }
    else st
  else st

/-- One execution of the body of the `do ... while` loop. -/
def loop_body (env : Env) (func : stress_matrix_3d_func_t) (matrix_3d_method n : Nat)
    (st : State) : Option State :=
  match timed_call env func matrix_3d_method n .r st with
  | none => none
  | some st =>
    match verify_block env func matrix_3d_method n st with
    | none => none
    | some st => some (advance_all_index matrix_3d_method st)

/-- The evaluation of the loop condition `stress_continue(args)`: its value and
the state after the call. -/
def loop_condition (env : Env) (st : State) : Bool × State :=
  let c := env.stress_continue st.continue_calls
  (c, { st with continue_calls := st.continue_calls + 1,
                trace := st.trace ++ [Event.stress_continue c] })

/-- One loop iteration: the body, then the evaluation of the loop condition. -/
def loop_pass (env : Env) (func : stress_matrix_3d_func_t) (matrix_3d_method n : Nat)
    (st : State) : Option State :=
  match loop_body env func matrix_3d_method n st with
  | none => none
  | some st => some (loop_condition env st).2

/-- State after `k` loop iterations of a run that makes at least `k` of them. -/
def loop_passes (env : Env) (func : stress_matrix_3d_func_t) (matrix_3d_method n : Nat) :
    Nat → State → Option State
  | 0, st => some st
  | k + 1, st =>
    match loop_passes env func matrix_3d_method n k st with
    | none => none
    | some st => loop_pass env func matrix_3d_method n st

/-- The `do ... while (stress_continue(args))` loop, cut off after `fuel`
iterations: `none` when an iteration has no result or the loop is still running
when the fuel is spent. -/
def exercise_loop (env : Env) (func : stress_matrix_3d_func_t) (matrix_3d_method n : Nat) :
    Nat → State → Option State
  | 0, _ => none
  | fuel + 1, st =>
    match loop_body env func matrix_3d_method n st with
    | none => none
    | some st =>
      let c := loop_condition env st
      if c.1 then exercise_loop env func matrix_3d_method n fuel c.2 else some c.2

/-- The calls through function pointers recorded in a trace. -/
def calls_of : List Event → List (stress_matrix_3d_func_t × Buf)
  | [] => []
  | Event.call f t :: es => (f, t) :: calls_of es
  | _ :: es => calls_of es

/-- The failure messages recorded in a trace. -/
def fails_of : List Event → List String
  | [] => []
  | Event.pr_fail msg :: es => msg :: fails_of es
  | _ :: es => fails_of es

/-- The arrays `r` and `s` agree on the whole `n`-cube. -/
def cube_eq (n : Nat) (r s : Vol) : Prop :=
  ∀ i, i < n → ∀ j, j < n → ∀ k, k < n → r i j k = s i j k

/-! ## Auxiliary definitions used in statements -/

/-- The array that holds `F x y z` at every index inside the `n`-cube and the
contents of `r` elsewhere. -/
def Vol.fill (n : Nat) (F : Nat → Nat → Nat → stress_matrix_3d_type_t) (r : Vol) : Vol :=
  fun x y z => if x < n ∧ y < n ∧ z < n then F x y z else r x y z

/-- The array with the same value in every cell. -/
def Vol.const (v : stress_matrix_3d_type_t) : Vol := fun _ _ _ => v

/-- An array with pairwise different small integers in the 16-cube:
cell `[i][j][k]` holds `(float)((i * 16 + j) * 16 + k)`. -/
def Vol.sample : Vol := fun i j k => Binary32.ofUInt64 ((i * 16 + j) * 16 + k)

/-- The events of one call `func(n, a, b, target)` of the loop that ends up
running the plain kernel `f`: directly when a fixed method is configured, through
the all wrapper `func` when `matrix_3d_method` is 0. -/
def call_events (matrix_3d_method : Nat) (func f : stress_matrix_3d_func_t) (target : Buf) :
    List Event :=
  if matrix_3d_method = 0 then [Event.call func target, Event.call f target]
  else [Event.call f target]

/-- How the state `st1` after one timed call `func(n, a, b, target)` of the loop
(bookkeeping and `stress_bogo_inc` included) relates to the state `st` before it,
when the call runs the plain kernel `f` with effect `kern`. -/
structure CallEffect (matrix_3d_method : Nat) (func f : stress_matrix_3d_func_t)
    (kern : Nat → Vol → Vol → Vol → Vol) (n : Nat) (target : Buf) (st st1 : State) : Prop where
  buf_target : st1.buf target = kern n st.a st.b (st.buf target)
  buf_other : ∀ t, t ≠ target → st1.buf t = st.buf t
  index : st1.method_all_index = st.method_all_index
  name_all : matrix_3d_method = 0 →
    ∃ m, matrix_3d_methods[st.method_all_index]? = some m ∧ st1.current_method = m.name
  name_fixed : matrix_3d_method ≠ 0 → st1.current_method = st.current_method
  trace : st1.trace = st.trace ++ call_events matrix_3d_method func f target ++ [Event.bogo_inc]
  time_calls : st1.time_calls = st.time_calls + (if matrix_3d_method = 0 then 4 else 2)
  continue_calls : st1.continue_calls = st.continue_calls
  bogo : st1.bogo = st.bogo + 1
  count : ∀ i, (st1.matrix_3d_metrics i).count = (st.matrix_3d_metrics i).count
    + (if i = matrix_3d_method then 1 else 0)
    + (if matrix_3d_method = 0 ∧ i = st.method_all_index then 1 else 0)

/-- Number of timed calls one loop iteration makes: 2 with verification, else 1. -/
def calls_per_pass (env : Env) : Nat := if env.verify then 2 else 1

/-- The value of `method_all_index` after the `if (matrix_3d_method == 0)` block
that ends an iteration, from its value `idx` before. -/
def next_index (matrix_3d_method idx : Nat) : Nat :=
  if matrix_3d_method = 0 then (if idx + 1 ≥ 13 then 1 else idx + 1) else idx

/-- How the state `st1` after one loop iteration (`loop_pass`) relates to the
state `st` before it, when the iteration runs the plain kernel `f` with effect
`kern`. -/
structure PassEffect (env : Env) (matrix_3d_method : Nat) (func f : stress_matrix_3d_func_t)
    (kern : Nat → Vol → Vol → Vol → Vol) (n : Nat) (st st1 : State) : Prop where
  a : st1.a = st.a
  b : st1.b = st.b
  r : st1.r = kern n st.a st.b st.r
  s : st1.s = if env.verify then kern n st.a st.b st.s else st.s
  index : st1.method_all_index = next_index matrix_3d_method st.method_all_index
  name_all : matrix_3d_method = 0 →
    ∃ m, matrix_3d_methods[st.method_all_index]? = some m ∧ st1.current_method = m.name
  name_fixed : matrix_3d_method ≠ 0 → st1.current_method = st.current_method
  trace : st1.trace = st.trace
    ++ call_events matrix_3d_method func f Buf.r ++ [Event.bogo_inc]
    ++ (if env.verify then
          call_events matrix_3d_method func f Buf.s ++ [Event.bogo_inc]
            ++ (if shim_memcmp st1.r st1.s n then
                  [Event.pr_fail (env.name ++ ": " ++ st1.current_method ++
                    ": data difference between identical matrix-3d computations\n")]
                else [])
        else [])
    ++ [Event.stress_continue (env.stress_continue st.continue_calls)]
  continue_calls : st1.continue_calls = st.continue_calls + 1
  bogo : st1.bogo = st.bogo + calls_per_pass env
  count : ∀ i, (st1.matrix_3d_metrics i).count = (st.matrix_3d_metrics i).count
    + calls_per_pass env * ((if i = matrix_3d_method then 1 else 0)
        + (if matrix_3d_method = 0 ∧ i = st.method_all_index then 1 else 0))

/-- A sample environment: run name `matrix-3d`, verification enabled, a clock
that advances by one unit per reading, a continuation predicate that is always
true, the random numbers `2^40 * k` for the `k`-th draw, pages of 4096 bytes and
mappings that all succeed. -/
def Env.sample : Env :=
  { name := "matrix-3d"
    verify := true
    time_now := fun k => (k : Int)
    stress_continue := fun _ => true
    stress_mwc64 := fun k => 2 ^ 40 * k
    page_size := 4096
    mmap_ok := fun _ => true }

/-- Whether a datum is finite and in canonical form: significand below `2^24`,
exponent in `-149..104`, and significand at least `2^23` unless the exponent is
`-149`. -/
def Binary32.isCanonical : Binary32 → Bool
  | Binary32.fin _ m e => decide (m < 2 ^ 24 ∧ -149 ≤ e ∧ e ≤ 104 ∧ (2 ^ 23 ≤ m ∨ e = -149))
  | _ => false

/-- The rational value of a finite datum. -/
def Binary32.toRat : Binary32 → Option ℚ
  | Binary32.fin s m e => some ((Binary32.signed s m : ℚ) * (2 : ℚ) ^ e)
  | _ => none

/-- The float sum `a + b` is finite and exact: its value is the sum of the values
of `a` and `b`. -/
def Binary32.exactSum (a b : Binary32) : Prop :=
  ∃ x y : ℚ, a.toRat = some x ∧ b.toRat = some y ∧ (Binary32.add a b).toRat = some (x + y)

/-! ## Page rounding, the method option, and the whole exercise routine -/

/-- Function `round_up`, on a 64-bit `size_t`:
`page_size = (page_size == 0) ? 4096 : page_size;
return (n + page_size - 1) & (~(page_size - 1));`. -/
def round_up (page_size n : Nat) : Nat :=
  let page_size := if page_size = 0 then 4096 else page_size
  ((n + page_size - 1) % 2 ^ 64) &&& (2 ^ 64 - 1 - (page_size - 1) % 2 ^ 64)

/-- The value `matrix_3d_size = sizeof(stress_matrix_3d_type_t) * n * n * n`, on
a 64-bit `size_t` with 4-byte floats. -/
def exercise_matrix_3d_size (n : Nat) : Nat := (4 * n * n * n) % 2 ^ 64

/-- What a call of `stress_set_matrix_3d_method` does: its return value, the
value it stores under `matrix-3d-method` (if it stores one), and the strings it
writes to `stderr`, in order. -/
structure SetMethodResult where
  ret : Int
  setting : Option Nat
  stderr : List String
  deriving DecidableEq, Repr

/-- The first loop of `stress_set_matrix_3d_method`: the index at which it stores
the setting and returns, if any (`strcmp` returning 0 is equality of the names). -/
def set_method_search (name : String) : Option Nat :=
  forLoop matrix_3d_methods.length (fun matrix_3d_method found =>
    match found with
    | some i => some i
    | none =>
      match matrix_3d_methods[matrix_3d_method]? with
      | none => none
      | some m => if m.name = name then some matrix_3d_method else none) none

/-- The writes to `stderr` of `stress_set_matrix_3d_method` when no name matched:
the heading, then `" %s"` for every table entry, then the newline. -/
def set_method_usage : List String :=
  let out := ["matrix-3d-method must be one of:"]
  let out := forLoop matrix_3d_methods.length (fun matrix_3d_method out =>
    match matrix_3d_methods[matrix_3d_method]? with
    | none => out
    | some m => out ++ [" " ++ m.name]) out
  out ++ ["\n"]

/-- Function `stress_set_matrix_3d_method`. -/
def stress_set_matrix_3d_method (name : String) : SetMethodResult :=
  match set_method_search name with
  | some matrix_3d_method => { ret := 0, setting := some matrix_3d_method, stderr := [] }
  | none => { ret := -1, setting := none, stderr := set_method_usage }

/-- The exit statuses `stress_matrix_3d_exercise` returns; the two macros are
kept symbolic. -/
inductive ExitCode where
  | EXIT_SUCCESS
  | EXIT_NO_RESOURCE
  deriving DecidableEq, Repr

/-- The statement `pr_fail("%s: matrix allocation failed, out of memory\n",
args->name)`. -/
def pr_fail_allocation (env : Env) (st : State) : State :=
  st.log (Event.pr_fail (env.name ++ ": matrix allocation failed, out of memory\n"))

/-- The code from label `tidy_a` on: `munmap(a)`. -/
def tidy_a (size : Nat) (st : State) : State :=
  st.log (Event.munmap Buf.a size)

/-- The code from label `tidy_b` on: `munmap(b)`, then `tidy_a`. -/
def tidy_b (size : Nat) (st : State) : State :=
  tidy_a size (st.log (Event.munmap Buf.b size))

/-- The code from label `tidy_r` on: `munmap(r)`, then `tidy_b`. -/
def tidy_r (size : Nat) (st : State) : State :=
  tidy_b size (st.log (Event.munmap Buf.r size))

/-- One step of the loop that dumps the metrics, for table index `i` and next
slot `j`: when `matrix_3d_metrics[i].duration > 0.0`, the call
`stress_metrics_set(args, j, msg, rate, STRESS_HARMONIC_MEAN)` with `msg` the
entry's name followed by `" matrix-3d ops per sec"` and
`rate = count / duration`, then `j++`. The longest `msg` has 31 characters, so
`snprintf` into the 64-byte buffer never truncates. -/
def dump_step (i : Nat) (p : State × Nat) : State × Nat :=
  if (p.1.matrix_3d_metrics i).duration > 0 then
    match matrix_3d_methods[i]? with
    | none => p
    | some m =>
      (p.1.log (Event.stress_metrics_set p.2 (m.name ++ " matrix-3d ops per sec")
        (((p.1.matrix_3d_metrics i).count : ℚ) / ((p.1.matrix_3d_metrics i).duration : ℚ))),
       p.2 + 1)
  else p

/-- The loop `for (i = 1, j = 0; i < num_matrix_3d_methods; i++)` that dumps the
metrics except for the all method. -/
def dump_metrics (st : State) : State :=
  (forLoop (matrix_3d_methods.length - 1) (fun t p => dump_step (t + 1) p) (st, 0)).1

/-- The code of `stress_matrix_3d_exercise` from the initialisation of the
matrices on, once every mapping has succeeded: initialise, loop, dump the
metrics, unmap `s` if verifying, then `tidy_r`. No result when the loop has
none within `fuel` iterations. -/
def exercise_mapped (env : Env) (func : stress_matrix_3d_func_t)
    (matrix_3d_method n size fuel : Nat) (st : State) : Option (ExitCode × State) :=
  let st := init_matrices env n st
  match exercise_loop env func matrix_3d_method n fuel st with
  | none => none
  | some st =>
    let st := dump_metrics st
    let st := if env.verify then st.log (Event.munmap Buf.s size) else st
    some (ExitCode.EXIT_SUCCESS, tidy_r size st)

/-- Function `stress_matrix_3d_exercise`: its return value and the final state.
The loop is cut off after `fuel` iterations. -/
def stress_matrix_3d_exercise (env : Env) (fuel : Nat)
    (matrix_3d_method matrix_3d_zyx n : Nat) : Option (ExitCode × State) :=
  let matrix_3d_mmap_size := round_up env.page_size (exercise_matrix_3d_size n)
  match exercise_func matrix_3d_method matrix_3d_zyx with
  | none => none
  | some func =>
    match exercise_setup matrix_3d_method with
    | none => none
    | some st =>
      let st := st.log (Event.mmap Buf.a matrix_3d_mmap_size (env.mmap_ok 0))
      if env.mmap_ok 0 = false then
        some (ExitCode.EXIT_NO_RESOURCE, pr_fail_allocation env st)
      else
        let st := st.log (Event.mmap Buf.b matrix_3d_mmap_size (env.mmap_ok 1))
        if env.mmap_ok 1 = false then
          some (ExitCode.EXIT_NO_RESOURCE, tidy_a matrix_3d_mmap_size (pr_fail_allocation env st))
        else
          let st := st.log (Event.mmap Buf.r matrix_3d_mmap_size (env.mmap_ok 2))
          if env.mmap_ok 2 = false then
            some (ExitCode.EXIT_NO_RESOURCE,
              tidy_b matrix_3d_mmap_size (pr_fail_allocation env st))
          else if env.verify then
            let st := st.log (Event.mmap Buf.s matrix_3d_mmap_size (env.mmap_ok 3))
            if env.mmap_ok 3 = false then
              some (ExitCode.EXIT_NO_RESOURCE,
                tidy_r matrix_3d_mmap_size (pr_fail_allocation env st))
            else exercise_mapped env func matrix_3d_method n matrix_3d_mmap_size fuel st
          else exercise_mapped env func matrix_3d_method n matrix_3d_mmap_size fuel st

/-- The buffers mapped successfully according to a trace, in order. -/
def mapped_of : List Event → List Buf
  | [] => []
  | Event.mmap t _ true :: es => t :: mapped_of es
  | _ :: es => mapped_of es

/-- The buffers unmapped according to a trace, in order. -/
def unmapped_of : List Event → List Buf
  | [] => []
  | Event.munmap t _ :: es => t :: unmapped_of es
  | _ :: es => unmapped_of es

/-- The calls of `stress_metrics_set` recorded in a trace: slot, description and
rate, in order. -/
def metrics_of : List Event → List (Nat × String × ℚ)
  | [] => []
  | Event.stress_metrics_set j msg rate :: es => (j, msg, rate) :: metrics_of es
  | _ :: es => metrics_of es

/-- Number of `stress_bogo_inc` calls recorded in a trace. -/
def bogo_incs_of : List Event → Nat
  | [] => 0
  | Event.bogo_inc :: es => bogo_incs_of es + 1
  | _ :: es => bogo_incs_of es

/-- Number of calls of plain kernels (not of the all wrappers) recorded in a
trace. -/
def kernel_calls_of : List Event → Nat
  | [] => 0
  | Event.call f _ :: es => (if (kernel_of f).isSome then 1 else 0) + kernel_calls_of es
  | _ :: es => kernel_calls_of es

/-- The order in which `stress_matrix_3d_exercise` maps its buffers. -/
def acquisition_order : List Buf := [Buf.a, Buf.b, Buf.r, Buf.s]

/-- The run makes exactly `k` loop iterations: `stress_continue` answers true
after each of the first `k - 1` and false after iteration `k`. -/
def stops_after (env : Env) (k : Nat) : Prop :=
  1 ≤ k ∧ (∀ t, t + 1 < k → env.stress_continue t = true) ∧ env.stress_continue (k - 1) = false

/-- Every mapping the run asks for succeeds. -/
def maps_ok (env : Env) : Prop :=
  env.mmap_ok 0 = true ∧ env.mmap_ok 1 = true ∧ env.mmap_ok 2 = true ∧
    (env.verify = true → env.mmap_ok 3 = true)

/-- The time one timed call of the loop adds to `matrix_3d_metrics[i].duration`,
when `tc` calls of `stress_time_now` were made before it and the cursor is
`idx`. With a fixed method the loop reads the clock around the kernel; in all
mode the wrapper reads it around the kernel for entry `idx` and the loop reads it
around the wrapper for entry 0. -/
def call_elapsed (env : Env) (matrix_3d_method idx tc i : Nat) : Int :=
  if matrix_3d_method = 0 then
    (if i = idx then env.time_now (tc + 2) - env.time_now (tc + 1) else 0)
      + (if i = 0 then env.time_now (tc + 3) - env.time_now tc else 0)
  else (if i = matrix_3d_method then env.time_now (tc + 1) - env.time_now tc else 0)

/-- The time one loop iteration adds to `matrix_3d_metrics[i].duration`. -/
def pass_elapsed (env : Env) (matrix_3d_method idx tc i : Nat) : Int :=
  call_elapsed env matrix_3d_method idx tc i
    + (if env.verify then
        call_elapsed env matrix_3d_method idx (tc + (if matrix_3d_method = 0 then 4 else 2)) i
       else 0)

/-- Name of table entry `i` (the empty string outside the table). -/
def method_name (i : Nat) : String :=
  match matrix_3d_methods[i]? with
  | some m => m.name
  | none => ""

/-- The table entries a metric is to be reported for, as the claim about the
dump words it: the entries `i ≥ 1` whose cumulative duration is positive, in
table order. -/
def reported_entries_spec (st : State) : List Nat :=
  (List.range' 1 (matrix_3d_methods.length - 1)).filter
    (fun i => decide (0 < (st.matrix_3d_metrics i).duration))

/-- The metrics to be reported, as the claim about the dump words it: for the
entries of `reported_entries_spec`, in that order and in the consecutive slots
0, 1, 2, ..., the entry's name as label and `count / duration` as rate. -/
def metrics_report_spec (st : State) : List (Nat × String × ℚ) :=
  (reported_entries_spec st).enum.map (fun p =>
    (p.1, method_name p.2 ++ " matrix-3d ops per sec",
      ((st.matrix_3d_metrics p.2).count : ℚ) / ((st.matrix_3d_metrics p.2).duration : ℚ)))

/-- Sum of the invocation counts of the entries `1..N-1` of the metrics table. -/
def kernel_counts_sum (st : State) : Nat :=
  ((List.range' 1 (matrix_3d_methods.length - 1)).map
    (fun i => (st.matrix_3d_metrics i).count)).sum

/-- A second sample environment: verification enabled, a clock that never
advances, a continuation predicate that is false from the start, pages of 4096
bytes and mappings that all succeed. -/
def Env.frozen : Env :=
  { name := "matrix-3d"
    verify := true
    time_now := fun _ => 0
    stress_continue := fun _ => false
    stress_mwc64 := fun k => 2 ^ 40 * k
    page_size := 4096
    mmap_ok := fun _ => true }

/-- A third sample environment: verification disabled, a clock that advances by
one unit per reading, a continuation predicate that is true twice and then
false (three iterations), pages of 4096 bytes and mappings that all succeed. -/
def Env.ticking : Env :=
  { name := "matrix-3d"
    verify := false
    time_now := fun k => (k : Int)
    stress_continue := fun t => decide (t < 2)
    stress_mwc64 := fun k => 2 ^ 40 * k
    page_size := 4096
    mmap_ok := fun _ => true }

/-- The time the first `k` iterations of a run add to
`matrix_3d_metrics[i].duration`: iteration `t` starts after `t` times the clock
readings of one iteration (4 per timed call in all mode, 2 otherwise), with the
cursor at `1 + t % 12` in all mode. -/
def run_elapsed (env : Env) (matrix_3d_method k i : Nat) : Int :=
  ((List.range k).map (fun t =>
    pass_elapsed env matrix_3d_method (1 + t % 12)
      (t * (calls_per_pass env * (if matrix_3d_method = 0 then 4 else 2))) i)).sum

/-- Number of rates a trace reports under the label of table entry `i`. -/
def reports_for (tr : List Event) (i : Nat) : Nat :=
  ((metrics_of tr).map (fun p => p.2.1)).count (method_name i ++ " matrix-3d ops per sec")

/-! ## Evaluations of the continuation predicate, messages, and the size option -/

/-- One step of the count kept by `invocation_gaps`: an evaluation of
`stress_continue` closes the current segment, a call of a plain kernel adds one to
it, any other event leaves it alone. -/
def gaps_step (acc : List Nat × Nat) : Event → List Nat × Nat
  | Event.stress_continue _ => (acc.1 ++ [acc.2], 0)
  | Event.call f _ => (acc.1, acc.2 + (if (kernel_of f).isSome then 1 else 0))
  | _ => acc

/-- The evaluations of `stress_continue` cut a trace into segments. The list
holds, for each segment that an evaluation ends, the number of plain kernel calls
in it, in order; the second component is the number of plain kernel calls after
the last evaluation. -/
def invocation_gaps (tr : List Event) : List Nat × Nat :=
  tr.foldl gaps_step ([], 0)

/-- Whether the characters of `name` occur in `msg` as a contiguous run that
starts at the head of `msg` or later. -/
def mentions_chars (name : List Char) : List Char → Bool
  | [] => name.isEmpty
  | c :: cs => name.isPrefixOf (c :: cs) || mentions_chars name cs

/-- Whether the text `name` occurs in the message `msg`. -/
def mentions (msg name : String) : Bool := mentions_chars name.data msg.data

/-- The array `a` with its first and third index exchanged. -/
def Vol.swap13 (a : Vol) : Vol := fun i j k => a k j i

/-- An array of the 2-cube with `4096.0` in `[0][0][1]`, `1.0` in `[1][0][0]` and
in `[0][1][0]`, and `0.0` elsewhere. -/
def Vol.skew : Vol := fun i j k =>
  if i = 0 ∧ j = 0 ∧ k = 1 then Binary32.fin false (2 ^ 23) (-11)
  else if (i = 1 ∧ j = 0 ∧ k = 0) ∨ (i = 0 ∧ j = 1 ∧ k = 0) then Binary32.one
  else Binary32.zero

/-- The constant `MIN_MATRIX3D_SIZE`. -/
def MIN_MATRIX3D_SIZE : Nat := 16

/-- The constant `MAX_MATRIX3D_SIZE`. -/
def MAX_MATRIX3D_SIZE : Nat := 1024

/-- The constant `DEFAULT_MATRIX3D_SIZE`. -/
def DEFAULT_MATRIX3D_SIZE : Nat := 128

/-- Modelled from the spec: `stress_check_range(opt, val, lo, hi)` is core code
that is not in this source tree. The spec says the edge length is range-checked
to `[16, 1024]`: the check returns when `lo ≤ val ≤ hi`; for any other value the
option is refused and the program does not go on, which is `none` here. -/
def stress_check_range (val lo hi : Nat) : Option Unit :=
  if lo ≤ val ∧ val ≤ hi then some () else none

/-- Function `stress_set_matrix_3d_size`, applied to the number `matrix_3d_size`
that `stress_get_uint64(opt)` returns: the range check against
`MIN_MATRIX3D_SIZE` and `MAX_MATRIX3D_SIZE`, then
`stress_set_setting("matrix-3d-size", ...)`. The result is the value stored as
the `matrix-3d-size` setting. -/
def stress_set_matrix_3d_size (matrix_3d_size : Nat) : Option Nat :=
  match stress_check_range matrix_3d_size MIN_MATRIX3D_SIZE MAX_MATRIX3D_SIZE with
  | none => none
  | some _ => some matrix_3d_size

/-- The settings `stress_matrix_3d` asks `stress_get_setting` for: `none` when
the setting was never stored. -/
structure Settings where
  matrix_3d_method : Option Nat
  matrix_3d_zyx : Option Nat
  matrix_3d_size : Option Nat

/-- The variable `matrix_3d_size` of `stress_matrix_3d` at the call of
`stress_matrix_3d_exercise`: initialised to `DEFAULT_MATRIX3D_SIZE`, overwritten
by the setting when there is one, and otherwise by `MAX_MATRIX3D_SIZE` under
`OPT_FLAGS_MAXIMIZE` and then by `MIN_MATRIX3D_SIZE` under `OPT_FLAGS_MINIMIZE`. -/
def exercise_n (setting : Option Nat) (maximize minimize : Bool) : Nat :=
  let matrix_3d_size := DEFAULT_MATRIX3D_SIZE
  match setting with
  | some v => v
  | none =>
    let matrix_3d_size := if maximize then MAX_MATRIX3D_SIZE else matrix_3d_size
    let matrix_3d_size := if minimize then MIN_MATRIX3D_SIZE else matrix_3d_size
    matrix_3d_size

/-- Function `stress_matrix_3d`: the method defaults to 0 (all) and the order
flag to 0, the size is `exercise_n`, and the result is that of
`stress_matrix_3d_exercise`. The calls of `stress_catch_sigill`, `pr_dbg` and
`stress_set_proc_state` are left out. -/
def stress_matrix_3d (env : Env) (fuel : Nat) (settings : Settings)
    (maximize minimize : Bool) : Option (ExitCode × State) :=
  let matrix_3d_method := settings.matrix_3d_method.getD 0
  let matrix_3d_zyx := settings.matrix_3d_zyx.getD 0
  let matrix_3d_size := exercise_n settings.matrix_3d_size maximize minimize
  stress_matrix_3d_exercise env fuel matrix_3d_method matrix_3d_zyx matrix_3d_size

/-- The calls through function pointers that iteration `t` (counting from 0) of
a run is to make, as the claim about the traversal order words it: the function
`matrix_3d_methods[k].func[zyx]` with `k` the configured method when it is a
fixed kernel and the cursor `1 + t % 12` in all mode (there through the wrapper
`matrix_3d_methods[0].func[zyx]`), into `r` and, with verification, again into
`s`. -/
def pass_calls_spec (env : Env) (matrix_3d_method matrix_3d_zyx t : Nat) :
    List (stress_matrix_3d_func_t × Buf) :=
  match exercise_func matrix_3d_method matrix_3d_zyx,
      exercise_func (if matrix_3d_method = 0 then 1 + t % 12 else matrix_3d_method)
        matrix_3d_zyx with
  | some func, some f =>
    (if matrix_3d_method = 0 then [(func, Buf.r), (f, Buf.r)] else [(f, Buf.r)])
      ++ (if env.verify then
            (if matrix_3d_method = 0 then [(func, Buf.s), (f, Buf.s)] else [(f, Buf.s)])
          else [])
  | _, _ => []

/-- The calls through function pointers that the first `k` iterations of a run
are to make. -/
def run_calls_spec (env : Env) (matrix_3d_method matrix_3d_zyx : Nat) :
    Nat → List (stress_matrix_3d_func_t × Buf)
  | 0 => []
  | t + 1 => run_calls_spec env matrix_3d_method matrix_3d_zyx t
      ++ pass_calls_spec env matrix_3d_method matrix_3d_zyx t

/-- A fourth sample environment: as `Env.frozen`, but the third mapping of a run
(that of `r`) fails. -/
def Env.starved : Env :=
  { Env.frozen with mmap_ok := fun j => decide (j < 2) }

/-- The answers of `stress_continue` recorded in a trace, in order. -/
def continues_of : List Event → List Bool
  | [] => []
  | Event.stress_continue c :: es => c :: continues_of es
  | _ :: es => continues_of es

/-! ## Loops and loop nests -/

theorem forLoop_zero {σ : Type} (body : Nat → σ → σ) (s : σ) : forLoop 0 body s = s := rfl

theorem forLoop_succ {σ : Type} (n : Nat) (body : Nat → σ → σ) (s : σ) :
    forLoop (n + 1) body s = body n (forLoop n body s) := by
  simp [forLoop, List.range_succ, List.foldl_append]

/-- A loop whose pass `t` overwrites the cells selected by `C t` with `F`. -/
theorem forLoop_overwrite (C : Nat → Nat → Nat → Nat → Prop) [∀ t x y z, Decidable (C t x y z)]
    (F : Nat → Nat → Nat → stress_matrix_3d_type_t) (m : Nat) (r : Vol) :
    forLoop m (fun t (r : Vol) => fun x y z => if C t x y z then F x y z else r x y z) r
      = fun x y z => if ∃ t, t < m ∧ C t x y z then F x y z else r x y z := by
  classical
  induction m with
  | zero => funext x y z; simp [forLoop_zero]
  | succ m ih =>
    rw [forLoop_succ, ih]
    funext x y z
    by_cases h1 : C m x y z
    · have : ∃ t, t < m + 1 ∧ C t x y z := ⟨m, by omega, h1⟩
      simp [h1, this]
    · by_cases h2 : ∃ t, t < m ∧ C t x y z
      · have : ∃ t, t < m + 1 ∧ C t x y z := by
          obtain ⟨t, ht, hc⟩ := h2; exact ⟨t, by omega, hc⟩
        simp [h1, h2, this]
      · have : ¬ ∃ t, t < m + 1 ∧ C t x y z := by
          rintro ⟨t, ht, hc⟩
          by_cases e : t = m
          · subst e; exact h1 hc
          · exact h2 ⟨t, by omega, hc⟩
        simp [h1, h2, this]

theorem if_cond_congr {p q : Prop} [Decidable p] [Decidable q] (h : p ↔ q)
    (u v : stress_matrix_3d_type_t) : (if p then u else v) = (if q then u else v) := by
  by_cases hp : p
  · simp [hp, h.mp hp]
  · have hq : ¬ q := fun hq => hp (h.mpr hq)
    simp [hp, hq]

theorem set_eq_ite (G : Nat → Nat → Nat → stress_matrix_3d_type_t) (r : Vol) (i j k : Nat) :
    r.set i j k (G i j k) = fun x y z => if x = i ∧ y = j ∧ z = k then G x y z else r x y z := by
  funext x y z
  unfold Vol.set
  by_cases h : x = i ∧ y = j ∧ z = k
  · obtain ⟨rfl, rfl, rfl⟩ := h; simp
  · simp [h]

/-- Innermost loop of an `xyz` nest: the row `r[i][j][0..m-1]` is written. -/
theorem inner_k (G : Nat → Nat → Nat → stress_matrix_3d_type_t) (i j m : Nat) (r : Vol) :
    forLoop m (fun k (r : Vol) => r.set i j k (G i j k)) r
      = fun x y z => if x = i ∧ y = j ∧ z < m then G x y z else r x y z := by
  simp only [set_eq_ite]
  rw [forLoop_overwrite (fun t x y z => x = i ∧ y = j ∧ z = t)]
  funext x y z
  apply if_cond_congr
  constructor
  · rintro ⟨t, ht, hx, hy, hz⟩; exact ⟨hx, hy, by omega⟩
  · rintro ⟨hx, hy, hz⟩; exact ⟨z, hz, hx, hy, rfl⟩

theorem middle_j_xyz (G : Nat → Nat → Nat → stress_matrix_3d_type_t) (i m n : Nat) (r : Vol) :
    forLoop m (fun j (r : Vol) => forLoop n (fun k (r : Vol) => r.set i j k (G i j k)) r) r
      = fun x y z => if x = i ∧ y < m ∧ z < n then G x y z else r x y z := by
  simp only [inner_k]
  rw [forLoop_overwrite (fun t x y z => x = i ∧ y = t ∧ z < n)]
  funext x y z
  apply if_cond_congr
  constructor
  · rintro ⟨t, ht, hx, hy, hz⟩; exact ⟨hx, by omega, hz⟩
  · rintro ⟨hx, hy, hz⟩; exact ⟨y, hy, hx, rfl, hz⟩

/-- A whole `xyz` nest writing `r[i][j][k] = G i j k` fills the cube with `G`. -/
theorem nest_xyz (G : Nat → Nat → Nat → stress_matrix_3d_type_t) (n : Nat) (r : Vol) :
    forLoop n (fun i (r : Vol) => forLoop n (fun j (r : Vol) =>
      forLoop n (fun k (r : Vol) => r.set i j k (G i j k)) r) r) r = Vol.fill n G r := by
  simp only [middle_j_xyz]
  rw [forLoop_overwrite (fun t x y z => x = t ∧ y < n ∧ z < n)]
  funext x y z
  unfold Vol.fill
  apply if_cond_congr
  constructor
  · rintro ⟨t, ht, hx, hy, hz⟩; exact ⟨by omega, hy, hz⟩
  · rintro ⟨hx, hy, hz⟩; exact ⟨x, hx, rfl, hy, hz⟩

/-- Innermost loop of a `zyx` nest: the column `r[0..m-1][j][k]` is written. -/
theorem inner_i (G : Nat → Nat → Nat → stress_matrix_3d_type_t) (j k m : Nat) (r : Vol) :
    forLoop m (fun i (r : Vol) => r.set i j k (G i j k)) r
      = fun x y z => if x < m ∧ y = j ∧ z = k then G x y z else r x y z := by
  simp only [set_eq_ite]
  rw [forLoop_overwrite (fun t x y z => x = t ∧ y = j ∧ z = k)]
  funext x y z
  apply if_cond_congr
  constructor
  · rintro ⟨t, ht, hx, hy, hz⟩; exact ⟨by omega, hy, hz⟩
  · rintro ⟨hx, hy, hz⟩; exact ⟨x, hx, rfl, hy, hz⟩

theorem middle_j_zyx (G : Nat → Nat → Nat → stress_matrix_3d_type_t) (k m n : Nat) (r : Vol) :
    forLoop m (fun j (r : Vol) => forLoop n (fun i (r : Vol) => r.set i j k (G i j k)) r) r
      = fun x y z => if x < n ∧ y < m ∧ z = k then G x y z else r x y z := by
  simp only [inner_i]
  rw [forLoop_overwrite (fun t x y z => x < n ∧ y = t ∧ z = k)]
  funext x y z
  apply if_cond_congr
  constructor
  · rintro ⟨t, ht, hx, hy, hz⟩; exact ⟨hx, by omega, hz⟩
  · rintro ⟨hx, hy, hz⟩; exact ⟨y, hy, hx, rfl, hz⟩

/-- A whole `zyx` nest writing `r[i][j][k] = G i j k` fills the cube with `G`. -/
theorem nest_zyx (G : Nat → Nat → Nat → stress_matrix_3d_type_t) (n : Nat) (r : Vol) :
    forLoop n (fun k (r : Vol) => forLoop n (fun j (r : Vol) =>
      forLoop n (fun i (r : Vol) => r.set i j k (G i j k)) r) r) r = Vol.fill n G r := by
  simp only [middle_j_zyx]
  rw [forLoop_overwrite (fun t x y z => x < n ∧ y < n ∧ z = t)]
  funext x y z
  unfold Vol.fill
  apply if_cond_congr
  constructor
  · rintro ⟨t, ht, hx, hy, hz⟩; exact ⟨hx, hy, by omega⟩
  · rintro ⟨hx, hy, hz⟩; exact ⟨z, hz, hx, hy, rfl⟩

/-! ## What each kernel leaves in `r` -/

theorem xyz_add_eq (n : Nat) (a b r : Vol) :
    stress_matrix_3d_xyz_add n a b r = Vol.fill n (fun x y z => Binary32.add (a x y z) (b x y z)) r :=
  nest_xyz (fun x y z => Binary32.add (a x y z) (b x y z)) n r

theorem zyx_add_eq (n : Nat) (a b r : Vol) :
    stress_matrix_3d_zyx_add n a b r = Vol.fill n (fun x y z => Binary32.add (a x y z) (b x y z)) r :=
  nest_zyx (fun x y z => Binary32.add (a x y z) (b x y z)) n r

theorem xyz_trans_eq (n : Nat) (a b r : Vol) :
    stress_matrix_3d_xyz_trans n a b r = Vol.fill n (fun x y z => a z y x) r :=
  nest_xyz (fun x y z => a z y x) n r

theorem zyx_trans_eq (n : Nat) (a b r : Vol) :
    stress_matrix_3d_zyx_trans n a b r = Vol.fill n (fun x y z => a z y x) r :=
  nest_zyx (fun x y z => a z y x) n r

theorem xyz_mult_eq (n : Nat) (a b r : Vol) :
    stress_matrix_3d_xyz_mult n a b r = Vol.fill n (fun x y z => Binary32.mul (b 0 0 0) (a x y z)) r :=
  nest_xyz (fun x y z => Binary32.mul (b 0 0 0) (a x y z)) n r

theorem zyx_mult_eq (n : Nat) (a b r : Vol) :
    stress_matrix_3d_zyx_mult n a b r = Vol.fill n (fun x y z => Binary32.mul (b 0 0 0) (a x y z)) r :=
  nest_zyx (fun x y z => Binary32.mul (b 0 0 0) (a x y z)) n r

theorem xyz_div_eq (n : Nat) (a b r : Vol) :
    stress_matrix_3d_xyz_div n a b r = Vol.fill n (fun x y z => Binary32.div (a x y z) (b 0 0 0)) r :=
  nest_xyz (fun x y z => Binary32.div (a x y z) (b 0 0 0)) n r

theorem zyx_div_eq (n : Nat) (a b r : Vol) :
    stress_matrix_3d_zyx_div n a b r = Vol.fill n (fun x y z => Binary32.div (a x y z) (b 0 0 0)) r :=
  nest_zyx (fun x y z => Binary32.div (a x y z) (b 0 0 0)) n r

theorem xyz_hadamard_eq (n : Nat) (a b r : Vol) :
    stress_matrix_3d_xyz_hadamard n a b r = Vol.fill n (fun x y z => Binary32.mul (a x y z) (b x y z)) r :=
  nest_xyz (fun x y z => Binary32.mul (a x y z) (b x y z)) n r

theorem zyx_hadamard_eq (n : Nat) (a b r : Vol) :
    stress_matrix_3d_zyx_hadamard n a b r = Vol.fill n (fun x y z => Binary32.mul (a x y z) (b x y z)) r :=
  nest_zyx (fun x y z => Binary32.mul (a x y z) (b x y z)) n r

theorem xyz_copy_eq (n : Nat) (a b r : Vol) :
    stress_matrix_3d_xyz_copy n a b r = Vol.fill n (fun x y z => a x y z) r :=
  nest_xyz (fun x y z => a x y z) n r

theorem zyx_copy_eq (n : Nat) (a b r : Vol) :
    stress_matrix_3d_zyx_copy n a b r = Vol.fill n (fun x y z => a x y z) r :=
  nest_zyx (fun x y z => a x y z) n r

theorem xyz_mean_eq (n : Nat) (a b r : Vol) :
    stress_matrix_3d_xyz_mean n a b r = Vol.fill n (fun x y z => Binary32.div (Binary32.add (a x y z) (b x y z)) Binary32.two) r :=
  nest_xyz (fun x y z => Binary32.div (Binary32.add (a x y z) (b x y z)) Binary32.two) n r

theorem zyx_mean_eq (n : Nat) (a b r : Vol) :
    stress_matrix_3d_zyx_mean n a b r = Vol.fill n (fun x y z => Binary32.div (Binary32.add (a x y z) (b x y z)) Binary32.two) r :=
  nest_zyx (fun x y z => Binary32.div (Binary32.add (a x y z) (b x y z)) Binary32.two) n r

theorem xyz_zero_eq (n : Nat) (a b r : Vol) :
    stress_matrix_3d_xyz_zero n a b r = Vol.fill n (fun x y z => Binary32.zero) r :=
  nest_xyz (fun x y z => Binary32.zero) n r

theorem zyx_zero_eq (n : Nat) (a b r : Vol) :
    stress_matrix_3d_zyx_zero n a b r = Vol.fill n (fun x y z => Binary32.zero) r :=
  nest_zyx (fun x y z => Binary32.zero) n r

theorem xyz_negate_eq (n : Nat) (a b r : Vol) :
    stress_matrix_3d_xyz_negate n a b r = Vol.fill n (fun x y z => Binary32.neg (a x y z)) r :=
  nest_xyz (fun x y z => Binary32.neg (a x y z)) n r

theorem zyx_negate_eq (n : Nat) (a b r : Vol) :
    stress_matrix_3d_zyx_negate n a b r = Vol.fill n (fun x y z => Binary32.neg (a x y z)) r :=
  nest_zyx (fun x y z => Binary32.neg (a x y z)) n r

theorem xyz_identity_eq (n : Nat) (a b r : Vol) :
    stress_matrix_3d_xyz_identity n a b r = Vol.fill n (fun x y z => if x = y ∧ y = z then Binary32.one else Binary32.zero) r :=
  nest_xyz (fun x y z => if x = y ∧ y = z then Binary32.one else Binary32.zero) n r

theorem zyx_identity_eq (n : Nat) (a b r : Vol) :
    stress_matrix_3d_zyx_identity n a b r = Vol.fill n (fun x y z => if x = y ∧ y = z then Binary32.one else Binary32.zero) r :=
  nest_zyx (fun x y z => if x = y ∧ y = z then Binary32.one else Binary32.zero) n r

theorem xyz_sub_eq (n : Nat) (a b r : Vol) :
    stress_matrix_3d_xyz_sub n a b r = Vol.fill n (fun x y z => Binary32.sub (a x y z) (b x y z)) r :=
  nest_xyz (fun x y z => Binary32.sub (a x y z) (b x y z)) n r

theorem zyx_sub_eq (n : Nat) (a b r : Vol) :
    stress_matrix_3d_zyx_sub n a b r = Vol.fill n (fun x y z => Binary32.add (a x y z) (b x y z)) r :=
  nest_zyx (fun x y z => Binary32.add (a x y z) (b x y z)) n r

theorem xyz_frobenius_eq (n : Nat) (a b r : Vol) : stress_matrix_3d_xyz_frobenius n a b r = r := rfl

theorem zyx_frobenius_eq (n : Nat) (a b r : Vol) : stress_matrix_3d_zyx_frobenius n a b r = r := rfl

theorem fill_inside (n : Nat) (F : Nat → Nat → Nat → stress_matrix_3d_type_t) (r : Vol)
    (i j k : Nat) (hi : i < n) (hj : j < n) (hk : k < n) : Vol.fill n F r i j k = F i j k := by
  simp [Vol.fill, hi, hj, hk]

theorem neg_neg_eq (x : stress_matrix_3d_type_t) : Binary32.neg (Binary32.neg x) = x := by
  cases x <;> simp [Binary32.neg]

/-! ## Rounding of values that need no rounding -/

namespace Binary32

theorem bitLengthAux_le_iff (fuel : Nat) : ∀ m, m < 2 ^ fuel → ∀ n,
    (bitLengthAux fuel m ≤ n ↔ m < 2 ^ n) := by
  induction fuel with
  | zero =>
    intro m hm n
    have h0 : m = 0 := by simpa using hm
    subst h0
    simp [bitLengthAux]
  | succ fuel ih =>
    intro m hm n
    unfold bitLengthAux
    by_cases h0 : m = 0
    · subst h0; simp
    · simp only [h0, if_false]
      have hdiv : m / 2 < 2 ^ fuel := by
        rw [Nat.div_lt_iff_lt_mul (by decide)]
        rw [Nat.pow_succ] at hm
        exact hm
      cases n with
      | zero =>
        simp only [Nat.pow_zero]
        constructor
        · intro h; omega
        · intro h; omega
      | succ n =>
        rw [Nat.succ_le_succ_iff, ih (m / 2) hdiv n, Nat.div_lt_iff_lt_mul (by decide),
          Nat.pow_succ]

theorem bitLength_le_iff (m n : Nat) : bitLength m ≤ n ↔ m < 2 ^ n :=
  bitLengthAux_le_iff m m (Nat.lt_two_pow m) n

theorem bitLength_pos (m : Nat) (hm : m ≠ 0) : 1 ≤ bitLength m := by
  by_contra h
  have h0 : bitLength m ≤ 0 := by omega
  rw [bitLength_le_iff] at h0
  simp at h0
  exact hm h0

theorem bitLength_mul_pow (m d : Nat) (hm : m ≠ 0) :
    bitLength (m * 2 ^ d) = bitLength m + d := by
  apply Nat.le_antisymm
  · rw [bitLength_le_iff, Nat.pow_add]
    have : m < 2 ^ bitLength m := (bitLength_le_iff m _).mp (Nat.le_refl _)
    exact Nat.mul_lt_mul_of_pos_right this (Nat.two_pow_pos d)
  · by_contra h
    have hpos := bitLength_pos m hm
    have h1 : bitLength (m * 2 ^ d) ≤ (bitLength m - 1) + d := by omega
    rw [bitLength_le_iff, Nat.pow_add] at h1
    have h2 : m < 2 ^ (bitLength m - 1) := Nat.lt_of_mul_lt_mul_right h1
    rw [← bitLength_le_iff] at h2
    omega

theorem bitLength_normal (m : Nat) (h1 : 2 ^ 23 ≤ m) (h2 : m < 2 ^ 24) : bitLength m = 24 := by
  apply Nat.le_antisymm
  · exact (bitLength_le_iff m 24).mpr h2
  · by_contra h
    have h3 : bitLength m ≤ 23 := by omega
    rw [bitLength_le_iff] at h3
    omega

/-- The exponent `round` settles on for a value whose canonical form is
`m * 2^e`. -/
theorem canonical_exponent (m : Nat) (e : Int) (hm : m < 2 ^ 24) (he : -149 ≤ e)
    (hn : 2 ^ 23 ≤ m ∨ e = -149) :
    max (e + (bitLength m : Int) - 24) (-149) = e := by
  rcases hn with h | h
  · rw [bitLength_normal m h hm]
    have : e + ((24 : Nat) : Int) - 24 = e := by omega
    rw [this]
    exact max_eq_left he
  · have hb : bitLength m ≤ 24 := (bitLength_le_iff m 24).mpr hm
    subst h
    apply max_eq_right
    omega

/-- Rounding `m * 2^d` at exponent `e - d` gives back the canonical `m`, `e`. -/
theorem round_scaled_up (s : Bool) (m : Nat) (e : Int) (d : Nat) (hm0 : m ≠ 0)
    (hm : m < 2 ^ 24) (he : -149 ≤ e) (he2 : e ≤ 104) (hn : 2 ^ 23 ≤ m ∨ e = -149) :
    round s (m * 2 ^ d) (e - d) = fin s m e := by
  have hM0 : m * 2 ^ d ≠ 0 := Nat.mul_ne_zero hm0 (Nat.pos_iff_ne_zero.mp (Nat.two_pow_pos d))
  have hbits : ((bitLength (m * 2 ^ d) : Nat) : Int) = (bitLength m : Int) + (d : Int) := by
    rw [bitLength_mul_pow m d hm0]; push_cast; rfl
  have he1 : max (e - (d : Int) + ((bitLength (m * 2 ^ d) : Nat) : Int) - 24) (-149) = e := by
    rw [hbits]
    have h := canonical_exponent m e hm he hn
    have h2 : e - (d : Int) + ((bitLength m : Int) + (d : Int)) - 24
        = e + (bitLength m : Int) - 24 := by ring
    rw [h2]; exact h
  unfold round
  simp only [hM0, if_false, he1]
  by_cases hd : d = 0
  · subst hd
    have h104 : ¬ (e > 104) := by omega
    simp [h104]
  · have hle : ¬ (e ≤ e - (d : Int)) := by omega
    have hsh : (e - (e - (d : Int))).toNat = d := by
      have : e - (e - (d : Int)) = (d : Int) := by ring
      rw [this]; exact Int.toNat_natCast d
    have hq : m * 2 ^ d / 2 ^ d = m := Nat.mul_div_cancel m (Nat.two_pow_pos d)
    have hrem : m * 2 ^ d % 2 ^ d = 0 := Nat.mul_mod_left m (2 ^ d)
    have hhalf : 0 < 2 ^ (d - 1) := Nat.two_pow_pos (d - 1)
    have hc : ¬ (0 > 2 ^ (d - 1) ∨ (0 = 2 ^ (d - 1) ∧ m % 2 = 1)) := by
      rintro (h | ⟨h, _⟩) <;> omega
    have h24 : ¬ (m = 2 ^ 24) := by omega
    have h104 : ¬ (e > 104) := by omega
    simp only [hle, if_false, hsh, hq, hrem, hc, h24, h104]

/-- Rounding `M` at exponent `e + d` gives the canonical `M * 2^d`, `e`. -/
theorem round_scaled_down (s : Bool) (M : Nat) (e : Int) (d : Nat) (hM0 : M ≠ 0)
    (hm : M * 2 ^ d < 2 ^ 24) (he : -149 ≤ e) (he2 : e ≤ 104)
    (hn : 2 ^ 23 ≤ M * 2 ^ d ∨ e = -149) :
    round s M (e + d) = fin s (M * 2 ^ d) e := by
  have hbits : ((bitLength (M * 2 ^ d) : Nat) : Int) = (bitLength M : Int) + (d : Int) := by
    rw [bitLength_mul_pow M d hM0]; push_cast; rfl
  have he1 : max (e + (d : Int) + ((bitLength M : Nat) : Int) - 24) (-149) = e := by
    have h := canonical_exponent (M * 2 ^ d) e hm he hn
    rw [hbits] at h
    have h2 : e + (d : Int) + (bitLength M : Int) - 24
        = e + ((bitLength M : Int) + (d : Int)) - 24 := by ring
    rw [h2]; exact h
  unfold round
  simp only [hM0, if_false, he1]
  have hle : e ≤ e + (d : Int) := by omega
  have h104 : ¬ (e > 104) := by omega
  have hsh : (e + (d : Int) - e).toNat = d := by
    have : e + (d : Int) - e = (d : Int) := by ring
    rw [this]; exact Int.toNat_natCast d
  simp only [hle, if_true, h104, if_false, hsh]

/-- The datum `round` returns, when finite, has the sign it was given. -/
theorem round_sign (s : Bool) (M : Nat) (E : Int) (u : Bool) (p : Nat) (g : Int)
    (h : round s M E = fin u p g) : u = s := by
  unfold round at h
  simp only at h
  split_ifs at h <;> simp_all

theorem signed_cast (s : Bool) (m : Nat) :
    ((signed s m : Int) : ℚ) = (if s then -(m : ℚ) else (m : ℚ)) := by
  unfold signed
  cases s <;> simp

theorem signed_not (t : Bool) (k : Nat) : signed (!t) k = - signed t k := by
  unfold signed
  cases t <;> simp

theorem signed_scale (s : Bool) (m : Nat) (e e0 : Int) (h : e0 ≤ e) :
    ((signed s (m * 2 ^ (e - e0).toNat) : Int) : ℚ) * (2 : ℚ) ^ e0
      = ((signed s m : Int) : ℚ) * (2 : ℚ) ^ e := by
  have h2 : (2 : ℚ) ^ e = (2 : ℚ) ^ ((e - e0).toNat : Int) * (2 : ℚ) ^ e0 := by
    rw [← zpow_add₀ (by norm_num : (2 : ℚ) ≠ 0)]
    congr 1
    rw [Int.toNat_of_nonneg (by omega)]
    ring
  rw [h2, zpow_natCast, signed_cast, signed_cast]
  cases s <;> (simp; ring)

/-- The integer `z` that `add` rounds, scaled by `2^e0`, is the exact sum. -/
theorem add_exact_value (s : Bool) (m : Nat) (e : Int) (t : Bool) (k : Nat) (f : Int) :
    (((signed s (m * 2 ^ (e - min e f).toNat) + signed t (k * 2 ^ (f - min e f).toNat) : Int)) : ℚ)
        * (2 : ℚ) ^ (min e f)
      = ((signed s m : Int) : ℚ) * (2 : ℚ) ^ e + ((signed t k : Int) : ℚ) * (2 : ℚ) ^ f := by
  push_cast
  rw [add_mul, signed_scale s m e (min e f) (min_le_left e f),
    signed_scale t k f (min e f) (min_le_right e f)]

theorem signed_neg_iff (s : Bool) (m : Nat) (hm : m ≠ 0) : signed s m < 0 ↔ s = true := by
  unfold signed
  cases s <;> simp
  omega

theorem signed_natAbs (s : Bool) (m : Nat) : (signed s m).natAbs = m := by
  unfold signed
  cases s <;> simp

theorem signed_eq_zero (s : Bool) (m : Nat) : signed s m = 0 ↔ m = 0 := by
  unfold signed
  cases s <;> simp

/-- An integer `z` with `z * 2^e0 = ±m * 2^e` has the sign and the magnitude of
`±m * 2^(e - e0)`. -/
theorem scaled_int (z : Int) (e0 : Int) (s : Bool) (m : Nat) (e : Int) (hm : m ≠ 0)
    (h : (z : ℚ) * (2 : ℚ) ^ e0 = ((signed s m : Int) : ℚ) * (2 : ℚ) ^ e) :
    z ≠ 0 ∧ decide (z < 0) = s ∧
      ((e0 ≤ e ∧ z.natAbs = m * 2 ^ (e - e0).toNat) ∨
       (e < e0 ∧ z.natAbs * 2 ^ (e0 - e).toNat = m)) := by
  have hp0 : (0 : ℚ) < (2 : ℚ) ^ e0 := zpow_pos (by norm_num) e0
  have hp : (0 : ℚ) < (2 : ℚ) ^ e := zpow_pos (by norm_num) e
  by_cases hle : e0 ≤ e
  · -- z = signed s m * 2^(e - e0)
    have hz : z = signed s (m * 2 ^ (e - e0).toNat) := by
      have h1 := signed_scale s m e e0 hle
      rw [← h1] at h
      have h2 := mul_right_cancel₀ (ne_of_gt hp0) h
      exact_mod_cast h2
    have hm2 : m * 2 ^ (e - e0).toNat ≠ 0 :=
      Nat.mul_ne_zero hm (Nat.pos_iff_ne_zero.mp (Nat.two_pow_pos _))
    refine ⟨?_, ?_, Or.inl ⟨hle, ?_⟩⟩
    · rw [hz]; intro h0; exact hm2 ((signed_eq_zero s _).mp h0)
    · rw [hz]
      cases s
      · have : ¬ (signed false (m * 2 ^ (e - e0).toNat) < 0) := by
          rw [signed_neg_iff _ _ hm2]; simp
        simp [this]
      · have : signed true (m * 2 ^ (e - e0).toNat) < 0 := by
          rw [signed_neg_iff _ _ hm2]
        simp [this]
    · rw [hz, signed_natAbs]
  · have hlt : e < e0 := by omega
    -- signed s m = z * 2^(e0 - e)
    have hz : signed s m = z * 2 ^ (e0 - e).toNat := by
      have h2 : (2 : ℚ) ^ e0 = (2 : ℚ) ^ ((e0 - e).toNat : Int) * (2 : ℚ) ^ e := by
        rw [← zpow_add₀ (by norm_num : (2 : ℚ) ≠ 0)]
        congr 1
        rw [Int.toNat_of_nonneg (by omega)]
        ring
      rw [h2, zpow_natCast, ← mul_assoc] at h
      have h3 := mul_right_cancel₀ (ne_of_gt hp) h
      exact_mod_cast h3.symm
    have hpow : (0 : Int) < 2 ^ (e0 - e).toNat := by positivity
    have hz0 : z ≠ 0 := by
      intro h0
      rw [h0, zero_mul] at hz
      exact hm ((signed_eq_zero s m).mp hz)
    refine ⟨hz0, ?_, Or.inr ⟨hlt, ?_⟩⟩
    · cases s
      · have h1 : ¬ (signed false m < 0) := by rw [signed_neg_iff _ _ hm]; simp
        rw [hz] at h1
        have : ¬ (z < 0) := fun hneg => h1 (mul_neg_of_neg_of_pos hneg hpow)
        simp [this]
      · have h1 : signed true m < 0 := by rw [signed_neg_iff _ _ hm]
        rw [hz] at h1
        have : z < 0 := by
          by_contra hn
          have : 0 ≤ z * 2 ^ (e0 - e).toNat := mul_nonneg (by omega) (le_of_lt hpow)
          omega
        simp [this]
    · have h4 := congrArg Int.natAbs hz
      rw [signed_natAbs, Int.natAbs_mul, Int.natAbs_pow] at h4
      simpa using h4.symm

/-- When the float sum `a + b` is finite and exact, and `a` is a canonical finite
datum other than `-0.0`, subtracting `b` again gives back `a`. -/
theorem sub_add_cancel_of_exact (s : Bool) (m : Nat) (e : Int) (b : Binary32)
    (hcanon : (fin s m e).isCanonical = true) (hnz : ¬ (s = true ∧ m = 0)) (x y : ℚ)
    (hx : (fin s m e).toRat = some x) (hy : b.toRat = some y)
    (hsum : (add (fin s m e) b).toRat = some (x + y)) :
    sub (add (fin s m e) b) b = fin s m e := by
  simp only [isCanonical, decide_eq_true_eq] at hcanon
  obtain ⟨hm24, he, he2, hn⟩ := hcanon
  cases b with
  | nan => simp [toRat] at hy
  | inf t => simp [toRat] at hy
  | fin t k f =>
    cases hc : add (fin s m e) (fin t k f) with
    | nan => rw [hc] at hsum; simp [toRat] at hsum
    | inf u => rw [hc] at hsum; simp [toRat] at hsum
    | fin u p g =>
      rw [hc] at hsum
      simp only [toRat, Option.some.injEq] at hx hy hsum
      have hval : (((signed u (p * 2 ^ (g - min g f).toNat)
            + signed (!t) (k * 2 ^ (f - min g f).toNat) : Int)) : ℚ) * (2 : ℚ) ^ (min g f)
          = ((signed s m : Int) : ℚ) * (2 : ℚ) ^ e := by
        rw [add_exact_value, signed_not, hsum, ← hx, ← hy]
        push_cast
        ring
      show add (fin u p g) (neg (fin t k f)) = fin s m e
      simp only [neg, add]
      by_cases hm0 : m = 0
      · subst hm0
        have hs : s = false := by
          cases s
          · rfl
          · exact absurd ⟨rfl, rfl⟩ hnz
        subst hs
        have he149 : e = -149 := by
          rcases hn with h | h
          · omega
          · exact h
        subst he149
        have hz : signed u (p * 2 ^ (g - min g f).toNat)
            + signed (!t) (k * 2 ^ (f - min g f).toNat) = 0 := by
          have hp0 : (0 : ℚ) < (2 : ℚ) ^ (min g f) := zpow_pos (by norm_num) _
          have : ((signed false 0 : Int) : ℚ) = 0 := by simp [signed]
          rw [this, zero_mul] at hval
          have h2 := (mul_eq_zero.mp hval).resolve_right (ne_of_gt hp0)
          exact_mod_cast h2
        simp only [hz, if_true]
        have hu : (u && !t) = false := by
          cases t
          · -- b is not negative, so the sum is not negative
            simp only [add] at hc
            split_ifs at hc with h0
            · simp only [fin.injEq] at hc
              simp [← hc.1]
            · have hu := round_sign _ _ _ _ _ _ hc
              have hpos : ∀ n : Nat, 0 ≤ signed false n := by
                intro n; simp [signed]
              have hnn : ¬ (signed false (0 * 2 ^ (-149 - min (-149) f).toNat)
                  + signed false (k * 2 ^ (f - min (-149) f).toNat) < 0) := by
                have h1 := hpos (0 * 2 ^ (-149 - min (-149) f).toNat)
                have h2 := hpos (k * 2 ^ (f - min (-149) f).toNat)
                omega
              have hu0 : u = false := by rw [hu]; exact decide_eq_false hnn
              simp [hu0]
          · simp
        rw [hu]
      · obtain ⟨hz0, hsign, hmag⟩ := scaled_int _ (min g f) s m e hm0 hval
        simp only [hz0, if_false, hsign]
        rcases hmag with ⟨hle, habs⟩ | ⟨hlt, habs⟩
        · rw [habs]
          have hE : e - ((e - min g f).toNat : Int) = min g f := by
            rw [Int.toNat_of_nonneg (by omega)]; ring
          have := round_scaled_up s m e (e - min g f).toNat hm0 hm24 he he2 hn
          rw [hE] at this
          exact this
        · have hE : min g f = e + ((min g f - e).toNat : Int) := by
            rw [Int.toNat_of_nonneg (by omega)]; ring
          have hM0 : (signed u (p * 2 ^ (g - min g f).toNat)
              + signed (!t) (k * 2 ^ (f - min g f).toNat)).natAbs ≠ 0 := by
            simpa using hz0
          have := round_scaled_down s _ e (min g f - e).toNat hM0 (by rw [habs]; exact hm24)
            he he2 (by rw [habs]; exact hn)
          rw [← hE, habs] at this
          exact this

end Binary32

/-- The forward add kernel followed by the forward sub kernel leaves the float
value `(a + b) - b` in every cell of the cube. -/
theorem roundtrip_elementwise (n : Nat) (a b r0 r1 : Vol) (i j k : Nat)
    (hi : i < n) (hj : j < n) (hk : k < n) :
    stress_matrix_3d_xyz_sub n (stress_matrix_3d_xyz_add n a b r0) b r1 i j k
      = Binary32.sub (Binary32.add (a i j k) (b i j k)) (b i j k) := by
  rw [xyz_sub_eq, fill_inside n _ _ i j k hi hj hk, xyz_add_eq, fill_inside n _ _ i j k hi hj hk]

/-! ## Frame lemmas for the state updates -/

@[simp]
theorem bogo_current_method (st : State) : (stress_bogo_inc st).current_method = st.current_method := rfl

@[simp]
theorem bogo_method_all_index (st : State) : (stress_bogo_inc st).method_all_index = st.method_all_index := rfl

@[simp]
theorem bogo_matrix_3d_metrics (st : State) : (stress_bogo_inc st).matrix_3d_metrics = st.matrix_3d_metrics := rfl

@[simp]
theorem bogo_time_calls (st : State) : (stress_bogo_inc st).time_calls = st.time_calls := rfl

@[simp]
theorem bogo_continue_calls (st : State) : (stress_bogo_inc st).continue_calls = st.continue_calls := rfl

@[simp]
theorem bogo_mwc64_calls (st : State) : (stress_bogo_inc st).mwc64_calls = st.mwc64_calls := rfl

@[simp]
theorem bogo_bogo (st : State) : (stress_bogo_inc st).bogo = st.bogo + 1 := rfl

@[simp]
theorem bogo_trace (st : State) : (stress_bogo_inc st).trace = st.trace ++ [Event.bogo_inc] := rfl

@[simp]
theorem add_count_current_method (st : State) (i : Nat) : (st.add_count i).current_method = st.current_method := rfl

@[simp]
theorem add_count_method_all_index (st : State) (i : Nat) : (st.add_count i).method_all_index = st.method_all_index := rfl

@[simp]
theorem add_count_time_calls (st : State) (i : Nat) : (st.add_count i).time_calls = st.time_calls := rfl

@[simp]
theorem add_count_continue_calls (st : State) (i : Nat) : (st.add_count i).continue_calls = st.continue_calls := rfl

@[simp]
theorem add_count_mwc64_calls (st : State) (i : Nat) : (st.add_count i).mwc64_calls = st.mwc64_calls := rfl

@[simp]
theorem add_count_bogo (st : State) (i : Nat) : (st.add_count i).bogo = st.bogo := rfl

@[simp]
theorem add_count_trace (st : State) (i : Nat) : (st.add_count i).trace = st.trace := rfl

@[simp]
theorem add_duration_current_method (st : State) (i : Nat) (d : Int) : (st.add_duration i d).current_method = st.current_method := rfl

@[simp]
theorem add_duration_method_all_index (st : State) (i : Nat) (d : Int) : (st.add_duration i d).method_all_index = st.method_all_index := rfl

@[simp]
theorem add_duration_time_calls (st : State) (i : Nat) (d : Int) : (st.add_duration i d).time_calls = st.time_calls := rfl

@[simp]
theorem add_duration_continue_calls (st : State) (i : Nat) (d : Int) : (st.add_duration i d).continue_calls = st.continue_calls := rfl

@[simp]
theorem add_duration_mwc64_calls (st : State) (i : Nat) (d : Int) : (st.add_duration i d).mwc64_calls = st.mwc64_calls := rfl

@[simp]
theorem add_duration_bogo (st : State) (i : Nat) (d : Int) : (st.add_duration i d).bogo = st.bogo := rfl

@[simp]
theorem add_duration_trace (st : State) (i : Nat) (d : Int) : (st.add_duration i d).trace = st.trace := rfl

@[simp]
theorem tick_current_method (st : State) : (st.tick).current_method = st.current_method := rfl

@[simp]
theorem tick_method_all_index (st : State) : (st.tick).method_all_index = st.method_all_index := rfl

@[simp]
theorem tick_matrix_3d_metrics (st : State) : (st.tick).matrix_3d_metrics = st.matrix_3d_metrics := rfl

@[simp]
theorem tick_time_calls (st : State) : (st.tick).time_calls = st.time_calls + 1 := rfl

@[simp]
theorem tick_continue_calls (st : State) : (st.tick).continue_calls = st.continue_calls := rfl

@[simp]
theorem tick_mwc64_calls (st : State) : (st.tick).mwc64_calls = st.mwc64_calls := rfl

@[simp]
theorem tick_bogo (st : State) : (st.tick).bogo = st.bogo := rfl

@[simp]
theorem tick_trace (st : State) : (st.tick).trace = st.trace := rfl

@[simp]
theorem log_current_method (st : State) (e : Event) : (st.log e).current_method = st.current_method := rfl

@[simp]
theorem log_method_all_index (st : State) (e : Event) : (st.log e).method_all_index = st.method_all_index := rfl

@[simp]
theorem log_matrix_3d_metrics (st : State) (e : Event) : (st.log e).matrix_3d_metrics = st.matrix_3d_metrics := rfl

@[simp]
theorem log_time_calls (st : State) (e : Event) : (st.log e).time_calls = st.time_calls := rfl

@[simp]
theorem log_continue_calls (st : State) (e : Event) : (st.log e).continue_calls = st.continue_calls := rfl

@[simp]
theorem log_mwc64_calls (st : State) (e : Event) : (st.log e).mwc64_calls = st.mwc64_calls := rfl

@[simp]
theorem log_bogo (st : State) (e : Event) : (st.log e).bogo = st.bogo := rfl

@[simp]
theorem log_trace (st : State) (e : Event) : (st.log e).trace = st.trace ++ [e] := rfl

@[simp]
theorem setBuf_current_method (st : State) (t : Buf) (v : Vol) : (st.setBuf t v).current_method = st.current_method := by cases t <;> rfl

@[simp]
theorem setBuf_method_all_index (st : State) (t : Buf) (v : Vol) : (st.setBuf t v).method_all_index = st.method_all_index := by cases t <;> rfl

@[simp]
theorem setBuf_matrix_3d_metrics (st : State) (t : Buf) (v : Vol) : (st.setBuf t v).matrix_3d_metrics = st.matrix_3d_metrics := by cases t <;> rfl

@[simp]
theorem setBuf_time_calls (st : State) (t : Buf) (v : Vol) : (st.setBuf t v).time_calls = st.time_calls := by cases t <;> rfl

@[simp]
theorem setBuf_continue_calls (st : State) (t : Buf) (v : Vol) : (st.setBuf t v).continue_calls = st.continue_calls := by cases t <;> rfl

@[simp]
theorem setBuf_mwc64_calls (st : State) (t : Buf) (v : Vol) : (st.setBuf t v).mwc64_calls = st.mwc64_calls := by cases t <;> rfl

@[simp]
theorem setBuf_bogo (st : State) (t : Buf) (v : Vol) : (st.setBuf t v).bogo = st.bogo := by cases t <;> rfl

@[simp]
theorem setBuf_trace (st : State) (t : Buf) (v : Vol) : (st.setBuf t v).trace = st.trace := by cases t <;> rfl

@[simp]
theorem buf_bogo (st : State) (t : Buf) : (stress_bogo_inc st).buf t = st.buf t := by
  cases t <;> rfl

@[simp]
theorem buf_add_count (st : State) (i : Nat) (t : Buf) : (st.add_count i).buf t = st.buf t := by
  cases t <;> rfl

@[simp]
theorem buf_add_duration (st : State) (i : Nat) (d : Int) (t : Buf) :
    (st.add_duration i d).buf t = st.buf t := by
  cases t <;> rfl

@[simp]
theorem buf_tick (st : State) (t : Buf) : st.tick.buf t = st.buf t := by
  cases t <;> rfl

@[simp]
theorem buf_log (st : State) (e : Event) (t : Buf) : (st.log e).buf t = st.buf t := by
  cases t <;> rfl

@[simp]
theorem setBuf_buf_same (st : State) (t : Buf) (v : Vol) : (st.setBuf t v).buf t = v := by
  cases t <;> rfl

theorem setBuf_buf_other (st : State) (t u : Buf) (v : Vol) (h : u ≠ t) :
    (st.setBuf t v).buf u = st.buf u := by
  cases t <;> cases u <;> first | exact absurd rfl h | rfl

theorem setBuf_a (st : State) (t : Buf) (v : Vol) (ht : t ≠ Buf.a) : (st.setBuf t v).a = st.a := by
  cases t <;> first | exact absurd rfl ht | rfl

theorem setBuf_b (st : State) (t : Buf) (v : Vol) (ht : t ≠ Buf.b) : (st.setBuf t v).b = st.b := by
  cases t <;> first | exact absurd rfl ht | rfl

@[simp]
theorem add_count_count (st : State) (i x : Nat) :
    ((st.add_count i).matrix_3d_metrics x).count
      = (st.matrix_3d_metrics x).count + (if x = i then 1 else 0) := by
  unfold State.add_count
  by_cases h : x = i <;> simp [h]

@[simp]
theorem add_duration_count (st : State) (i x : Nat) (d : Int) :
    ((st.add_duration i d).matrix_3d_metrics x).count = (st.matrix_3d_metrics x).count := by
  unfold State.add_duration
  by_cases h : x = i <;> simp [h]

@[simp]
theorem advance_current_method (m : Nat) (st : State) : (advance_all_index m st).current_method = st.current_method := by
  unfold advance_all_index
  by_cases hm : m = 0
  · by_cases hi : st.method_all_index + 1 ≥ matrix_3d_methods.length <;> simp [hm, hi]
  · simp [hm]

@[simp]
theorem condition_current_method (env : Env) (st : State) : (loop_condition env st).2.current_method = st.current_method := rfl

@[simp]
theorem pr_fail_current_method (env : Env) (st : State) : (pr_fail_difference env st).current_method = st.current_method := rfl

@[simp]
theorem condition_method_all_index (env : Env) (st : State) : (loop_condition env st).2.method_all_index = st.method_all_index := rfl

@[simp]
theorem pr_fail_method_all_index (env : Env) (st : State) : (pr_fail_difference env st).method_all_index = st.method_all_index := rfl

@[simp]
theorem advance_matrix_3d_metrics (m : Nat) (st : State) : (advance_all_index m st).matrix_3d_metrics = st.matrix_3d_metrics := by
  unfold advance_all_index
  by_cases hm : m = 0
  · by_cases hi : st.method_all_index + 1 ≥ matrix_3d_methods.length <;> simp [hm, hi]
  · simp [hm]

@[simp]
theorem condition_matrix_3d_metrics (env : Env) (st : State) : (loop_condition env st).2.matrix_3d_metrics = st.matrix_3d_metrics := rfl

@[simp]
theorem pr_fail_matrix_3d_metrics (env : Env) (st : State) : (pr_fail_difference env st).matrix_3d_metrics = st.matrix_3d_metrics := rfl

@[simp]
theorem advance_a (m : Nat) (st : State) : (advance_all_index m st).a = st.a := by
  unfold advance_all_index
  by_cases hm : m = 0
  · by_cases hi : st.method_all_index + 1 ≥ matrix_3d_methods.length <;> simp [hm, hi]
  · simp [hm]

@[simp]
theorem condition_a (env : Env) (st : State) : (loop_condition env st).2.a = st.a := rfl

@[simp]
theorem pr_fail_a (env : Env) (st : State) : (pr_fail_difference env st).a = st.a := rfl

@[simp]
theorem advance_b (m : Nat) (st : State) : (advance_all_index m st).b = st.b := by
  unfold advance_all_index
  by_cases hm : m = 0
  · by_cases hi : st.method_all_index + 1 ≥ matrix_3d_methods.length <;> simp [hm, hi]
  · simp [hm]

@[simp]
theorem condition_b (env : Env) (st : State) : (loop_condition env st).2.b = st.b := rfl

@[simp]
theorem pr_fail_b (env : Env) (st : State) : (pr_fail_difference env st).b = st.b := rfl

@[simp]
theorem advance_r (m : Nat) (st : State) : (advance_all_index m st).r = st.r := by
  unfold advance_all_index
  by_cases hm : m = 0
  · by_cases hi : st.method_all_index + 1 ≥ matrix_3d_methods.length <;> simp [hm, hi]
  · simp [hm]

@[simp]
theorem condition_r (env : Env) (st : State) : (loop_condition env st).2.r = st.r := rfl

@[simp]
theorem pr_fail_r (env : Env) (st : State) : (pr_fail_difference env st).r = st.r := rfl

@[simp]
theorem advance_s (m : Nat) (st : State) : (advance_all_index m st).s = st.s := by
  unfold advance_all_index
  by_cases hm : m = 0
  · by_cases hi : st.method_all_index + 1 ≥ matrix_3d_methods.length <;> simp [hm, hi]
  · simp [hm]

@[simp]
theorem condition_s (env : Env) (st : State) : (loop_condition env st).2.s = st.s := rfl

@[simp]
theorem pr_fail_s (env : Env) (st : State) : (pr_fail_difference env st).s = st.s := rfl

@[simp]
theorem advance_time_calls (m : Nat) (st : State) : (advance_all_index m st).time_calls = st.time_calls := by
  unfold advance_all_index
  by_cases hm : m = 0
  · by_cases hi : st.method_all_index + 1 ≥ matrix_3d_methods.length <;> simp [hm, hi]
  · simp [hm]

@[simp]
theorem condition_time_calls (env : Env) (st : State) : (loop_condition env st).2.time_calls = st.time_calls := rfl

@[simp]
theorem pr_fail_time_calls (env : Env) (st : State) : (pr_fail_difference env st).time_calls = st.time_calls := rfl

@[simp]
theorem advance_continue_calls (m : Nat) (st : State) : (advance_all_index m st).continue_calls = st.continue_calls := by
  unfold advance_all_index
  by_cases hm : m = 0
  · by_cases hi : st.method_all_index + 1 ≥ matrix_3d_methods.length <;> simp [hm, hi]
  · simp [hm]

@[simp]
theorem pr_fail_continue_calls (env : Env) (st : State) : (pr_fail_difference env st).continue_calls = st.continue_calls := rfl

@[simp]
theorem advance_mwc64_calls (m : Nat) (st : State) : (advance_all_index m st).mwc64_calls = st.mwc64_calls := by
  unfold advance_all_index
  by_cases hm : m = 0
  · by_cases hi : st.method_all_index + 1 ≥ matrix_3d_methods.length <;> simp [hm, hi]
  · simp [hm]

@[simp]
theorem condition_mwc64_calls (env : Env) (st : State) : (loop_condition env st).2.mwc64_calls = st.mwc64_calls := rfl

@[simp]
theorem pr_fail_mwc64_calls (env : Env) (st : State) : (pr_fail_difference env st).mwc64_calls = st.mwc64_calls := rfl

@[simp]
theorem advance_bogo (m : Nat) (st : State) : (advance_all_index m st).bogo = st.bogo := by
  unfold advance_all_index
  by_cases hm : m = 0
  · by_cases hi : st.method_all_index + 1 ≥ matrix_3d_methods.length <;> simp [hm, hi]
  · simp [hm]

@[simp]
theorem condition_bogo (env : Env) (st : State) : (loop_condition env st).2.bogo = st.bogo := rfl

@[simp]
theorem pr_fail_bogo (env : Env) (st : State) : (pr_fail_difference env st).bogo = st.bogo := rfl

@[simp]
theorem advance_trace (m : Nat) (st : State) : (advance_all_index m st).trace = st.trace := by
  unfold advance_all_index
  by_cases hm : m = 0
  · by_cases hi : st.method_all_index + 1 ≥ matrix_3d_methods.length <;> simp [hm, hi]
  · simp [hm]

@[simp]
theorem advance_index (m : Nat) (st : State) :
    (advance_all_index m st).method_all_index = next_index m st.method_all_index := by
  unfold advance_all_index next_index
  have h13 : matrix_3d_methods.length = 13 := rfl
  by_cases hm : m = 0
  · by_cases hi : st.method_all_index + 1 ≥ 13 <;> simp [hm, hi, h13]
  · simp [hm]

@[simp]
theorem condition_continue_calls (env : Env) (st : State) :
    (loop_condition env st).2.continue_calls = st.continue_calls + 1 := rfl

@[simp]
theorem condition_trace (env : Env) (st : State) :
    (loop_condition env st).2.trace
      = st.trace ++ [Event.stress_continue (env.stress_continue st.continue_calls)] := rfl

@[simp]
theorem pr_fail_trace (env : Env) (st : State) :
    (pr_fail_difference env st).trace
      = st.trace ++ [Event.pr_fail (env.name ++ ": " ++ st.current_method ++
          ": data difference between identical matrix-3d computations\n")] := rfl

/-! ## The method table and calls through it -/

theorem table_real (i z : Nat) (h1 : 1 ≤ i) (h2 : i < 13) (hz : z < 2) :
    ∃ f kern, exercise_func i z = some f ∧ kernel_of f = some kern := by
  interval_cases i <;> interval_cases z <;> exact ⟨_, _, rfl, rfl⟩

theorem table_all (z : Nat) (hz : z < 2) :
    (z = 0 ∧ exercise_func 0 z = some .xyz_all) ∨ (z = 1 ∧ exercise_func 0 z = some .zyx_all) := by
  interval_cases z
  · exact Or.inl ⟨rfl, rfl⟩
  · exact Or.inr ⟨rfl, rfl⟩

theorem call_func_real (env : Env) (f : stress_matrix_3d_func_t)
    (kern : Nat → Vol → Vol → Vol → Vol) (hk : kernel_of f = some kern)
    (n : Nat) (target : Buf) (st : State) :
    call_func env f n target st
      = some ((st.setBuf target (kern n st.a st.b (st.buf target))).log (Event.call f target)) := by
  cases f <;> simp_all [call_func, call_kernel, kernel_of]

/-- The statements of an all wrapper that follow its table lookups. -/
theorem all_body_spec (env : Env) (w f : stress_matrix_3d_func_t) (name : String)
    (kern : Nat → Vol → Vol → Vol → Vol) (n : Nat) (target : Buf) (st : State)
    (hk : kernel_of f = some kern) :
    ∃ st1,
      (match call_kernel f n target
          ({ st.log (Event.call w target) with current_method := name }).tick with
        | none => none
        | some st2 =>
          some ((st2.tick.add_duration st2.tick.method_all_index
            (env.time_now st2.time_calls - env.time_now st.time_calls)).add_count
              (st2.tick.add_duration st2.tick.method_all_index
                (env.time_now st2.time_calls - env.time_now st.time_calls)).method_all_index))
        = some st1 ∧
      st1.buf target = kern n st.a st.b (st.buf target) ∧
      (∀ t, t ≠ target → st1.buf t = st.buf t) ∧
      st1.method_all_index = st.method_all_index ∧
      st1.current_method = name ∧
      st1.trace = st.trace ++ [Event.call w target, Event.call f target] ∧
      st1.time_calls = st.time_calls + 2 ∧
      st1.continue_calls = st.continue_calls ∧
      st1.bogo = st.bogo ∧
      (∀ i, (st1.matrix_3d_metrics i).count
        = (st.matrix_3d_metrics i).count + (if i = st.method_all_index then 1 else 0)) := by
  simp only [call_kernel, hk]
  have ea : ∀ s : State, ({ s with current_method := name } : State).a = s.a := fun _ => rfl
  have eb : ∀ s : State, ({ s with current_method := name } : State).b = s.b := fun _ => rfl
  have ebuf : ∀ (s : State) (t : Buf), ({ s with current_method := name } : State).buf t = s.buf t :=
    fun s t => by cases t <;> rfl
  refine ⟨_, rfl, ?_, ?_, ?_, ?_, ?_, ?_, ?_, ?_, ?_⟩
  · simp only [buf_add_count, buf_add_duration, buf_tick, buf_log, setBuf_buf_same, ebuf]
    rfl
  · intro t ht
    simp only [buf_add_count, buf_add_duration, buf_tick, buf_log]
    rw [setBuf_buf_other _ _ _ _ ht, buf_tick, ebuf, buf_log]
  · simp
  · simp
  · simp
  · simp
  · simp
  · simp
  · intro i
    simp

/-- The all wrapper selected by `z`, when the cursor designates a plain kernel. -/
theorem call_func_all (env : Env) (z : Nat) (hz : z < 2) (w f : stress_matrix_3d_func_t)
    (kern : Nat → Vol → Vol → Vol → Vol) (n : Nat) (target : Buf) (st : State)
    (hw : exercise_func 0 z = some w)
    (hf : exercise_func st.method_all_index z = some f) (hk : kernel_of f = some kern) :
    ∃ st1, call_func env w n target st = some st1 ∧
      st1.buf target = kern n st.a st.b (st.buf target) ∧
      (∀ t, t ≠ target → st1.buf t = st.buf t) ∧
      st1.method_all_index = st.method_all_index ∧
      (∃ m, matrix_3d_methods[st.method_all_index]? = some m ∧ st1.current_method = m.name) ∧
      st1.trace = st.trace ++ [Event.call w target, Event.call f target] ∧
      st1.time_calls = st.time_calls + 2 ∧
      st1.continue_calls = st.continue_calls ∧
      st1.bogo = st.bogo ∧
      (∀ i, (st1.matrix_3d_metrics i).count
        = (st.matrix_3d_metrics i).count + (if i = st.method_all_index then 1 else 0)) := by
  unfold exercise_func at hf
  cases hm : matrix_3d_methods[st.method_all_index]? with
  | none => simp [hm] at hf
  | some m =>
    simp only [hm] at hf
    obtain ⟨st1, h1, h2, h3, h4, h5, h6, h7, h8, h9, h10⟩ :=
      all_body_spec env w f m.name kern n target st hk
    rcases table_all z hz with ⟨rfl, h0⟩ | ⟨rfl, h0⟩
    · rw [h0] at hw
      cases hw
      refine ⟨st1, ?_, h2, h3, h4, ⟨m, rfl, h5⟩, h6, h7, h8, h9, h10⟩
      rw [← h1]
      simp only [call_func, stress_matrix_3d_xyz_all, State.log, State.tick, hm, hf]
    · rw [h0] at hw
      cases hw
      refine ⟨st1, ?_, h2, h3, h4, ⟨m, rfl, h5⟩, h6, h7, h8, h9, h10⟩
      rw [← h1]
      simp only [call_func, stress_matrix_3d_zyx_all, State.log, State.tick, hm, hf]

/-- The timed call of the loop when a fixed method is configured. -/
theorem timed_call_fixed (env : Env) (matrix_3d_method : Nat) (hm : matrix_3d_method ≠ 0)
    (f : stress_matrix_3d_func_t) (kern : Nat → Vol → Vol → Vol → Vol)
    (hk : kernel_of f = some kern) (n : Nat) (target : Buf) (st : State) :
    ∃ st1, timed_call env f matrix_3d_method n target st = some st1 ∧
      CallEffect matrix_3d_method f f kern n target st st1 := by
  simp only [timed_call, call_func_real env f kern hk]
  refine ⟨_, rfl, ?_⟩
  constructor
  · simp
    rfl
  · intro t ht
    simp only [buf_bogo, buf_add_count, buf_add_duration, buf_tick, buf_log]
    rw [setBuf_buf_other _ _ _ _ ht, buf_tick]
  · simp
  · intro h; exact absurd h hm
  · intro _; simp
  · simp [call_events, hm]
  · simp [hm]
  · simp
  · simp
  · intro i
    simp [hm]

/-- The timed call of the loop when the configured method is 0 (all). -/
theorem timed_call_all (env : Env) (z : Nat) (hz : z < 2) (w f : stress_matrix_3d_func_t)
    (kern : Nat → Vol → Vol → Vol → Vol) (n : Nat) (target : Buf) (st : State)
    (hw : exercise_func 0 z = some w)
    (hf : exercise_func st.method_all_index z = some f) (hk : kernel_of f = some kern) :
    ∃ st1, timed_call env w 0 n target st = some st1 ∧
      CallEffect 0 w f kern n target st st1 := by
  obtain ⟨st1, h1, h2, h3, h4, h5, h6, h7, h8, h9, h10⟩ :=
    call_func_all env z hz w f kern n target st.tick hw hf hk
  simp only [timed_call, h1]
  refine ⟨_, rfl, ?_⟩
  constructor
  · simpa using h2
  · intro t ht
    simpa using h3 t ht
  · simpa using h4
  · intro _; simpa using h5
  · intro h; exact absurd rfl h
  · simp [call_events, h6]
  · simp [h7]
  · simpa using h8
  · simp [h9]
  · intro i
    simp [h10 i]
    omega

/-! ## One loop iteration -/

/-- The registry entry whose kernel an iteration runs: the cursor in all mode,
the configured method otherwise. -/
theorem timed_call_spec (env : Env) (matrix_3d_method z : Nat) (hz : z < 2)
    (func f : stress_matrix_3d_func_t) (kern : Nat → Vol → Vol → Vol → Vol) (n : Nat)
    (target : Buf) (st : State)
    (hfunc : exercise_func matrix_3d_method z = some func)
    (hf : exercise_func (if matrix_3d_method = 0 then st.method_all_index else matrix_3d_method) z
      = some f)
    (hk : kernel_of f = some kern) :
    ∃ st1, timed_call env func matrix_3d_method n target st = some st1 ∧
      CallEffect matrix_3d_method func f kern n target st st1 := by
  by_cases hm : matrix_3d_method = 0
  · subst hm
    simp only [if_true] at hf
    exact timed_call_all env z hz func f kern n target st hfunc hf hk
  · simp only [hm, if_false] at hf
    rw [hfunc] at hf
    cases hf
    exact timed_call_fixed env matrix_3d_method hm func kern hk n target st

/-- One loop iteration, completely. -/
theorem loop_pass_spec (env : Env) (matrix_3d_method z : Nat) (hz : z < 2)
    (func f : stress_matrix_3d_func_t) (kern : Nat → Vol → Vol → Vol → Vol) (n : Nat)
    (st : State)
    (hfunc : exercise_func matrix_3d_method z = some func)
    (hf : exercise_func (if matrix_3d_method = 0 then st.method_all_index else matrix_3d_method) z
      = some f)
    (hk : kernel_of f = some kern) :
    ∃ st1, loop_pass env func matrix_3d_method n st = some st1 ∧
      PassEffect env matrix_3d_method func f kern n st st1 := by
  obtain ⟨s1, e1, c1⟩ := timed_call_spec env matrix_3d_method z hz func f kern n Buf.r st hfunc hf hk
  have hr1 : s1.r = kern n st.a st.b st.r := c1.buf_target
  have ha1 : s1.a = st.a := c1.buf_other Buf.a (by decide)
  have hb1 : s1.b = st.b := c1.buf_other Buf.b (by decide)
  have hs1 : s1.s = st.s := c1.buf_other Buf.s (by decide)
  by_cases hv : env.verify = true
  · have hf1 : exercise_func
        (if matrix_3d_method = 0 then s1.method_all_index else matrix_3d_method) z = some f := by
      rw [c1.index]; exact hf
    obtain ⟨s2, e2, c2⟩ :=
      timed_call_spec env matrix_3d_method z hz func f kern n Buf.s s1 hfunc hf1 hk
    have hs2 : s2.s = kern n st.a st.b st.s := by
      have := c2.buf_target
      rw [ha1, hb1] at this
      simpa [State.buf, hs1] using this
    have hr2 : s2.r = s1.r := c2.buf_other Buf.r (by decide)
    have ha2 : s2.a = s1.a := c2.buf_other Buf.a (by decide)
    have hb2 : s2.b = s1.b := c2.buf_other Buf.b (by decide)
    simp only [loop_pass, loop_body, verify_block, e1, e2, hv, if_true]
    refine ⟨_, rfl, ?_⟩
    suffices H : ∀ c : Bool, shim_memcmp s2.r s2.s n = c →
        PassEffect env matrix_3d_method func f kern n st
          (loop_condition env (advance_all_index matrix_3d_method
            (if c = true then pr_fail_difference env s2 else s2))).2 from H _ rfl
    intro c hc
    have h1 := c1.count
    have h2 := c2.count
    rw [c1.index] at h2
    cases c
    · constructor
      · simp [ha2, ha1]
      · simp [hb2, hb1]
      · simp [hr2, hr1]
      · simp [hs2, hv]
      · simp [c2.index, c1.index]
      · intro h0
        obtain ⟨m, hm1, hm2⟩ := c2.name_all h0
        rw [c1.index] at hm1
        exact ⟨m, hm1, by simp [hm2]⟩
      · intro h0
        simp [c2.name_fixed h0, c1.name_fixed h0]
      · simp [hc, hv, c2.trace, c1.trace, c2.continue_calls, c1.continue_calls]
      · simp [c2.continue_calls, c1.continue_calls]
      · simp [c2.bogo, c1.bogo, calls_per_pass, hv]
      · intro i
        simp [calls_per_pass, hv, h2 i, h1 i]
        omega
    · constructor
      · simp [ha2, ha1]
      · simp [hb2, hb1]
      · simp [hr2, hr1]
      · simp [hs2, hv]
      · simp [c2.index, c1.index]
      · intro h0
        obtain ⟨m, hm1, hm2⟩ := c2.name_all h0
        rw [c1.index] at hm1
        exact ⟨m, hm1, by simp [hm2]⟩
      · intro h0
        simp [c2.name_fixed h0, c1.name_fixed h0]
      · simp [hc, hv, c2.trace, c1.trace, c2.continue_calls, c1.continue_calls]
      · simp [c2.continue_calls, c1.continue_calls]
      · simp [c2.bogo, c1.bogo, calls_per_pass, hv]
      · intro i
        simp [calls_per_pass, hv, h2 i, h1 i]
        omega
  · have hv0 : env.verify = false := by simpa using hv
    simp only [loop_pass, loop_body, verify_block, e1, hv0]
    refine ⟨_, rfl, ?_⟩
    constructor
    · simp [ha1]
    · simp [hb1]
    · simp [hr1]
    · simp [hs1, hv0]
    · simp [c1.index]
    · intro h0
      obtain ⟨m, hm1, hm2⟩ := c1.name_all h0
      exact ⟨m, hm1, by simp [hm2]⟩
    · intro h0
      simp [c1.name_fixed h0]
    · simp [c1.trace, c1.continue_calls, hv0]
    · simp [c1.continue_calls]
    · simp [c1.bogo, calls_per_pass, hv0]
    · intro i
      simp [calls_per_pass, hv0, c1.count i]
      omega

/-! ## The state on entry to the loop -/

theorem forLoop_invariant {σ : Type} (P : σ → Prop) (n : Nat) (body : Nat → σ → σ) (s : σ)
    (h0 : P s) (hstep : ∀ i s, P s → P (body i s)) : P (forLoop n body s) := by
  induction n with
  | zero => exact h0
  | succ n ih => rw [forLoop_succ]; exact hstep n _ ih

theorem set_zero_mmap_zero (i j k : Nat) : Vol.set mmap_zero i j k Binary32.zero = mmap_zero := by
  funext x y z
  unfold Vol.set mmap_zero
  split_ifs <;> rfl

/-- What `init_matrices` leaves alone. -/
theorem init_matrices_frame (env : Env) (n : Nat) (st : State) (hr : st.r = mmap_zero) :
    (init_matrices env n st).r = mmap_zero ∧
    (init_matrices env n st).s = st.s ∧
    (init_matrices env n st).method_all_index = st.method_all_index ∧
    (init_matrices env n st).current_method = st.current_method ∧
    (init_matrices env n st).matrix_3d_metrics = st.matrix_3d_metrics ∧
    (init_matrices env n st).trace = st.trace ∧
    (init_matrices env n st).bogo = st.bogo ∧
    (init_matrices env n st).continue_calls = st.continue_calls ∧
    (init_matrices env n st).time_calls = st.time_calls := by
  unfold init_matrices
  apply forLoop_invariant (fun s1 : State => s1.r = mmap_zero ∧ s1.s = st.s ∧
    s1.method_all_index = st.method_all_index ∧ s1.current_method = st.current_method ∧
    s1.matrix_3d_metrics = st.matrix_3d_metrics ∧ s1.trace = st.trace ∧ s1.bogo = st.bogo ∧
    s1.continue_calls = st.continue_calls ∧ s1.time_calls = st.time_calls)
  · exact ⟨hr, rfl, rfl, rfl, rfl, rfl, rfl, rfl, rfl⟩
  · intro i s1 h1
    apply forLoop_invariant (fun s1 : State => s1.r = mmap_zero ∧ s1.s = st.s ∧
      s1.method_all_index = st.method_all_index ∧ s1.current_method = st.current_method ∧
      s1.matrix_3d_metrics = st.matrix_3d_metrics ∧ s1.trace = st.trace ∧ s1.bogo = st.bogo ∧
      s1.continue_calls = st.continue_calls ∧ s1.time_calls = st.time_calls)
    · exact h1
    · intro j s2 h2
      apply forLoop_invariant (fun s1 : State => s1.r = mmap_zero ∧ s1.s = st.s ∧
        s1.method_all_index = st.method_all_index ∧ s1.current_method = st.current_method ∧
        s1.matrix_3d_metrics = st.matrix_3d_metrics ∧ s1.trace = st.trace ∧ s1.bogo = st.bogo ∧
        s1.continue_calls = st.continue_calls ∧ s1.time_calls = st.time_calls)
      · exact h2
      · intro k s3 h3
        obtain ⟨g1, g2, g3, g4, g5, g6, g7, g8, g9⟩ := h3
        refine ⟨?_, g2, g3, g4, g5, g6, g7, g8, g9⟩
        simp only [State.setBuf, stress_matrix_data]
        rw [g1, set_zero_mmap_zero]

/-- The state on entry to the loop. -/
theorem loop_entry_spec (env : Env) (matrix_3d_method n : Nat)
    (hm : matrix_3d_method < matrix_3d_methods.length) :
    ∃ m st0, matrix_3d_methods[matrix_3d_method]? = some m ∧
      exercise_loop_entry env matrix_3d_method n = some st0 ∧
      st0.r = mmap_zero ∧ st0.s = mmap_zero ∧ st0.method_all_index = 1 ∧
      st0.current_method = m.name ∧
      st0.matrix_3d_metrics = (fun _ => { duration := 0, count := 0 }) ∧
      st0.trace = [] ∧ st0.bogo = 0 ∧ st0.continue_calls = 0 ∧ st0.time_calls = 0 := by
  have hsome : matrix_3d_methods[matrix_3d_method]? = some (matrix_3d_methods[matrix_3d_method]) :=
    List.getElem?_eq_getElem hm
  have he : exercise_loop_entry env matrix_3d_method n = some (init_matrices env n
      { current_method := (matrix_3d_methods[matrix_3d_method]).name
        method_all_index := 1
        matrix_3d_metrics := fun _ => { duration := 0, count := 0 }
        a := mmap_zero
        b := mmap_zero
        r := mmap_zero
        s := mmap_zero
        time_calls := 0
        continue_calls := 0
        mwc64_calls := 0
        bogo := 0
        trace := [] }) := by
    simp only [exercise_loop_entry, exercise_setup, hsome]
  exact ⟨_, _, hsome, he, init_matrices_frame env n _ rfl⟩

/-! ## Traces -/

@[simp]
theorem calls_of_append (l1 l2 : List Event) : calls_of (l1 ++ l2) = calls_of l1 ++ calls_of l2 := by
  induction l1 with
  | nil => rfl
  | cons e l ih => cases e <;> simp [calls_of, ih]

@[simp]
theorem fails_of_append (l1 l2 : List Event) : fails_of (l1 ++ l2) = fails_of l1 ++ fails_of l2 := by
  induction l1 with
  | nil => rfl
  | cons e l ih => cases e <;> simp [fails_of, ih]

@[simp]
theorem fails_of_call_events (m : Nat) (func f : stress_matrix_3d_func_t) (t : Buf) :
    fails_of (call_events m func f t) = [] := by
  unfold call_events
  split_ifs <;> rfl

@[simp]
theorem calls_of_call_events (m : Nat) (func f : stress_matrix_3d_func_t) (t : Buf) :
    calls_of (call_events m func f t) = if m = 0 then [(func, t), (f, t)] else [(f, t)] := by
  unfold call_events
  split_ifs <;> rfl

theorem shim_memcmp_eq_false (n : Nat) (r s : Vol) (h : cube_eq n r s) :
    shim_memcmp r s n = false := by
  unfold shim_memcmp
  simp only [Bool.not_eq_false', decide_eq_true_eq]
  exact h

/-! ## Kernels do not read `r` -/

theorem fill_cube_eq (n : Nat) (F : Nat → Nat → Nat → stress_matrix_3d_type_t) (r s : Vol) :
    cube_eq n (Vol.fill n F r) (Vol.fill n F s) := by
  intro i hi j hj k hk
  rw [fill_inside n F r i j k hi hj hk, fill_inside n F s i j k hi hj hk]

/-- Two runs of one kernel on the same inputs into result arrays that agree on
the cube leave result arrays that agree on the cube. -/
theorem kernel_cube_eq (f : stress_matrix_3d_func_t) (kern : Nat → Vol → Vol → Vol → Vol)
    (hk : kernel_of f = some kern) (n : Nat) (a b r s : Vol) (h : cube_eq n r s) :
    cube_eq n (kern n a b r) (kern n a b s) := by
  cases f <;> simp only [kernel_of, Option.some.injEq] at hk <;> try (exact absurd hk (by simp))
  all_goals subst hk
  all_goals first
    | exact h
    | (simp only [xyz_add_eq, zyx_add_eq, xyz_sub_eq, zyx_sub_eq, xyz_trans_eq, zyx_trans_eq,
        xyz_mult_eq, zyx_mult_eq, xyz_div_eq, zyx_div_eq, xyz_hadamard_eq, zyx_hadamard_eq,
        xyz_copy_eq, zyx_copy_eq, xyz_mean_eq, zyx_mean_eq, xyz_zero_eq, zyx_zero_eq,
        xyz_negate_eq, zyx_negate_eq, xyz_identity_eq, zyx_identity_eq]
       exact fill_cube_eq n _ r s)

/-! ## Several loop iterations -/

theorem table_func (m z : Nat) (hm : m < 13) (hz : z < 2) :
    ∃ func, exercise_func m z = some func := by
  interval_cases m <;> interval_cases z <;> exact ⟨_, rfl⟩

theorem next_index_bounds (m idx : Nat) (h1 : 1 ≤ idx) (h2 : idx < 13) :
    1 ≤ next_index m idx ∧ next_index m idx < 13 := by
  unfold next_index
  split_ifs <;> omega

/-- The kernel an iteration runs exists whenever the cursor is inside `1..12`. -/
theorem active_kernel (m z idx : Nat) (hm : m < 13) (hz : z < 2) (h1 : 1 ≤ idx) (h2 : idx < 13) :
    ∃ f kern, exercise_func (if m = 0 then idx else m) z = some f ∧ kernel_of f = some kern := by
  by_cases h : m = 0
  · simp only [h, if_true]
    exact table_real idx z h1 h2 hz
  · simp only [h, if_false]
    exact table_real m z (by omega) hm hz

/-- Invariant of the loop with verification enabled: the cursor stays inside
`1..12`, `r` and `s` agree on the cube, and no failure has been reported. -/
theorem verify_invariant (env : Env) (matrix_3d_method z n : Nat) (func : stress_matrix_3d_func_t)
    (hv : env.verify = true) (hm : matrix_3d_method < 13) (hz : z < 2)
    (hfunc : exercise_func matrix_3d_method z = some func) (st0 : State)
    (h1 : 1 ≤ st0.method_all_index) (h2 : st0.method_all_index < 13)
    (hrs : cube_eq n st0.r st0.s) (hfail : fails_of st0.trace = []) (k : Nat) :
    ∃ st, loop_passes env func matrix_3d_method n k st0 = some st ∧
      1 ≤ st.method_all_index ∧ st.method_all_index < 13 ∧
      cube_eq n st.r st.s ∧ fails_of st.trace = [] := by
  induction k with
  | zero => exact ⟨st0, rfl, h1, h2, hrs, hfail⟩
  | succ k ih =>
    obtain ⟨st, e, g1, g2, g3, g4⟩ := ih
    obtain ⟨f, kern, hf, hk⟩ := active_kernel matrix_3d_method z st.method_all_index hm hz g1 g2
    obtain ⟨st1, e1, p⟩ := loop_pass_spec env matrix_3d_method z hz func f kern n st hfunc hf hk
    have hb := next_index_bounds matrix_3d_method st.method_all_index g1 g2
    have hcube : cube_eq n st1.r st1.s := by
      rw [p.r, p.s]
      simp only [hv, if_true]
      exact kernel_cube_eq f kern hk n st.a st.b st.r st.s g3
    refine ⟨st1, ?_, ?_, ?_, hcube, ?_⟩
    · simp only [loop_passes, e, e1]
    · rw [p.index]; exact hb.1
    · rw [p.index]; exact hb.2
    · rw [p.trace]
      simp [g4, hv, shim_memcmp_eq_false n st1.r st1.s hcube, fails_of]

/-- In all mode, after `t` iterations the cursor is `1 + t % 12`, entry 0 has
been counted once per timed call, and entry `i` of `1..12` has been counted once
per timed call of each iteration `u < t` with `1 + u % 12 = i`. -/
theorem all_mode_invariant (env : Env) (z n : Nat) (w : stress_matrix_3d_func_t) (hz : z < 2)
    (hw : exercise_func 0 z = some w) (st0 : State) (h1 : st0.method_all_index = 1)
    (hc : ∀ i, (st0.matrix_3d_metrics i).count = 0) (t : Nat) :
    ∃ st, loop_passes env w 0 n t st0 = some st ∧
      st.method_all_index = 1 + t % 12 ∧
      (st.matrix_3d_metrics 0).count = calls_per_pass env * t ∧
      (∀ i, 1 ≤ i → i < 13 →
        (st.matrix_3d_metrics i).count = calls_per_pass env * ((t + 12 - i) / 12)) := by
  induction t with
  | zero =>
    refine ⟨st0, rfl, by simp [h1], by simp [hc], ?_⟩
    intro i hi1 hi2
    rw [hc i]
    have : (0 + 12 - i) / 12 = 0 := by omega
    simp [this]
  | succ t ih =>
    obtain ⟨st, e, g1, g2, g3⟩ := ih
    have hb1 : 1 ≤ st.method_all_index := by omega
    have hb2 : st.method_all_index < 13 := by omega
    obtain ⟨f, kern, hf, hk⟩ := active_kernel 0 z st.method_all_index (by decide) hz hb1 hb2
    obtain ⟨st1, e1, p⟩ := loop_pass_spec env 0 z hz w f kern n st hw hf hk
    refine ⟨st1, ?_, ?_, ?_, ?_⟩
    · simp only [loop_passes, e, e1]
    · rw [p.index, g1]
      unfold next_index
      simp only [if_true]
      split_ifs <;> omega
    · rw [p.count 0, g2]
      have : ¬ (0 = st.method_all_index) := by omega
      simp [this, Nat.mul_add]
    · intro i hi1 hi2
      rw [p.count i, g3 i hi1 hi2, g1]
      have hi0 : ¬ (i = 0) := by omega
      by_cases hi : i = 1 + t % 12
      · have : (t + 1 + 12 - i) / 12 = (t + 12 - i) / 12 + 1 := by omega
        simp [hi0, hi, this, Nat.mul_add]
        simp [← hi, this, Nat.mul_add]
      · have : (t + 1 + 12 - i) / 12 = (t + 12 - i) / 12 := by omega
        simp [hi0, hi, this]

/-- Every table entry other than `sub` (entry 10): the plain kernels `func[0]` and
`func[1]` leave the same array. -/
theorem forward_reverse_agree (i : Nat) (h1 : 1 ≤ i) (h2 : i < 13) (h10 : i ≠ 10)
    (f0 f1 : stress_matrix_3d_func_t) (k0 k1 : Nat → Vol → Vol → Vol → Vol)
    (e0 : exercise_func i 0 = some f0) (e1 : exercise_func i 1 = some f1)
    (g0 : kernel_of f0 = some k0) (g1 : kernel_of f1 = some k1) (n : Nat) (a b r : Vol) :
    k0 n a b r = k1 n a b r := by
  interval_cases i <;> first
    | exact absurd rfl h10
    | (simp only [exercise_func, matrix_3d_methods, List.getElem?_cons_succ,
        List.getElem?_cons_zero, Option.some.injEq] at e0 e1
       subst e0 e1
       simp only [kernel_of, Option.some.injEq] at g0 g1
       subst g0 g1
       simp only [xyz_add_eq, zyx_add_eq, xyz_trans_eq, zyx_trans_eq,
        xyz_mult_eq, zyx_mult_eq, xyz_div_eq, zyx_div_eq, xyz_hadamard_eq, zyx_hadamard_eq,
        xyz_copy_eq, zyx_copy_eq, xyz_mean_eq, zyx_mean_eq, xyz_zero_eq, zyx_zero_eq,
        xyz_negate_eq, zyx_negate_eq, xyz_identity_eq, zyx_identity_eq, xyz_frobenius_eq,
        zyx_frobenius_eq])

/-! ## Page rounding -/

/-- Masking off the low `k` bits of a 64-bit value rounds it down to a multiple
of `2^k`. -/
theorem land_page_mask (x k : Nat) (hx : x < 2 ^ 64) (hk : k < 64) :
    x &&& (2 ^ 64 - 1 - (2 ^ k - 1) % 2 ^ 64) = x / 2 ^ k * 2 ^ k := by
  have hpk : 2 ^ k < 2 ^ 64 := Nat.pow_lt_pow_right (by decide) hk
  have hkpos : 0 < 2 ^ k := Nat.two_pow_pos k
  have hmod : (2 ^ k - 1) % 2 ^ 64 = 2 ^ k - 1 := Nat.mod_eq_of_lt (by omega)
  have hmask : 2 ^ 64 - 1 - (2 ^ k - 1) = 2 ^ 64 - ((2 ^ k - 1) + 1) := by omega
  rw [hmod, hmask]
  apply Nat.eq_of_testBit_eq
  intro i
  rw [Nat.testBit_and, Nat.testBit_two_pow_sub_succ (by omega : 2 ^ k - 1 < 2 ^ 64),
    Nat.testBit_two_pow_sub_one, ← Nat.shiftRight_eq_div_pow, ← Nat.shiftLeft_eq,
    Nat.testBit_shiftLeft, Nat.testBit_shiftRight]
  by_cases hik : i < k
  · have : ¬ (i ≥ k) := by omega
    simp [hik, this]
  · have hge : i ≥ k := by omega
    have hadd : k + (i - k) = i := by omega
    by_cases hi64 : i < 64
    · simp [hik, hge, hadd, hi64]
    · have hxi : x.testBit i = false :=
        Nat.testBit_lt_two_pow (Nat.lt_of_lt_of_le hx (Nat.pow_le_pow_right (by decide) (by omega)))
      simp [hik, hge, hadd, hi64, hxi]

/-- The effective page size of `round_up`. -/
theorem round_up_eq (page_size s k : Nat) (hk : k < 64)
    (hp : (if page_size = 0 then 4096 else page_size) = 2 ^ k)
    (hs : s + 2 ^ k - 1 < 2 ^ 64) :
    round_up page_size s = (s + 2 ^ k - 1) / 2 ^ k * 2 ^ k := by
  unfold round_up
  simp only [hp]
  rw [Nat.mod_eq_of_lt hs]
  exact land_page_mask (s + 2 ^ k - 1) k hs hk

/-- Rounding up to a multiple of `p`: the least multiple of `p` not below `s`. -/
theorem round_up_least (s p : Nat) (hp : 0 < p) :
    p ∣ (s + p - 1) / p * p ∧ s ≤ (s + p - 1) / p * p ∧ (s + p - 1) / p * p < s + p ∧
      ∀ m, p ∣ m → s ≤ m → (s + p - 1) / p * p ≤ m := by
  have h1 : (s + p - 1) / p * p ≤ s + p - 1 := Nat.div_mul_le_self _ _
  have h2 : s + p - 1 < ((s + p - 1) / p + 1) * p := by
    have := Nat.lt_succ_self ((s + p - 1) / p)
    exact (Nat.div_lt_iff_lt_mul hp).mp this
  refine ⟨Dvd.intro_left _ rfl, ?_, ?_, ?_⟩
  · rw [Nat.add_mul, Nat.one_mul] at h2; omega
  · omega
  · rintro m ⟨c, rfl⟩ hsm
    rw [Nat.mul_comm p c] at hsm ⊢
    apply Nat.mul_le_mul_right
    have h3 : (s + p - 1) / p < c + 1 := by
      rw [Nat.div_lt_iff_lt_mul hp, Nat.add_mul, Nat.one_mul]
      omega
    omega

/-! ## The method option -/

/-- The first loop of `stress_set_matrix_3d_method` after `k` steps: it holds the
first index below `k` whose name matches, if there is one. -/
theorem set_method_search_steps (name : String) (k : Nat) :
    (∀ i, forLoop k (fun matrix_3d_method (found : Option Nat) =>
        match found with
        | some i => some i
        | none =>
          match matrix_3d_methods[matrix_3d_method]? with
          | none => none
          | some m => if m.name = name then some matrix_3d_method else none) none = some i →
      i < k ∧ (∃ m, matrix_3d_methods[i]? = some m ∧ m.name = name) ∧
        ∀ j, j < i → ∀ m, matrix_3d_methods[j]? = some m → m.name ≠ name) ∧
    (forLoop k (fun matrix_3d_method (found : Option Nat) =>
        match found with
        | some i => some i
        | none =>
          match matrix_3d_methods[matrix_3d_method]? with
          | none => none
          | some m => if m.name = name then some matrix_3d_method else none) none = none →
      ∀ j, j < k → ∀ m, matrix_3d_methods[j]? = some m → m.name ≠ name) := by
  induction k with
  | zero =>
    refine ⟨?_, ?_⟩
    · intro i h; simp [forLoop_zero] at h
    · intro _ j hj; omega
  | succ k ih =>
    rw [forLoop_succ]
    obtain ⟨ih1, ih2⟩ := ih
    cases hprev : forLoop k (fun matrix_3d_method (found : Option Nat) =>
        match found with
        | some i => some i
        | none =>
          match matrix_3d_methods[matrix_3d_method]? with
          | none => none
          | some m => if m.name = name then some matrix_3d_method else none) none with
    | some i0 =>
      obtain ⟨h1, h2, h3⟩ := ih1 i0 hprev
      refine ⟨?_, ?_⟩
      · intro i h
        simp only [Option.some.injEq] at h
        subst h
        exact ⟨by omega, h2, h3⟩
      · intro h; simp at h
    | none =>
      have hnone := ih2 hprev
      cases hm : matrix_3d_methods[k]? with
      | none =>
        refine ⟨?_, ?_⟩
        · intro i h; simp at h
        · intro _ j hj m hjm
          by_cases hjk : j = k
          · subst hjk; rw [hm] at hjm; cases hjm
          · exact hnone j (by omega) m hjm
      | some m =>
        by_cases hname : m.name = name
        · refine ⟨?_, ?_⟩
          · intro i h
            simp only [hname, if_true, Option.some.injEq] at h
            subst h
            exact ⟨by omega, ⟨m, hm, hname⟩, hnone⟩
          · intro h; simp [hname] at h
        · refine ⟨?_, ?_⟩
          · intro i h; simp [hname] at h
          · intro _ j hj m' hjm
            by_cases hjk : j = k
            · subst hjk; rw [hm] at hjm; cases hjm; exact hname
            · exact hnone j (by omega) m' hjm

theorem set_method_search_some (name : String) (i : Nat) (h : set_method_search name = some i) :
    i < matrix_3d_methods.length ∧ (∃ m, matrix_3d_methods[i]? = some m ∧ m.name = name) ∧
      ∀ j, j < i → ∀ m, matrix_3d_methods[j]? = some m → m.name ≠ name :=
  (set_method_search_steps name matrix_3d_methods.length).1 i h

theorem set_method_search_none (name : String) (h : set_method_search name = none) :
    ∀ m, m ∈ matrix_3d_methods → m.name ≠ name := by
  intro m hm
  obtain ⟨j, hj, hjm⟩ := List.getElem_of_mem hm
  have := (set_method_search_steps name matrix_3d_methods.length).2 h j hj m
  apply this
  rw [List.getElem?_eq_getElem hj, hjm]

theorem set_method_usage_eq :
    set_method_usage
      = ["matrix-3d-method must be one of:"] ++ matrix_3d_methods.map (fun m => " " ++ m.name)
          ++ ["\n"] := by
  decide

theorem method_names_nodup : (matrix_3d_methods.map (fun m => m.name)).Nodup := by
  decide

/-! ## Durations -/

@[simp]
theorem add_duration_duration (st : State) (i x : Nat) (d : Int) :
    ((st.add_duration i d).matrix_3d_metrics x).duration
      = (st.matrix_3d_metrics x).duration + (if x = i then d else 0) := by
  unfold State.add_duration
  by_cases h : x = i <;> simp [h]

@[simp]
theorem add_count_duration (st : State) (i x : Nat) :
    ((st.add_count i).matrix_3d_metrics x).duration = (st.matrix_3d_metrics x).duration := by
  unfold State.add_count
  by_cases h : x = i <;> simp [h]

/-- The duration an all wrapper records. -/
theorem all_body_duration (env : Env) (w f : stress_matrix_3d_func_t) (name : String)
    (kern : Nat → Vol → Vol → Vol → Vol) (n : Nat) (target : Buf) (st st1 : State)
    (hk : kernel_of f = some kern)
    (h : (match call_kernel f n target
          ({ st.log (Event.call w target) with current_method := name }).tick with
        | none => none
        | some st2 =>
          some ((st2.tick.add_duration st2.tick.method_all_index
            (env.time_now st2.time_calls - env.time_now st.time_calls)).add_count
              (st2.tick.add_duration st2.tick.method_all_index
                (env.time_now st2.time_calls - env.time_now st.time_calls)).method_all_index))
        = some st1) (i : Nat) :
    (st1.matrix_3d_metrics i).duration = (st.matrix_3d_metrics i).duration
      + (if i = st.method_all_index then
          env.time_now (st.time_calls + 1) - env.time_now st.time_calls else 0) := by
  simp only [call_kernel, hk, Option.some.injEq] at h
  subst h
  simp

theorem call_func_all_duration (env : Env) (z : Nat) (hz : z < 2)
    (w f : stress_matrix_3d_func_t) (kern : Nat → Vol → Vol → Vol → Vol) (n : Nat)
    (target : Buf) (st st1 : State) (hw : exercise_func 0 z = some w)
    (hf : exercise_func st.method_all_index z = some f) (hk : kernel_of f = some kern)
    (h : call_func env w n target st = some st1) (i : Nat) :
    (st1.matrix_3d_metrics i).duration = (st.matrix_3d_metrics i).duration
      + (if i = st.method_all_index then
          env.time_now (st.time_calls + 1) - env.time_now st.time_calls else 0) := by
  unfold exercise_func at hf
  cases hm : matrix_3d_methods[st.method_all_index]? with
  | none => simp [hm] at hf
  | some m =>
    simp only [hm] at hf
    rcases table_all z hz with ⟨rfl, h0⟩ | ⟨rfl, h0⟩
    · rw [h0] at hw
      cases hw
      simp only [call_func, stress_matrix_3d_xyz_all, State.log, State.tick, hm, hf] at h
      exact all_body_duration env _ f m.name kern n target st st1 hk h i
    · rw [h0] at hw
      cases hw
      simp only [call_func, stress_matrix_3d_zyx_all, State.log, State.tick, hm, hf] at h
      exact all_body_duration env _ f m.name kern n target st st1 hk h i

/-- The durations one timed call of the loop records. -/
theorem timed_call_duration (env : Env) (matrix_3d_method z : Nat) (hz : z < 2)
    (func f : stress_matrix_3d_func_t) (kern : Nat → Vol → Vol → Vol → Vol) (n : Nat)
    (target : Buf) (st st1 : State)
    (hfunc : exercise_func matrix_3d_method z = some func)
    (hf : exercise_func (if matrix_3d_method = 0 then st.method_all_index else matrix_3d_method) z
      = some f)
    (hk : kernel_of f = some kern)
    (h : timed_call env func matrix_3d_method n target st = some st1) (i : Nat) :
    (st1.matrix_3d_metrics i).duration = (st.matrix_3d_metrics i).duration
      + call_elapsed env matrix_3d_method st.method_all_index st.time_calls i := by
  by_cases hm : matrix_3d_method = 0
  · subst hm
    simp only [if_true] at hf
    obtain ⟨s1, e1, _, _, _, _, _, htc, _, _, _⟩ :=
      call_func_all env z hz func f kern n target st.tick hfunc hf hk
    have hd := call_func_all_duration env z hz func f kern n target st.tick s1 hfunc hf hk e1 i
    simp only [timed_call, e1, Option.some.injEq] at h
    subst h
    simp [call_elapsed, hd, htc]
    ring
  · simp only [hm, if_false] at hf
    rw [hfunc] at hf
    cases hf
    simp only [timed_call, call_func_real env func kern hk, Option.some.injEq] at h
    subst h
    simp [call_elapsed, hm]

/-- The durations one loop iteration records, and the clock readings it makes. -/
theorem loop_pass_timing (env : Env) (matrix_3d_method z : Nat) (hz : z < 2)
    (func f : stress_matrix_3d_func_t) (kern : Nat → Vol → Vol → Vol → Vol) (n : Nat)
    (st st1 : State)
    (hfunc : exercise_func matrix_3d_method z = some func)
    (hf : exercise_func (if matrix_3d_method = 0 then st.method_all_index else matrix_3d_method) z
      = some f)
    (hk : kernel_of f = some kern)
    (h : loop_pass env func matrix_3d_method n st = some st1) :
    (∀ i, (st1.matrix_3d_metrics i).duration = (st.matrix_3d_metrics i).duration
      + pass_elapsed env matrix_3d_method st.method_all_index st.time_calls i) ∧
    st1.time_calls = st.time_calls
      + calls_per_pass env * (if matrix_3d_method = 0 then 4 else 2) := by
  obtain ⟨s1, e1, c1⟩ := timed_call_spec env matrix_3d_method z hz func f kern n Buf.r st hfunc hf hk
  have d1 := timed_call_duration env matrix_3d_method z hz func f kern n Buf.r st s1 hfunc hf hk e1
  by_cases hv : env.verify = true
  · have hf1 : exercise_func
        (if matrix_3d_method = 0 then s1.method_all_index else matrix_3d_method) z = some f := by
      rw [c1.index]; exact hf
    obtain ⟨s2, e2, c2⟩ :=
      timed_call_spec env matrix_3d_method z hz func f kern n Buf.s s1 hfunc hf1 hk
    have d2 := timed_call_duration env matrix_3d_method z hz func f kern n Buf.s s1 s2 hfunc hf1 hk e2
    simp only [loop_pass, loop_body, verify_block, e1, e2, hv, if_true, Option.some.injEq] at h
    subst h
    refine ⟨?_, ?_⟩
    · intro i
      have h2 := d2 i
      rw [d1 i, c1.index, c1.time_calls] at h2
      cases hc : shim_memcmp s2.r s2.s n <;> simp [pass_elapsed, hv, h2] <;> omega
    · cases hc : shim_memcmp s2.r s2.s n <;>
        simp only [calls_per_pass, hv, if_true, condition_time_calls, advance_time_calls,
          pr_fail_time_calls, c2.time_calls, c1.time_calls, Bool.false_eq_true, if_false] <;>
        split_ifs <;> omega
  · have hv0 : env.verify = false := by simpa using hv
    simp only [loop_pass, loop_body, verify_block, e1, hv0, Bool.false_eq_true, if_false,
      Option.some.injEq] at h
    subst h
    refine ⟨?_, ?_⟩
    · intro i
      simp [pass_elapsed, hv0, d1 i]
    · simp [calls_per_pass, hv0, c1.time_calls]

/-! ## Induction over the loop iterations -/

theorem loop_passes_succ_left (env : Env) (func : stress_matrix_3d_func_t)
    (matrix_3d_method n k : Nat) (st : State) :
    loop_passes env func matrix_3d_method n (k + 1) st
      = match loop_pass env func matrix_3d_method n st with
        | none => none
        | some s1 => loop_passes env func matrix_3d_method n k s1 := by
  induction k with
  | zero =>
    simp only [loop_passes]
    cases loop_pass env func matrix_3d_method n st <;> rfl
  | succ k ih =>
    rw [loop_passes, ih]
    cases h : loop_pass env func matrix_3d_method n st with
    | none => rfl
    | some s1 => simp only [loop_passes]

/-- Induction principle for the states the loop reaches from a state whose cursor
is inside `1..12`: every iteration has a result, described by `PassEffect`. -/
theorem loop_passes_induction (env : Env) (matrix_3d_method z n : Nat)
    (func : stress_matrix_3d_func_t) (hm : matrix_3d_method < 13) (hz : z < 2)
    (hfunc : exercise_func matrix_3d_method z = some func)
    (P : Nat → State → Prop) (st0 : State)
    (h1 : 1 ≤ st0.method_all_index) (h2 : st0.method_all_index < 13) (h0 : P 0 st0)
    (hstep : ∀ t st st1 f kern, P t st → 1 ≤ st.method_all_index → st.method_all_index < 13 →
      exercise_func (if matrix_3d_method = 0 then st.method_all_index else matrix_3d_method) z
        = some f →
      kernel_of f = some kern → loop_pass env func matrix_3d_method n st = some st1 →
      PassEffect env matrix_3d_method func f kern n st st1 → P (t + 1) st1)
    (k : Nat) :
    ∃ st, loop_passes env func matrix_3d_method n k st0 = some st ∧
      1 ≤ st.method_all_index ∧ st.method_all_index < 13 ∧ P k st := by
  induction k with
  | zero => exact ⟨st0, rfl, h1, h2, h0⟩
  | succ k ih =>
    obtain ⟨st, e, g1, g2, g3⟩ := ih
    obtain ⟨f, kern, hf, hk⟩ := active_kernel matrix_3d_method z st.method_all_index hm hz g1 g2
    obtain ⟨st1, e1, p⟩ := loop_pass_spec env matrix_3d_method z hz func f kern n st hfunc hf hk
    have hb := next_index_bounds matrix_3d_method st.method_all_index g1 g2
    refine ⟨st1, ?_, ?_, ?_, hstep k st st1 f kern g3 g1 g2 hf hk e1 p⟩
    · simp only [loop_passes, e, e1]
    · rw [p.index]; exact hb.1
    · rw [p.index]; exact hb.2

/-- A run whose continuation predicate answers true `k - 1` times and then false
leaves the loop after exactly `k` iterations, given at least `k` units of fuel. -/
theorem exercise_loop_stops (env : Env) (matrix_3d_method z n : Nat)
    (func : stress_matrix_3d_func_t) (hm : matrix_3d_method < 13) (hz : z < 2)
    (hfunc : exercise_func matrix_3d_method z = some func) (k : Nat) :
    ∀ (st : State) (fuel : Nat), 1 ≤ st.method_all_index → st.method_all_index < 13 →
      1 ≤ k → k ≤ fuel →
      (∀ t, t + 1 < k → env.stress_continue (st.continue_calls + t) = true) →
      env.stress_continue (st.continue_calls + (k - 1)) = false →
      ∃ stk, loop_passes env func matrix_3d_method n k st = some stk ∧
        exercise_loop env func matrix_3d_method n fuel st = some stk := by
  induction k with
  | zero => intro st fuel _ _ hk; omega
  | succ k ih =>
    intro st fuel g1 g2 _ hfuel htrue hfalse
    obtain ⟨f, kern, hf, hk⟩ := active_kernel matrix_3d_method z st.method_all_index hm hz g1 g2
    obtain ⟨s1, e1, p⟩ := loop_pass_spec env matrix_3d_method z hz func f kern n st hfunc hf hk
    have hb := next_index_bounds matrix_3d_method st.method_all_index g1 g2
    cases fuel with
    | zero => omega
    | succ fuel =>
      cases hbody : loop_body env func matrix_3d_method n st with
      | none => simp [loop_pass, hbody] at e1
      | some sb =>
        have hs1 : s1 = (loop_condition env sb).2 := by
          simp only [loop_pass, hbody, Option.some.injEq] at e1
          exact e1.symm
        have hcc : sb.continue_calls = st.continue_calls := by
          have := p.continue_calls
          rw [hs1, condition_continue_calls] at this
          omega
        have hcond : (loop_condition env sb).1 = env.stress_continue st.continue_calls := by
          rw [← hcc]; rfl
        rw [loop_passes_succ_left, e1]
        simp only [exercise_loop, hbody]
        rw [hcond, ← hs1]
        by_cases hk0 : k = 0
        · subst hk0
          have : env.stress_continue st.continue_calls = false := by simpa using hfalse
          simp only [this]
          exact ⟨s1, rfl, by simp⟩
        · have htrue0 : env.stress_continue st.continue_calls = true := by
            simpa using htrue 0 (by omega)
          simp only [htrue0, if_true]
          apply ih s1 fuel (by rw [p.index]; exact hb.1) (by rw [p.index]; exact hb.2)
            (by omega) (by omega)
          · intro t ht
            rw [p.continue_calls]
            have := htrue (t + 1) (by omega)
            rw [← this]; congr 1; omega
          · rw [p.continue_calls, ← hfalse]; congr 1; omega

/-! ## The dump of the metrics -/

@[simp]
theorem metrics_of_append (l1 l2 : List Event) :
    metrics_of (l1 ++ l2) = metrics_of l1 ++ metrics_of l2 := by
  induction l1 with
  | nil => rfl
  | cons e l ih => cases e <;> simp [metrics_of, ih]

/-- The dump loop after `t` steps (entries `1..t`). -/
theorem dump_steps (st : State) (t : Nat) (ht : t ≤ 12) :
    forLoop t (fun t p => dump_step (t + 1) p) (st, 0)
      = ({ st with trace := st.trace ++
            (((List.range' 1 t).filter
                (fun i => decide (0 < (st.matrix_3d_metrics i).duration))).enum.map
              (fun p => Event.stress_metrics_set p.1
                (method_name p.2 ++ " matrix-3d ops per sec")
                (((st.matrix_3d_metrics p.2).count : ℚ)
                  / ((st.matrix_3d_metrics p.2).duration : ℚ)))) },
         ((List.range' 1 t).filter
            (fun i => decide (0 < (st.matrix_3d_metrics i).duration))).length) := by
  induction t with
  | zero => simp [forLoop_zero]
  | succ t ih =>
    rw [forLoop_succ, ih (by omega), List.range'_1_concat, List.filter_append]
    have hlt : t + 1 < matrix_3d_methods.length := by
      have : matrix_3d_methods.length = 13 := rfl
      omega
    have hsome : matrix_3d_methods[t + 1]? = some (matrix_3d_methods[t + 1]) :=
      List.getElem?_eq_getElem hlt
    have hname : method_name (t + 1) = (matrix_3d_methods[t + 1]).name := by
      simp only [method_name, hsome]
    have h1t : 1 + t = t + 1 := by omega
    by_cases hd : 0 < (st.matrix_3d_metrics (t + 1)).duration
    · simp [dump_step, hd, hsome, h1t, List.enum_append, State.log, hname]
    · simp [dump_step, hd, h1t]

/-- The dump appends exactly the reports of `metrics_report_spec`, as calls of
`stress_metrics_set`, and changes nothing else. -/
theorem dump_metrics_eq (st : State) :
    dump_metrics st = { st with trace := st.trace ++
      (metrics_report_spec st).map (fun p => Event.stress_metrics_set p.1 p.2.1 p.2.2) } := by
  have h12 : matrix_3d_methods.length - 1 = 12 := rfl
  unfold dump_metrics
  rw [h12, dump_steps st 12 (by omega)]
  simp [metrics_report_spec, reported_entries_spec, h12, Function.comp_def]

theorem metrics_of_map_set (l : List (Nat × String × ℚ)) :
    metrics_of (l.map (fun p => Event.stress_metrics_set p.1 p.2.1 p.2.2)) = l := by
  induction l with
  | nil => rfl
  | cons p l ih => simp [metrics_of, ih]

theorem mem_reported_entries_spec (st : State) (i : Nat) :
    i ∈ reported_entries_spec st ↔
      1 ≤ i ∧ i < matrix_3d_methods.length ∧ 0 < (st.matrix_3d_metrics i).duration := by
  have h12 : matrix_3d_methods.length - 1 = 12 := rfl
  have h13 : matrix_3d_methods.length = 13 := rfl
  simp only [reported_entries_spec, h12, h13, List.mem_filter, List.mem_range'_1,
    decide_eq_true_eq]
  constructor
  · rintro ⟨⟨h1, h2⟩, h3⟩; exact ⟨h1, by omega, h3⟩
  · rintro ⟨h1, h2, h3⟩; exact ⟨⟨h1, by omega⟩, h3⟩

/-! ## The whole exercise routine -/

@[simp]
theorem mapped_of_append (l1 l2 : List Event) :
    mapped_of (l1 ++ l2) = mapped_of l1 ++ mapped_of l2 := by
  induction l1 with
  | nil => rfl
  | cons e l ih =>
    cases e with
    | mmap t sz ok => cases ok <;> simp [mapped_of, ih]
    | _ => simp [mapped_of, ih]

@[simp]
theorem unmapped_of_append (l1 l2 : List Event) :
    unmapped_of (l1 ++ l2) = unmapped_of l1 ++ unmapped_of l2 := by
  induction l1 with
  | nil => rfl
  | cons e l ih => cases e <;> simp [unmapped_of, ih]

@[simp]
theorem mapped_of_call_events (m : Nat) (func f : stress_matrix_3d_func_t) (t : Buf) :
    mapped_of (call_events m func f t) = [] := by
  unfold call_events
  split_ifs <;> rfl

@[simp]
theorem unmapped_of_call_events (m : Nat) (func f : stress_matrix_3d_func_t) (t : Buf) :
    unmapped_of (call_events m func f t) = [] := by
  unfold call_events
  split_ifs <;> rfl

@[simp]
theorem metrics_of_call_events (m : Nat) (func f : stress_matrix_3d_func_t) (t : Buf) :
    metrics_of (call_events m func f t) = [] := by
  unfold call_events
  split_ifs <;> rfl

@[simp]
theorem mapped_of_map_set (l : List (Nat × String × ℚ)) :
    mapped_of (l.map (fun p => Event.stress_metrics_set p.1 p.2.1 p.2.2)) = [] := by
  induction l with
  | nil => rfl
  | cons p l ih => simp [mapped_of, ih]

@[simp]
theorem unmapped_of_map_set (l : List (Nat × String × ℚ)) :
    unmapped_of (l.map (fun p => Event.stress_metrics_set p.1 p.2.1 p.2.2)) = [] := by
  induction l with
  | nil => rfl
  | cons p l ih => simp [unmapped_of, ih]

/-- A loop iteration maps nothing, unmaps nothing and sets no metric. -/
theorem pass_trace_frame (env : Env) (matrix_3d_method : Nat) (func f : stress_matrix_3d_func_t)
    (kern : Nat → Vol → Vol → Vol → Vol) (n : Nat) (st st1 : State)
    (p : PassEffect env matrix_3d_method func f kern n st st1) :
    mapped_of st1.trace = mapped_of st.trace ∧ unmapped_of st1.trace = unmapped_of st.trace ∧
      metrics_of st1.trace = metrics_of st.trace := by
  rw [p.trace]
  refine ⟨?_, ?_, ?_⟩
  · simp only [mapped_of_append, mapped_of_call_events]
    split_ifs <;> simp [mapped_of]
  · simp only [unmapped_of_append, unmapped_of_call_events]
    split_ifs <;> simp [unmapped_of]
  · simp only [metrics_of_append, metrics_of_call_events]
    split_ifs <;> simp [metrics_of]

/-- The state after lines 882 to 888 of `stress_matrix_3d_exercise`. -/
theorem exercise_setup_spec (matrix_3d_method : Nat)
    (hm : matrix_3d_method < matrix_3d_methods.length) :
    ∃ m st, matrix_3d_methods[matrix_3d_method]? = some m ∧
      exercise_setup matrix_3d_method = some st ∧
      st.r = mmap_zero ∧ st.s = mmap_zero ∧ st.method_all_index = 1 ∧
      st.current_method = m.name ∧
      st.matrix_3d_metrics = (fun _ => { duration := 0, count := 0 }) ∧
      st.trace = [] ∧ st.bogo = 0 ∧ st.continue_calls = 0 ∧ st.time_calls = 0 := by
  have hsome : matrix_3d_methods[matrix_3d_method]? = some (matrix_3d_methods[matrix_3d_method]) :=
    List.getElem?_eq_getElem hm
  have he : exercise_setup matrix_3d_method = some
      { current_method := (matrix_3d_methods[matrix_3d_method]).name
        method_all_index := 1
        matrix_3d_metrics := fun _ => { duration := 0, count := 0 }
        a := mmap_zero
        b := mmap_zero
        r := mmap_zero
        s := mmap_zero
        time_calls := 0
        continue_calls := 0
        mwc64_calls := 0
        bogo := 0
        trace := [] } := by
    simp only [exercise_setup, hsome]
  exact ⟨_, _, hsome, he, rfl, rfl, rfl, rfl, rfl, rfl, rfl, rfl, rfl⟩

/-- Once every mapping has succeeded, a run that makes `k` iterations completes:
it returns `EXIT_SUCCESS` after the dump, the unmapping of `s` when verifying,
and `tidy_r`. -/
theorem exercise_mapped_success (env : Env) (matrix_3d_method z n size fuel k : Nat)
    (func : stress_matrix_3d_func_t) (hm : matrix_3d_method < 13) (hz : z < 2)
    (hfunc : exercise_func matrix_3d_method z = some func) (st : State)
    (hr : st.r = mmap_zero) (hidx : st.method_all_index = 1) (hcc : st.continue_calls = 0)
    (hstop : stops_after env k) (hfuel : k ≤ fuel) :
    ∃ stk, loop_passes env func matrix_3d_method n k (init_matrices env n st) = some stk ∧
      exercise_mapped env func matrix_3d_method n size fuel st
        = some (ExitCode.EXIT_SUCCESS,
            tidy_r size (if env.verify then (dump_metrics stk).log (Event.munmap Buf.s size)
              else dump_metrics stk)) := by
  obtain ⟨_, _, h3, _, _, _, _, h8, _⟩ := init_matrices_frame env n st hr
  obtain ⟨hk1, htrue, hfalse⟩ := hstop
  obtain ⟨stk, e1, e2⟩ := exercise_loop_stops env matrix_3d_method z n func hm hz hfunc k
    (init_matrices env n st) fuel (by rw [h3, hidx]) (by rw [h3, hidx]; decide) hk1 hfuel
    (by intro t ht; rw [h8, hcc, Nat.zero_add]; exact htrue t ht)
    (by rw [h8, hcc, Nat.zero_add]; exact hfalse)
  exact ⟨stk, e1, by simp only [exercise_mapped, e2]⟩

/-- A run in which every mapping succeeds and that makes `k` iterations: the
state `st0` on entry to the loop, the state `stk` after the `k` iterations, and
the final state `st`. -/
theorem run_success (env : Env) (fuel matrix_3d_method z n k : Nat)
    (hm : matrix_3d_method < 13) (hz : z < 2) (hmaps : maps_ok env)
    (hstop : stops_after env k) (hfuel : k ≤ fuel) :
    ∃ func st0 stk st,
      exercise_func matrix_3d_method z = some func ∧
      loop_passes env func matrix_3d_method n k st0 = some stk ∧
      stress_matrix_3d_exercise env fuel matrix_3d_method z n
        = some (ExitCode.EXIT_SUCCESS, st) ∧
      st0.method_all_index = 1 ∧
      st0.matrix_3d_metrics = (fun _ => { duration := 0, count := 0 }) ∧
      st0.bogo = 0 ∧ st0.continue_calls = 0 ∧ st0.time_calls = 0 ∧
      st0.r = mmap_zero ∧ st0.s = mmap_zero ∧
      st0.trace = [Event.mmap Buf.a (round_up env.page_size (exercise_matrix_3d_size n)) true,
          Event.mmap Buf.b (round_up env.page_size (exercise_matrix_3d_size n)) true,
          Event.mmap Buf.r (round_up env.page_size (exercise_matrix_3d_size n)) true]
        ++ (if env.verify then
              [Event.mmap Buf.s (round_up env.page_size (exercise_matrix_3d_size n)) true]
            else []) ∧
      st.matrix_3d_metrics = stk.matrix_3d_metrics ∧ st.bogo = stk.bogo ∧
      st.trace = stk.trace
        ++ (metrics_report_spec stk).map (fun p => Event.stress_metrics_set p.1 p.2.1 p.2.2)
        ++ (if env.verify then
              [Event.munmap Buf.s (round_up env.page_size (exercise_matrix_3d_size n))]
            else [])
        ++ [Event.munmap Buf.r (round_up env.page_size (exercise_matrix_3d_size n)),
            Event.munmap Buf.b (round_up env.page_size (exercise_matrix_3d_size n)),
            Event.munmap Buf.a (round_up env.page_size (exercise_matrix_3d_size n))] := by
  obtain ⟨func, hfunc⟩ := table_func matrix_3d_method z hm hz
  obtain ⟨m, S, _, hS, hSr, hSs, hSi, _, hSm, hSt, hSb, hSc, hStc⟩ :=
    exercise_setup_spec matrix_3d_method hm
  obtain ⟨h0, h1, h2, h3⟩ := hmaps
  by_cases hv : env.verify = true
  · have h3' := h3 hv
    obtain ⟨stk, e1, e2⟩ := exercise_mapped_success env matrix_3d_method z n
      (round_up env.page_size (exercise_matrix_3d_size n)) fuel k func hm hz hfunc
      ((((S.log (Event.mmap Buf.a (round_up env.page_size (exercise_matrix_3d_size n)) true)).log
        (Event.mmap Buf.b (round_up env.page_size (exercise_matrix_3d_size n)) true)).log
        (Event.mmap Buf.r (round_up env.page_size (exercise_matrix_3d_size n)) true)).log
        (Event.mmap Buf.s (round_up env.page_size (exercise_matrix_3d_size n)) true))
      hSr hSi hSc hstop hfuel
    obtain ⟨g1, g2, g3, _, g5, g6, g7, g8, g9⟩ := init_matrices_frame env n
      ((((S.log (Event.mmap Buf.a (round_up env.page_size (exercise_matrix_3d_size n)) true)).log
        (Event.mmap Buf.b (round_up env.page_size (exercise_matrix_3d_size n)) true)).log
        (Event.mmap Buf.r (round_up env.page_size (exercise_matrix_3d_size n)) true)).log
        (Event.mmap Buf.s (round_up env.page_size (exercise_matrix_3d_size n)) true)) hSr
    refine ⟨func, _, stk,
      tidy_r (round_up env.page_size (exercise_matrix_3d_size n))
        (if env.verify = true then
          (dump_metrics stk).log
            (Event.munmap Buf.s (round_up env.page_size (exercise_matrix_3d_size n)))
         else dump_metrics stk),
      hfunc, e1, ?_, ?_, ?_, ?_, ?_, ?_, g1, ?_, ?_, ?_, ?_, ?_⟩
    · simp only [stress_matrix_3d_exercise, hfunc, hS, h0, h1, h2, h3', hv, if_true, e2,
        Bool.true_eq_false, if_false]
    · rw [g3]; exact hSi
    · rw [g5]; exact hSm
    · rw [g7]; exact hSb
    · rw [g8]; exact hSc
    · rw [g9]; exact hStc
    · rw [g2]; exact hSs
    · rw [g6]; simp [hSt, hv]
    · simp [hv, tidy_r, tidy_b, tidy_a, dump_metrics_eq]
    · simp [hv, tidy_r, tidy_b, tidy_a, dump_metrics_eq]
    · simp [hv, tidy_r, tidy_b, tidy_a, dump_metrics_eq]
  · have hv0 : env.verify = false := by simpa using hv
    obtain ⟨stk, e1, e2⟩ := exercise_mapped_success env matrix_3d_method z n
      (round_up env.page_size (exercise_matrix_3d_size n)) fuel k func hm hz hfunc
      (((S.log (Event.mmap Buf.a (round_up env.page_size (exercise_matrix_3d_size n)) true)).log
        (Event.mmap Buf.b (round_up env.page_size (exercise_matrix_3d_size n)) true)).log
        (Event.mmap Buf.r (round_up env.page_size (exercise_matrix_3d_size n)) true))
      hSr hSi hSc hstop hfuel
    obtain ⟨g1, g2, g3, _, g5, g6, g7, g8, g9⟩ := init_matrices_frame env n
      (((S.log (Event.mmap Buf.a (round_up env.page_size (exercise_matrix_3d_size n)) true)).log
        (Event.mmap Buf.b (round_up env.page_size (exercise_matrix_3d_size n)) true)).log
        (Event.mmap Buf.r (round_up env.page_size (exercise_matrix_3d_size n)) true)) hSr
    refine ⟨func, _, stk,
      tidy_r (round_up env.page_size (exercise_matrix_3d_size n))
        (if env.verify = true then
          (dump_metrics stk).log
            (Event.munmap Buf.s (round_up env.page_size (exercise_matrix_3d_size n)))
         else dump_metrics stk),
      hfunc, e1, ?_, ?_, ?_, ?_, ?_, ?_, g1, ?_, ?_, ?_, ?_, ?_⟩
    · simp only [stress_matrix_3d_exercise, hfunc, hS, h0, h1, h2, hv0, e2,
        Bool.true_eq_false, Bool.false_eq_true, if_false]
    · rw [g3]; exact hSi
    · rw [g5]; exact hSm
    · rw [g7]; exact hSb
    · rw [g8]; exact hSc
    · rw [g9]; exact hStc
    · rw [g2]; exact hSs
    · rw [g6]; simp [hSt, hv0]
    · simp [hv0, tidy_r, tidy_b, tidy_a, dump_metrics_eq]
    · simp [hv0, tidy_r, tidy_b, tidy_a, dump_metrics_eq]
    · simp [hv0, tidy_r, tidy_b, tidy_a, dump_metrics_eq]

/-! ## What several loop iterations add up to -/

@[simp]
theorem bogo_incs_of_append (l1 l2 : List Event) :
    bogo_incs_of (l1 ++ l2) = bogo_incs_of l1 + bogo_incs_of l2 := by
  induction l1 with
  | nil => simp [bogo_incs_of]
  | cons e l ih =>
    cases e <;> simp [bogo_incs_of, ih]
    omega

@[simp]
theorem kernel_calls_of_append (l1 l2 : List Event) :
    kernel_calls_of (l1 ++ l2) = kernel_calls_of l1 + kernel_calls_of l2 := by
  induction l1 with
  | nil => simp [kernel_calls_of]
  | cons e l ih =>
    cases e <;> simp [kernel_calls_of, ih]
    omega

@[simp]
theorem bogo_incs_of_call_events (m : Nat) (func f : stress_matrix_3d_func_t) (t : Buf) :
    bogo_incs_of (call_events m func f t) = 0 := by
  unfold call_events
  split_ifs <;> rfl

/-- One call of the loop runs exactly one plain kernel. -/
theorem kernel_calls_of_call_events (m z : Nat) (hz : z < 2) (func f : stress_matrix_3d_func_t)
    (kern : Nat → Vol → Vol → Vol → Vol) (t : Buf)
    (hfunc : exercise_func m z = some func) (hk : kernel_of f = some kern) :
    kernel_calls_of (call_events m func f t) = 1 := by
  unfold call_events
  by_cases hm : m = 0
  · subst hm
    have hw : kernel_of func = none := by
      rcases table_all z hz with ⟨_, h0⟩ | ⟨_, h0⟩ <;>
        (rw [h0] at hfunc; cases hfunc; rfl)
    simp [kernel_calls_of, hw, hk]
  · simp [hm, kernel_calls_of, hk]

/-- The single result of the loop iterations. -/
theorem loop_passes_unique (env : Env) (func : stress_matrix_3d_func_t)
    (matrix_3d_method n k : Nat) (st0 st st' : State)
    (h : loop_passes env func matrix_3d_method n k st0 = some st)
    (h' : loop_passes env func matrix_3d_method n k st0 = some st') : st = st' := by
  rw [h] at h'
  exact Option.some.inj h'

/-- After `k` iterations: the bogo counter, the recorded `stress_bogo_inc` calls
and the recorded plain kernel calls have each grown by `k` times the number of
timed calls per iteration, and `stress_continue` has been called `k` more times;
nothing was mapped, unmapped or reported. -/
theorem passes_counters (env : Env) (matrix_3d_method z n : Nat)
    (func : stress_matrix_3d_func_t) (hm : matrix_3d_method < 13) (hz : z < 2)
    (hfunc : exercise_func matrix_3d_method z = some func) (st0 : State)
    (h1 : 1 ≤ st0.method_all_index) (h2 : st0.method_all_index < 13) (k : Nat) :
    ∃ st, loop_passes env func matrix_3d_method n k st0 = some st ∧
      st.bogo = st0.bogo + calls_per_pass env * k ∧
      bogo_incs_of st.trace = bogo_incs_of st0.trace + calls_per_pass env * k ∧
      kernel_calls_of st.trace = kernel_calls_of st0.trace + calls_per_pass env * k ∧
      st.continue_calls = st0.continue_calls + k ∧
      mapped_of st.trace = mapped_of st0.trace ∧
      unmapped_of st.trace = unmapped_of st0.trace ∧
      metrics_of st.trace = metrics_of st0.trace := by
  obtain ⟨st, e, _, _, hP⟩ := loop_passes_induction env matrix_3d_method z n func hm hz hfunc
    (fun t st => st.bogo = st0.bogo + calls_per_pass env * t ∧
      bogo_incs_of st.trace = bogo_incs_of st0.trace + calls_per_pass env * t ∧
      kernel_calls_of st.trace = kernel_calls_of st0.trace + calls_per_pass env * t ∧
      st.continue_calls = st0.continue_calls + t ∧
      mapped_of st.trace = mapped_of st0.trace ∧
      unmapped_of st.trace = unmapped_of st0.trace ∧
      metrics_of st.trace = metrics_of st0.trace)
    st0 h1 h2 ⟨by simp, by simp, by simp, by simp, rfl, rfl, rfl⟩
    (by
      intro t st st1 f kern ⟨g1, g2, g3, g4, g5, g6, g7⟩ _ _ _ hk _ p
      obtain ⟨q1, q2, q3⟩ := pass_trace_frame env matrix_3d_method func f kern n st st1 p
      have hkc := kernel_calls_of_call_events matrix_3d_method z hz func f kern Buf.r hfunc hk
      have hks := kernel_calls_of_call_events matrix_3d_method z hz func f kern Buf.s hfunc hk
      refine ⟨?_, ?_, ?_, ?_, by rw [q1, g5], by rw [q2, g6], by rw [q3, g7]⟩
      · rw [p.bogo, g1, Nat.mul_succ]; omega
      · rw [p.trace]
        by_cases hv : env.verify = true
        · cases hc : shim_memcmp st1.r st1.s n <;>
            simp [hv, hc, bogo_incs_of, g2, calls_per_pass] <;> omega
        · have hv0 : env.verify = false := by simpa using hv
          simp [hv0, bogo_incs_of, g2, calls_per_pass]
          omega
      · rw [p.trace]
        by_cases hv : env.verify = true
        · cases hc : shim_memcmp st1.r st1.s n <;>
            simp [hv, hc, kernel_calls_of, g3, calls_per_pass, hkc, hks] <;> omega
        · have hv0 : env.verify = false := by simpa using hv
          simp [hv0, kernel_calls_of, g3, calls_per_pass, hkc]
          omega
      · rw [p.continue_calls, g4]; omega)
    k
  exact ⟨st, e, hP⟩

/-- Counts never decrease, and an entry whose count has not grown has the
duration it started with. -/
theorem passes_untouched (env : Env) (matrix_3d_method z n : Nat)
    (func : stress_matrix_3d_func_t) (hm : matrix_3d_method < 13) (hz : z < 2)
    (hfunc : exercise_func matrix_3d_method z = some func) (st0 : State)
    (h1 : 1 ≤ st0.method_all_index) (h2 : st0.method_all_index < 13) (k : Nat) :
    ∃ st, loop_passes env func matrix_3d_method n k st0 = some st ∧
      ∀ i, (st0.matrix_3d_metrics i).count ≤ (st.matrix_3d_metrics i).count ∧
        ((st.matrix_3d_metrics i).count = (st0.matrix_3d_metrics i).count →
          (st.matrix_3d_metrics i).duration = (st0.matrix_3d_metrics i).duration) := by
  obtain ⟨st, e, _, _, hP⟩ := loop_passes_induction env matrix_3d_method z n func hm hz hfunc
    (fun _ st => ∀ i, (st0.matrix_3d_metrics i).count ≤ (st.matrix_3d_metrics i).count ∧
        ((st.matrix_3d_metrics i).count = (st0.matrix_3d_metrics i).count →
          (st.matrix_3d_metrics i).duration = (st0.matrix_3d_metrics i).duration))
    st0 h1 h2 (fun i => ⟨Nat.le_refl _, fun _ => rfl⟩)
    (by
      intro t st st1 f kern g _ _ hf hk e1 p i
      obtain ⟨gi1, gi2⟩ := g i
      have hc := p.count i
      obtain ⟨hd, _⟩ := loop_pass_timing env matrix_3d_method z hz func f kern n st st1 hfunc hf hk e1
      have hcpp : 1 ≤ calls_per_pass env := by
        unfold calls_per_pass; split_ifs <;> omega
      refine ⟨by omega, ?_⟩
      intro heq
      have hzero : calls_per_pass env * ((if i = matrix_3d_method then 1 else 0)
          + (if matrix_3d_method = 0 ∧ i = st.method_all_index then 1 else 0)) = 0 := by omega
      have hind : (if i = matrix_3d_method then 1 else 0)
          + (if matrix_3d_method = 0 ∧ i = st.method_all_index then 1 else 0) = 0 := by
        rcases Nat.mul_eq_zero.mp hzero with h | h
        · omega
        · exact h
      have hi1 : ¬ (i = matrix_3d_method) := by
        intro h; simp [h] at hind
      have hi2 : ¬ (matrix_3d_method = 0 ∧ i = st.method_all_index) := by
        intro h; simp [h] at hind
      have hel : pass_elapsed env matrix_3d_method st.method_all_index st.time_calls i = 0 := by
        unfold pass_elapsed call_elapsed
        by_cases hm0 : matrix_3d_method = 0
        · have hi3 : ¬ (i = st.method_all_index) := fun h => hi2 ⟨hm0, h⟩
          have hi4 : ¬ (i = 0) := fun h => hi1 (by rw [h, hm0])
          simp [hm0, hi3, hi4]
        · simp [hm0, hi1]
      rw [hd i, hel, add_zero]
      exact gi2 (by omega))
    k
  exact ⟨st, e, hP⟩

/-- With a clock that returns the same value at every reading, no duration ever
changes. -/
theorem passes_frozen_clock (env : Env) (matrix_3d_method z n : Nat)
    (func : stress_matrix_3d_func_t) (hm : matrix_3d_method < 13) (hz : z < 2)
    (hfunc : exercise_func matrix_3d_method z = some func) (st0 : State)
    (h1 : 1 ≤ st0.method_all_index) (h2 : st0.method_all_index < 13)
    (hclock : ∀ a b, env.time_now a = env.time_now b) (k : Nat) :
    ∃ st, loop_passes env func matrix_3d_method n k st0 = some st ∧
      ∀ i, (st.matrix_3d_metrics i).duration = (st0.matrix_3d_metrics i).duration := by
  obtain ⟨st, e, _, _, hP⟩ := loop_passes_induction env matrix_3d_method z n func hm hz hfunc
    (fun _ st => ∀ i, (st.matrix_3d_metrics i).duration = (st0.matrix_3d_metrics i).duration)
    st0 h1 h2 (fun _ => rfl)
    (by
      intro t st st1 f kern g _ _ hf hk e1 p i
      obtain ⟨hd, _⟩ := loop_pass_timing env matrix_3d_method z hz func f kern n st st1 hfunc hf hk e1
      have hel : pass_elapsed env matrix_3d_method st.method_all_index st.time_calls i = 0 := by
        unfold pass_elapsed call_elapsed
        have h0 : ∀ a b, env.time_now a - env.time_now b = 0 := by
          intro a b; rw [hclock a b]; omega
        simp [h0]
      rw [hd i, hel, add_zero]
      exact g i)
    k
  exact ⟨st, e, hP⟩

theorem bogo_incs_of_map_set (l : List (Nat × String × ℚ)) :
    bogo_incs_of (l.map (fun p => Event.stress_metrics_set p.1 p.2.1 p.2.2)) = 0 := by
  induction l with
  | nil => rfl
  | cons p l ih => simp [bogo_incs_of, ih]

theorem kernel_calls_of_map_set (l : List (Nat × String × ℚ)) :
    kernel_calls_of (l.map (fun p => Event.stress_metrics_set p.1 p.2.1 p.2.2)) = 0 := by
  induction l with
  | nil => rfl
  | cons p l ih => simp [kernel_calls_of, ih]

/-! ## The exits of the exercise routine -/

/-- A mapping that fails at step `m`: the run logs the successful mappings of the
steps before `m`, the failed one, the allocation message and the unmappings of
the buffers mapped before, latest first, and returns `EXIT_NO_RESOURCE`
whatever the fuel. -/
theorem run_failure (env : Env) (fuel matrix_3d_method z n m : Nat)
    (hm : matrix_3d_method < 13) (hz : z < 2) (h1 : 1 ≤ m) (h4 : m ≤ 4)
    (hv : m = 4 → env.verify = true)
    (hok : ∀ j, j + 1 < m → env.mmap_ok j = true)
    (hfail : env.mmap_ok (m - 1) = false) :
    ∃ st, stress_matrix_3d_exercise env fuel matrix_3d_method z n = some (ExitCode.EXIT_NO_RESOURCE, st) ∧
      st.bogo = 0 ∧
      mapped_of st.trace = acquisition_order.take (m - 1) ∧
      unmapped_of st.trace = (acquisition_order.take (m - 1)).reverse ∧
      metrics_of st.trace = [] ∧
      kernel_calls_of st.trace = 0 := by
  obtain ⟨func, hfunc⟩ := table_func matrix_3d_method z hm hz
  have hf : exercise_func matrix_3d_method z = some func := hfunc
  obtain ⟨m0, s0, _, hS, _, _, _, _, _, htr, hb, _, _⟩ :=
    exercise_setup_spec matrix_3d_method hm
  have e0 := hok 0
  have e1 := hok 1
  have e2 := hok 2
  interval_cases m
  · simp only [Nat.sub_self] at hfail
    have hres : stress_matrix_3d_exercise env fuel matrix_3d_method z n
        = some (ExitCode.EXIT_NO_RESOURCE, pr_fail_allocation env
            (s0.log (Event.mmap Buf.a (round_up env.page_size (exercise_matrix_3d_size n))
              false))) := by
      simp [stress_matrix_3d_exercise, hf, hS, hfail]
    refine ⟨_, hres, ?_, ?_, ?_, ?_, ?_⟩ <;>
      simp [pr_fail_allocation, State.log, htr, hb, mapped_of, unmapped_of, metrics_of,
        kernel_calls_of, acquisition_order]
  · have a0 := e0 (by omega)
    simp only [Nat.add_one_sub_one] at hfail
    have hres : stress_matrix_3d_exercise env fuel matrix_3d_method z n
        = some (ExitCode.EXIT_NO_RESOURCE,
            tidy_a (round_up env.page_size (exercise_matrix_3d_size n))
              (pr_fail_allocation env
                ((s0.log (Event.mmap Buf.a
                    (round_up env.page_size (exercise_matrix_3d_size n)) true)).log
                  (Event.mmap Buf.b (round_up env.page_size (exercise_matrix_3d_size n))
                    false)))) := by
      simp [stress_matrix_3d_exercise, hf, hS, hfail, a0]
    refine ⟨_, hres, ?_, ?_, ?_, ?_, ?_⟩ <;>
      simp [pr_fail_allocation, tidy_a, State.log, htr, hb, mapped_of, unmapped_of,
        metrics_of, kernel_calls_of, acquisition_order]
  · have a0 := e0 (by omega)
    have a1 := e1 (by omega)
    simp only [Nat.add_one_sub_one] at hfail
    have hres : stress_matrix_3d_exercise env fuel matrix_3d_method z n
        = some (ExitCode.EXIT_NO_RESOURCE,
            tidy_b (round_up env.page_size (exercise_matrix_3d_size n))
              (pr_fail_allocation env
                (((s0.log (Event.mmap Buf.a
                    (round_up env.page_size (exercise_matrix_3d_size n)) true)).log
                  (Event.mmap Buf.b (round_up env.page_size (exercise_matrix_3d_size n))
                    true)).log
                  (Event.mmap Buf.r (round_up env.page_size (exercise_matrix_3d_size n))
                    false)))) := by
      simp [stress_matrix_3d_exercise, hf, hS, hfail, a0, a1]
    refine ⟨_, hres, ?_, ?_, ?_, ?_, ?_⟩ <;>
      simp [pr_fail_allocation, tidy_a, tidy_b, State.log, htr, hb, mapped_of, unmapped_of,
        metrics_of, kernel_calls_of, acquisition_order]
  · have a0 := e0 (by omega)
    have a1 := e1 (by omega)
    have a2 := e2 (by omega)
    have hv1 := hv rfl
    simp only [Nat.add_one_sub_one] at hfail
    have hres : stress_matrix_3d_exercise env fuel matrix_3d_method z n
        = some (ExitCode.EXIT_NO_RESOURCE,
            tidy_r (round_up env.page_size (exercise_matrix_3d_size n))
              (pr_fail_allocation env
                ((((s0.log (Event.mmap Buf.a
                    (round_up env.page_size (exercise_matrix_3d_size n)) true)).log
                  (Event.mmap Buf.b (round_up env.page_size (exercise_matrix_3d_size n))
                    true)).log
                  (Event.mmap Buf.r (round_up env.page_size (exercise_matrix_3d_size n))
                    true)).log
                  (Event.mmap Buf.s (round_up env.page_size (exercise_matrix_3d_size n))
                    false)))) := by
      simp [stress_matrix_3d_exercise, hf, hS, hfail, a0, a1, a2, hv1]
    refine ⟨_, hres, ?_, ?_, ?_, ?_, ?_⟩ <;>
      simp [pr_fail_allocation, tidy_a, tidy_b, tidy_r, State.log, htr, hb, mapped_of,
        unmapped_of, metrics_of, kernel_calls_of, acquisition_order]

/-- When some mapping the run asks for fails, there is a first step that fails. -/
theorem first_failing_step (env : Env) (h : ¬ maps_ok env) :
    ∃ m, 1 ≤ m ∧ m ≤ 4 ∧ (m = 4 → env.verify = true) ∧
      (∀ j, j + 1 < m → env.mmap_ok j = true) ∧ env.mmap_ok (m - 1) = false := by
  unfold maps_ok at h
  cases h0 : env.mmap_ok 0
  · exact ⟨1, by omega, by omega, by omega, fun j hj => by omega, h0⟩
  · cases h1 : env.mmap_ok 1
    · refine ⟨2, by omega, by omega, by omega, fun j hj => ?_, h1⟩
      have : j = 0 := by omega
      subst this; exact h0
    · cases h2 : env.mmap_ok 2
      · refine ⟨3, by omega, by omega, by omega, fun j hj => ?_, h2⟩
        have : j = 0 ∨ j = 1 := by omega
        rcases this with rfl | rfl
        · exact h0
        · exact h1
      · cases h3 : env.mmap_ok 3
        · cases hv : env.verify
          · simp [h0, h1, h2, hv] at h
          · refine ⟨4, by omega, by omega, fun _ => rfl, fun j hj => ?_, h3⟩
            have : j = 0 ∨ j = 1 ∨ j = 2 := by omega
            rcases this with rfl | rfl | rfl
            · exact h0
            · exact h1
            · exact h2
        · simp [h0, h1, h2, h3] at h

/-- A failing step means that not every mapping succeeds. -/
theorem failing_step_not_ok (env : Env) (m : Nat) (h1 : 1 ≤ m) (h4 : m ≤ 4)
    (hv : m = 4 → env.verify = true) (hfail : env.mmap_ok (m - 1) = false) :
    ¬ maps_ok env := by
  intro ⟨g0, g1, g2, g3⟩
  interval_cases m
  · simp [g0] at hfail
  · simp [g1] at hfail
  · simp [g2] at hfail
  · simp [g3 (hv rfl)] at hfail

/-- A run in which every mapping succeeds and that makes `k` iterations: the
whole result, with the buffers mapped, the buffers unmapped, the metrics
reported and the counters at the end. -/
theorem run_summary (env : Env) (fuel matrix_3d_method z n k : Nat)
    (hm : matrix_3d_method < 13) (hz : z < 2)
    (hmaps : maps_ok env) (hstop : stops_after env k) (hfuel : k ≤ fuel) :
    ∃ func st0 stk st, exercise_func matrix_3d_method z = some func ∧
      loop_passes env func matrix_3d_method n k st0 = some stk ∧
      stress_matrix_3d_exercise env fuel matrix_3d_method z n = some (ExitCode.EXIT_SUCCESS, st) ∧
      st0.method_all_index = 1 ∧
      st0.matrix_3d_metrics = (fun _ => { duration := 0, count := 0 }) ∧
      st0.time_calls = 0 ∧
      st.matrix_3d_metrics = stk.matrix_3d_metrics ∧
      st.bogo = calls_per_pass env * k ∧
      bogo_incs_of st.trace = calls_per_pass env * k ∧
      kernel_calls_of st.trace = calls_per_pass env * k ∧
      mapped_of st.trace = [Buf.a, Buf.b, Buf.r] ++ (if env.verify = true then [Buf.s] else []) ∧
      unmapped_of st.trace = (if env.verify = true then [Buf.s] else []) ++ [Buf.r, Buf.b, Buf.a] ∧
      metrics_of st.trace = metrics_report_spec stk := by
  obtain ⟨func, st0, stk, st, hfunc, e, hres, g1, g2, g3, g4, g5, g6, g7, g8, g9, g10, g11⟩ :=
    run_success env fuel matrix_3d_method z n k hm hz hmaps hstop hfuel
  obtain ⟨st', e', c1, c2, c3, _, c5, c6, c7⟩ :=
    passes_counters env matrix_3d_method z n func hm hz hfunc st0 (by omega) (by omega) k
  have hst := loop_passes_unique env func matrix_3d_method n k st0 st' stk e' e
  subst hst
  refine ⟨func, st0, st', st, hfunc, e, hres, g1, g2, g5, g9, ?_, ?_, ?_, ?_, ?_, ?_⟩
  · rw [g10, c1, g3]; omega
  · rw [g11]
    by_cases hv : env.verify = true
    · simp [hv, c2, g8, bogo_incs_of, bogo_incs_of_map_set]
    · have hv0 : env.verify = false := by simpa using hv
      simp [hv0, c2, g8, bogo_incs_of, bogo_incs_of_map_set]
  · rw [g11]
    by_cases hv : env.verify = true
    · simp [hv, c3, g8, kernel_calls_of, kernel_calls_of_map_set]
    · have hv0 : env.verify = false := by simpa using hv
      simp [hv0, c3, g8, kernel_calls_of, kernel_calls_of_map_set]
  · rw [g11]
    by_cases hv : env.verify = true
    · simp [hv, c5, g8, mapped_of, mapped_of_map_set]
    · have hv0 : env.verify = false := by simpa using hv
      simp [hv0, c5, g8, mapped_of, mapped_of_map_set]
  · rw [g11]
    by_cases hv : env.verify = true
    · simp [hv, c6, g8, unmapped_of, unmapped_of_map_set]
    · have hv0 : env.verify = false := by simpa using hv
      simp [hv0, c6, g8, unmapped_of, unmapped_of_map_set]
  · rw [g11]
    by_cases hv : env.verify = true
    · simp [hv, c7, g8, metrics_of, metrics_of_map_set]
    · have hv0 : env.verify = false := by simpa using hv
      simp [hv0, c7, g8, metrics_of, metrics_of_map_set]

/-! ## Counts, durations and reports at the end of a run -/

/-- With a fixed method the time of a call does not depend on the cursor. -/
theorem pass_elapsed_fixed (env : Env) (matrix_3d_method idx idx' tc i : Nat)
    (h : matrix_3d_method ≠ 0) :
    pass_elapsed env matrix_3d_method idx tc i = pass_elapsed env matrix_3d_method idx' tc i := by
  simp [pass_elapsed, call_elapsed, h]

theorem run_elapsed_succ (env : Env) (matrix_3d_method k i : Nat) :
    run_elapsed env matrix_3d_method (k + 1) i = run_elapsed env matrix_3d_method k i
      + pass_elapsed env matrix_3d_method (1 + k % 12)
          (k * (calls_per_pass env * (if matrix_3d_method = 0 then 4 else 2))) i := by
  simp [run_elapsed, List.range_succ]

/-- After `k` iterations from a state with the cursor at 1 and no clock reading
made, every duration has grown by `run_elapsed`. -/
theorem passes_durations (env : Env) (matrix_3d_method z n : Nat)
    (func : stress_matrix_3d_func_t) (hm : matrix_3d_method < 13) (hz : z < 2)
    (hfunc : exercise_func matrix_3d_method z = some func) (st0 : State)
    (h1 : st0.method_all_index = 1) (htc : st0.time_calls = 0) (k : Nat) :
    ∃ st, loop_passes env func matrix_3d_method n k st0 = some st ∧
      ∀ i, (st.matrix_3d_metrics i).duration
        = (st0.matrix_3d_metrics i).duration + run_elapsed env matrix_3d_method k i := by
  obtain ⟨st, e, _, _, _, _, hP⟩ := loop_passes_induction env matrix_3d_method z n func hm hz hfunc
    (fun t st =>
      st.time_calls = t * (calls_per_pass env * (if matrix_3d_method = 0 then 4 else 2)) ∧
      (matrix_3d_method = 0 → st.method_all_index = 1 + t % 12) ∧
      ∀ i, (st.matrix_3d_metrics i).duration
        = (st0.matrix_3d_metrics i).duration + run_elapsed env matrix_3d_method t i)
    st0 (by omega) (by omega)
    ⟨by simp [htc], fun _ => by simp [h1], fun i => by simp [run_elapsed]⟩
    (by
      intro t st st1 f kern ⟨g1, g2, g3⟩ _ _ hf hk e1 p
      obtain ⟨hd, htc1⟩ := loop_pass_timing env matrix_3d_method z hz func f kern n st st1 hfunc hf hk e1
      refine ⟨?_, ?_, ?_⟩
      · rw [htc1, g1, Nat.succ_mul]
      · intro h0
        rw [p.index, g2 h0]
        unfold next_index
        simp only [h0, if_true]
        split_ifs <;> omega
      · intro i
        rw [hd i, g3 i, run_elapsed_succ, g1, add_assoc]
        by_cases h0 : matrix_3d_method = 0
        · rw [g2 h0]
        · rw [pass_elapsed_fixed env matrix_3d_method st.method_all_index (1 + t % 12) _ i h0])
    k
  exact ⟨st, e, hP⟩

/-- With a fixed method only the entry of that method is counted. -/
theorem passes_counts_fixed (env : Env) (matrix_3d_method z n : Nat)
    (func : stress_matrix_3d_func_t) (hm : matrix_3d_method < 13) (hz : z < 2)
    (h0 : matrix_3d_method ≠ 0)
    (hfunc : exercise_func matrix_3d_method z = some func) (st0 : State)
    (h1 : 1 ≤ st0.method_all_index) (h2 : st0.method_all_index < 13) (k : Nat) :
    ∃ st, loop_passes env func matrix_3d_method n k st0 = some st ∧
      ∀ i, (st.matrix_3d_metrics i).count = (st0.matrix_3d_metrics i).count
        + (if i = matrix_3d_method then calls_per_pass env * k else 0) := by
  obtain ⟨st, e, _, _, hP⟩ := loop_passes_induction env matrix_3d_method z n func hm hz hfunc
    (fun t st => ∀ i, (st.matrix_3d_metrics i).count = (st0.matrix_3d_metrics i).count
        + (if i = matrix_3d_method then calls_per_pass env * t else 0))
    st0 h1 h2 (fun i => by simp)
    (by
      intro t st st1 f kern g _ _ _ _ _ p i
      rw [p.count i, g i]
      by_cases hi : i = matrix_3d_method
      · simp [hi, h0, Nat.mul_succ]
        omega
      · simp [hi, h0])
    k
  exact ⟨st, e, hP⟩

theorem div_step (t i : Nat) (h1 : 1 ≤ i) (h2 : i < 13) :
    (t + 12 - i) / 12 = t / 12 + (if i ≤ t % 12 then 1 else 0) := by
  split_ifs <;> omega

/-- The counts of the entries `1..12` in all mode add up to the number of timed
calls. -/
theorem all_counts_sum (c t : Nat) (st : State)
    (h : ∀ i, 1 ≤ i → i < 13 → (st.matrix_3d_metrics i).count = c * ((t + 12 - i) / 12)) :
    kernel_counts_sum st = c * t := by
  have e : kernel_counts_sum st = (st.matrix_3d_metrics 1).count + (st.matrix_3d_metrics 2).count
      + (st.matrix_3d_metrics 3).count + (st.matrix_3d_metrics 4).count
      + (st.matrix_3d_metrics 5).count + (st.matrix_3d_metrics 6).count
      + (st.matrix_3d_metrics 7).count + (st.matrix_3d_metrics 8).count
      + (st.matrix_3d_metrics 9).count + (st.matrix_3d_metrics 10).count
      + (st.matrix_3d_metrics 11).count + (st.matrix_3d_metrics 12).count := by
    have h12 : matrix_3d_methods.length - 1 = 12 := rfl
    simp only [kernel_counts_sum, h12]
    simp [List.range']
    omega
  rw [e, h 1 (by omega) (by omega), h 2 (by omega) (by omega), h 3 (by omega) (by omega),
    h 4 (by omega) (by omega), h 5 (by omega) (by omega), h 6 (by omega) (by omega),
    h 7 (by omega) (by omega), h 8 (by omega) (by omega), h 9 (by omega) (by omega),
    h 10 (by omega) (by omega), h 11 (by omega) (by omega), h 12 (by omega) (by omega)]
  rw [div_step t 1 (by omega) (by omega), div_step t 2 (by omega) (by omega),
    div_step t 3 (by omega) (by omega), div_step t 4 (by omega) (by omega),
    div_step t 5 (by omega) (by omega), div_step t 6 (by omega) (by omega),
    div_step t 7 (by omega) (by omega), div_step t 8 (by omega) (by omega),
    div_step t 9 (by omega) (by omega), div_step t 10 (by omega) (by omega),
    div_step t 11 (by omega) (by omega), div_step t 12 (by omega) (by omega)]
  simp only [← Nat.mul_add]
  congr 1
  have hq := Nat.div_add_mod t 12
  have hr : t % 12 < 12 := Nat.mod_lt t (by omega)
  generalize t % 12 = r at hq hr ⊢
  generalize t / 12 = q at hq ⊢
  interval_cases r <;> simp <;> omega

theorem kernel_counts_sum_congr (st st' : State)
    (h : st.matrix_3d_metrics = st'.matrix_3d_metrics) :
    kernel_counts_sum st = kernel_counts_sum st' := by
  simp only [kernel_counts_sum, h]

theorem metrics_report_spec_congr (st st' : State)
    (h : st.matrix_3d_metrics = st'.matrix_3d_metrics) :
    metrics_report_spec st = metrics_report_spec st' := by
  simp only [metrics_report_spec, reported_entries_spec, h]

/-- The labels of the 13 table entries are pairwise different. -/
theorem metric_label_inj (i j : Nat) (hi : i < 13) (hj : j < 13)
    (h : method_name i ++ " matrix-3d ops per sec" = method_name j ++ " matrix-3d ops per sec") :
    i = j := by
  have hd := congrArg String.data h
  simp only [String.data_append] at hd
  have hn : (method_name i).data = (method_name j).data := List.append_cancel_right hd
  have hs : method_name i = method_name j := String.ext hn
  revert hs
  interval_cases i <;> interval_cases j <;> decide

theorem count_metric_label (L : List Nat) (i : Nat) (hi : i < 13) (hL : ∀ x ∈ L, x < 13) :
    (L.map (fun x => method_name x ++ " matrix-3d ops per sec")).count
      (method_name i ++ " matrix-3d ops per sec") = L.count i := by
  induction L with
  | nil => rfl
  | cons x L ih =>
    have hx : x < 13 := hL x (List.mem_cons_self _ _)
    have ih1 := ih (fun y hy => hL y (List.mem_cons_of_mem _ hy))
    rw [List.map_cons, List.count_cons, List.count_cons, ih1]
    by_cases hxi : x = i
    · subst hxi; simp
    · have hne : ¬ (method_name x ++ " matrix-3d ops per sec"
          = method_name i ++ " matrix-3d ops per sec") :=
        fun h => hxi (metric_label_inj x i hx hi h)
      simp [hxi, hne]

/-- The labels reported are those of `reported_entries_spec`, in order, and the
slots are `0, 1, 2, ...`. -/
theorem metrics_report_spec_labels (st : State) :
    (metrics_report_spec st).map (fun p => p.2.1)
      = (reported_entries_spec st).map (fun x => method_name x ++ " matrix-3d ops per sec") ∧
    (metrics_report_spec st).map (fun p => p.1)
      = List.range (reported_entries_spec st).length := by
  constructor
  · have hc : (fun p : Nat × Nat => method_name p.2 ++ " matrix-3d ops per sec")
        = (fun x => method_name x ++ " matrix-3d ops per sec") ∘ Prod.snd := rfl
    simp only [metrics_report_spec, List.map_map, Function.comp_def]
    rw [hc, ← List.map_map, List.enum_map_snd]
  · simp only [metrics_report_spec, List.map_map, Function.comp_def]
    exact List.enum_map_fst (reported_entries_spec st)

/-- A trace whose reports are those of `metrics_report_spec st` reports one rate
under the label of an entry `i ≥ 1` with positive duration, and none under any
other label of the table. -/
theorem reports_for_spec (tr : List Event) (st : State) (i : Nat) (hi : i < 13)
    (h : metrics_of tr = metrics_report_spec st) :
    reports_for tr i
      = if 1 ≤ i ∧ 0 < (st.matrix_3d_metrics i).duration then 1 else 0 := by
  have hL : ∀ x ∈ reported_entries_spec st, x < 13 := by
    intro x hx
    exact ((mem_reported_entries_spec st x).mp hx).2.1
  unfold reports_for
  rw [h, (metrics_report_spec_labels st).1, count_metric_label _ i hi hL]
  by_cases hc : 1 ≤ i ∧ 0 < (st.matrix_3d_metrics i).duration
  · have hmem : i ∈ reported_entries_spec st :=
      (mem_reported_entries_spec st i).mpr ⟨hc.1, hi, hc.2⟩
    have hnd : (reported_entries_spec st).Nodup :=
      (List.nodup_range' 1 _).filter _
    rw [if_pos hc]
    exact List.count_eq_one_of_mem hnd hmem
  · rw [if_neg hc]
    apply List.count_eq_zero_of_not_mem
    intro hmem
    have := (mem_reported_entries_spec st i).mp hmem
    exact hc ⟨this.1, this.2.2⟩

/-- The entries reported are in table order. -/
theorem reported_entries_spec_sorted (st : State) :
    (reported_entries_spec st).Pairwise (fun x y => x < y) := by
  unfold reported_entries_spec
  exact List.Pairwise.filter _ (List.pairwise_lt_range' 1 _)

/-- A run in which every mapping succeeds and that makes `k` iterations: the
result, the counters, the buffers mapped and unmapped, the reports, the
durations and the counts at its end. -/
theorem run_facts (env : Env) (fuel matrix_3d_method z n k : Nat)
    (hm : matrix_3d_method < 13) (hz : z < 2)
    (hmaps : maps_ok env) (hstop : stops_after env k) (hfuel : k ≤ fuel) :
    ∃ st, stress_matrix_3d_exercise env fuel matrix_3d_method z n
        = some (ExitCode.EXIT_SUCCESS, st) ∧
      st.bogo = calls_per_pass env * k ∧
      bogo_incs_of st.trace = calls_per_pass env * k ∧
      kernel_calls_of st.trace = calls_per_pass env * k ∧
      mapped_of st.trace = [Buf.a, Buf.b, Buf.r] ++ (if env.verify = true then [Buf.s] else []) ∧
      unmapped_of st.trace = (if env.verify = true then [Buf.s] else []) ++ [Buf.r, Buf.b, Buf.a] ∧
      metrics_of st.trace = metrics_report_spec st ∧
      (∀ i, (st.matrix_3d_metrics i).duration = run_elapsed env matrix_3d_method k i) ∧
      (∀ i, (st.matrix_3d_metrics i).count = 0 → (st.matrix_3d_metrics i).duration = 0) ∧
      (matrix_3d_method = 0 →
        (st.matrix_3d_metrics 0).count = calls_per_pass env * k ∧
        (∀ i, 1 ≤ i → i < 13 →
          (st.matrix_3d_metrics i).count = calls_per_pass env * ((k + 12 - i) / 12)) ∧
        kernel_counts_sum st = calls_per_pass env * k) ∧
      (matrix_3d_method ≠ 0 → ∀ i, (st.matrix_3d_metrics i).count
        = if i = matrix_3d_method then calls_per_pass env * k else 0) := by
  obtain ⟨func, st0, stk, st, hfunc, e, hres, g1, g2, g3, g4, g5, g6, g7, g8, g9, g10⟩ :=
    run_summary env fuel matrix_3d_method z n k hm hz hmaps hstop hfuel
  have hz0 : ∀ i, (st0.matrix_3d_metrics i).count = 0 := fun i => by rw [g2]
  have hd0 : ∀ i, (st0.matrix_3d_metrics i).duration = 0 := fun i => by rw [g2]
  refine ⟨st, hres, g5, g6, g7, g8, g9, ?_, ?_, ?_, ?_, ?_⟩
  · rw [g10]
    exact metrics_report_spec_congr stk st g4.symm
  · obtain ⟨st', e', d⟩ :=
      passes_durations env matrix_3d_method z n func hm hz hfunc st0 g1 g3 k
    have hst := loop_passes_unique env func matrix_3d_method n k st0 st' stk e' e
    subst hst
    intro i
    rw [g4, d i, hd0 i, zero_add]
  · obtain ⟨st', e', u⟩ :=
      passes_untouched env matrix_3d_method z n func hm hz hfunc st0 (by omega) (by omega) k
    have hst := loop_passes_unique env func matrix_3d_method n k st0 st' stk e' e
    subst hst
    intro i hi
    rw [g4] at hi ⊢
    rw [(u i).2 (by rw [hi, hz0 i]), hd0 i]
  · intro h0
    subst h0
    obtain ⟨st', e', _, c0, ci⟩ := all_mode_invariant env z n func hz hfunc st0 g1 hz0 k
    have hst := loop_passes_unique env func 0 n k st0 st' stk e' e
    subst hst
    refine ⟨by rw [g4, c0], fun i h1 h2 => by rw [g4, ci i h1 h2], ?_⟩
    rw [kernel_counts_sum_congr st st' g4]
    exact all_counts_sum _ k st' ci
  · intro h0
    obtain ⟨st', e', c⟩ := passes_counts_fixed env matrix_3d_method z n func hm hz h0 hfunc st0
      (by omega) (by omega) k
    have hst := loop_passes_unique env func matrix_3d_method n k st0 st' stk e' e
    subst hst
    intro i
    rw [g4, c i, hz0 i, zero_add]

theorem maps_ok_frozen : maps_ok Env.frozen := ⟨rfl, rfl, rfl, fun _ => rfl⟩

theorem stops_after_frozen : stops_after Env.frozen 1 :=
  ⟨Nat.le_refl 1, fun t ht => absurd ht (by omega), rfl⟩

theorem maps_ok_ticking : maps_ok Env.ticking := ⟨rfl, rfl, rfl, fun _ => rfl⟩

theorem stops_after_ticking : stops_after Env.ticking 3 := by
  refine ⟨by omega, fun t ht => ?_, by decide⟩
  have h2 : t < 2 := by omega
  simp [Env.ticking, h2]

theorem calls_per_pass_eq (env : Env) (k : Nat) :
    calls_per_pass env * k = if env.verify = true then 2 * k else k := by
  unfold calls_per_pass
  split_ifs <;> omega

/-! ## Evaluations of the continuation predicate and calls of a whole run -/

theorem invocation_gaps_append (l1 l2 : List Event) :
    invocation_gaps (l1 ++ l2) = l2.foldl gaps_step (invocation_gaps l1) := by
  simp [invocation_gaps, List.foldl_append]

/-- One call of the loop adds one plain kernel call to the current segment. -/
theorem gaps_call_events (m z : Nat) (hz : z < 2) (func f : stress_matrix_3d_func_t)
    (kern : Nat → Vol → Vol → Vol → Vol) (t : Buf)
    (hfunc : exercise_func m z = some func) (hk : kernel_of f = some kern)
    (acc : List Nat × Nat) :
    (call_events m func f t).foldl gaps_step acc = (acc.1, acc.2 + 1) := by
  unfold call_events
  by_cases hm : m = 0
  · subst hm
    have hw : kernel_of func = none := by
      rcases table_all z hz with ⟨_, h0⟩ | ⟨_, h0⟩ <;>
        (rw [h0] at hfunc; cases hfunc; rfl)
    simp [gaps_step, hw, hk]
  · simp [hm, gaps_step, hk]

theorem gaps_map_set (l : List (Nat × String × ℚ)) (acc : List Nat × Nat) :
    (l.map (fun p => Event.stress_metrics_set p.1 p.2.1 p.2.2)).foldl gaps_step acc = acc := by
  induction l with
  | nil => rfl
  | cons p l ih => simp [gaps_step, ih]

theorem calls_of_map_set (l : List (Nat × String × ℚ)) :
    calls_of (l.map (fun p => Event.stress_metrics_set p.1 p.2.1 p.2.2)) = [] := by
  induction l with
  | nil => rfl
  | cons p l ih => simp [calls_of, ih]

/-- The events of one loop iteration close one segment with as many plain kernel
calls as the iteration makes timed calls. -/
theorem gaps_pass (env : Env) (matrix_3d_method z : Nat) (hz : z < 2)
    (func f : stress_matrix_3d_func_t) (kern : Nat → Vol → Vol → Vol → Vol) (n : Nat)
    (st st1 : State) (hfunc : exercise_func matrix_3d_method z = some func)
    (hk : kernel_of f = some kern)
    (p : PassEffect env matrix_3d_method func f kern n st st1) (L : List Nat)
    (h : invocation_gaps st.trace = (L, 0)) :
    invocation_gaps st1.trace = (L ++ [calls_per_pass env], 0) := by
  have hr := gaps_call_events matrix_3d_method z hz func f kern Buf.r hfunc hk
  have hs := gaps_call_events matrix_3d_method z hz func f kern Buf.s hfunc hk
  rw [p.trace]
  by_cases hv : env.verify = true
  · cases hc : shim_memcmp st1.r st1.s n <;>
      simp [invocation_gaps_append, List.foldl_append, h, hr, hs, hv, hc, gaps_step,
        calls_per_pass]
  · have hv0 : env.verify = false := by simpa using hv
    simp [invocation_gaps_append, List.foldl_append, h, hr, hv0, gaps_step, calls_per_pass]

/-- The calls of one loop iteration are those of `pass_calls_spec`. -/
theorem calls_pass (env : Env) (matrix_3d_method z t : Nat)
    (func f : stress_matrix_3d_func_t) (kern : Nat → Vol → Vol → Vol → Vol) (n : Nat)
    (st st1 : State) (hfunc : exercise_func matrix_3d_method z = some func)
    (hf : exercise_func (if matrix_3d_method = 0 then 1 + t % 12 else matrix_3d_method) z
      = some f)
    (p : PassEffect env matrix_3d_method func f kern n st st1) :
    calls_of st1.trace = calls_of st.trace ++ pass_calls_spec env matrix_3d_method z t := by
  rw [p.trace]
  simp only [pass_calls_spec, hfunc, hf]
  by_cases hv : env.verify = true
  · cases hc : shim_memcmp st1.r st1.s n <;>
      simp [calls_of_append, calls_of, hv, hc]
  · have hv0 : env.verify = false := by simpa using hv
    simp [calls_of_append, calls_of, hv0]

/-- A run in which every mapping succeeds and that makes `k` iterations: the
segments the evaluations of `stress_continue` cut its trace into, and the calls
through function pointers it makes. -/
theorem run_gaps_calls (env : Env) (fuel matrix_3d_method z n k : Nat)
    (hm : matrix_3d_method < 13) (hz : z < 2)
    (hmaps : maps_ok env) (hstop : stops_after env k) (hfuel : k ≤ fuel) :
    ∃ st, stress_matrix_3d_exercise env fuel matrix_3d_method z n
        = some (ExitCode.EXIT_SUCCESS, st) ∧
      invocation_gaps st.trace = (List.replicate k (calls_per_pass env), 0) ∧
      calls_of st.trace = run_calls_spec env matrix_3d_method z k := by
  obtain ⟨func, st0, stk, st, hfunc, e, hres, g1, _, _, _, _, _, _, g8, _, _, g11⟩ :=
    run_success env fuel matrix_3d_method z n k hm hz hmaps hstop hfuel
  have hg0 : invocation_gaps st0.trace = ([], 0) := by
    rw [g8]
    cases hv : env.verify <;> simp [invocation_gaps, gaps_step]
  have hc0 : calls_of st0.trace = [] := by
    rw [g8]
    cases hv : env.verify <;> simp [calls_of]
  obtain ⟨st', e', _, _, _, hG, hC⟩ :=
    loop_passes_induction env matrix_3d_method z n func hm hz hfunc
      (fun t st => st.method_all_index = (if matrix_3d_method = 0 then 1 + t % 12 else 1) ∧
        invocation_gaps st.trace = (List.replicate t (calls_per_pass env), 0) ∧
        calls_of st.trace = run_calls_spec env matrix_3d_method z t)
      st0 (by omega) (by omega)
      ⟨by simp [g1], by simpa using hg0, by simpa [run_calls_spec] using hc0⟩
      (by
        intro t st st1 f kern ⟨q1, q2, q3⟩ _ _ hf hk _ p
        have hf' : exercise_func
            (if matrix_3d_method = 0 then 1 + t % 12 else matrix_3d_method) z = some f := by
          by_cases h0 : matrix_3d_method = 0
          · simp only [h0, if_true] at hf q1 ⊢
            rw [← q1]; exact hf
          · simp only [h0, if_false] at hf ⊢
            exact hf
        refine ⟨?_, ?_, ?_⟩
        · rw [p.index, q1]
          unfold next_index
          by_cases h0 : matrix_3d_method = 0
          · simp only [h0, if_true]
            split_ifs <;> omega
          · simp [h0]
        · rw [List.replicate_succ']
          exact gaps_pass env matrix_3d_method z hz func f kern n st st1 hfunc hk p _ q2
        · rw [calls_pass env matrix_3d_method z t func f kern n st st1 hfunc hf' p, q3]
          rfl)
      k
  have hst := loop_passes_unique env func matrix_3d_method n k st0 st' stk e' e
  subst hst
  refine ⟨st, hres, ?_, ?_⟩
  · rw [g11]
    cases hv : env.verify <;>
      simp [invocation_gaps_append, List.foldl_append, hG, gaps_map_set, gaps_step]
  · rw [g11]
    cases hv : env.verify <;>
      simp [calls_of_append, calls_of_map_set, calls_of, hC]

/-! ## The allocation message, the loop from its entry, and single kernels -/

/-- A mapping that fails at step `m`: the failure logger gets one message, the
run name followed by the allocation text, and no function is called. -/
theorem run_failure_message (env : Env) (fuel matrix_3d_method z n m : Nat)
    (hm : matrix_3d_method < 13) (hz : z < 2) (h1 : 1 ≤ m) (h4 : m ≤ 4)
    (hv : m = 4 → env.verify = true)
    (hok : ∀ j, j + 1 < m → env.mmap_ok j = true)
    (hfail : env.mmap_ok (m - 1) = false) :
    ∃ st, stress_matrix_3d_exercise env fuel matrix_3d_method z n
        = some (ExitCode.EXIT_NO_RESOURCE, st) ∧
      fails_of st.trace = [env.name ++ ": matrix allocation failed, out of memory\n"] ∧
      calls_of st.trace = [] ∧
      st.current_method = method_name matrix_3d_method := by
  obtain ⟨func, hfunc⟩ := table_func matrix_3d_method z hm hz
  have hf : exercise_func matrix_3d_method z = some func := hfunc
  obtain ⟨m0, s0, hm0, hS, _, _, _, hcm, _, htr, _, _, _⟩ :=
    exercise_setup_spec matrix_3d_method hm
  have hname : method_name matrix_3d_method = m0.name := by
    simp only [method_name, hm0]
  have e0 := hok 0
  have e1 := hok 1
  have e2 := hok 2
  interval_cases m
  · simp only [Nat.sub_self] at hfail
    have hres : stress_matrix_3d_exercise env fuel matrix_3d_method z n
        = some (ExitCode.EXIT_NO_RESOURCE, pr_fail_allocation env
            (s0.log (Event.mmap Buf.a (round_up env.page_size (exercise_matrix_3d_size n))
              false))) := by
      simp [stress_matrix_3d_exercise, hf, hS, hfail]
    refine ⟨_, hres, ?_, ?_, ?_⟩ <;>
      simp [pr_fail_allocation, State.log, htr, hcm, hname, fails_of, calls_of]
  · have a0 := e0 (by omega)
    simp only [Nat.add_one_sub_one] at hfail
    have hres : stress_matrix_3d_exercise env fuel matrix_3d_method z n
        = some (ExitCode.EXIT_NO_RESOURCE,
            tidy_a (round_up env.page_size (exercise_matrix_3d_size n))
              (pr_fail_allocation env
                ((s0.log (Event.mmap Buf.a
                    (round_up env.page_size (exercise_matrix_3d_size n)) true)).log
                  (Event.mmap Buf.b (round_up env.page_size (exercise_matrix_3d_size n))
                    false)))) := by
      simp [stress_matrix_3d_exercise, hf, hS, hfail, a0]
    refine ⟨_, hres, ?_, ?_, ?_⟩ <;>
      simp [pr_fail_allocation, tidy_a, State.log, htr, hcm, hname, fails_of, calls_of]
  · have a0 := e0 (by omega)
    have a1 := e1 (by omega)
    simp only [Nat.add_one_sub_one] at hfail
    have hres : stress_matrix_3d_exercise env fuel matrix_3d_method z n
        = some (ExitCode.EXIT_NO_RESOURCE,
            tidy_b (round_up env.page_size (exercise_matrix_3d_size n))
              (pr_fail_allocation env
                (((s0.log (Event.mmap Buf.a
                    (round_up env.page_size (exercise_matrix_3d_size n)) true)).log
                  (Event.mmap Buf.b (round_up env.page_size (exercise_matrix_3d_size n))
                    true)).log
                  (Event.mmap Buf.r (round_up env.page_size (exercise_matrix_3d_size n))
                    false)))) := by
      simp [stress_matrix_3d_exercise, hf, hS, hfail, a0, a1]
    refine ⟨_, hres, ?_, ?_, ?_⟩ <;>
      simp [pr_fail_allocation, tidy_a, tidy_b, State.log, htr, hcm, hname, fails_of, calls_of]
  · have a0 := e0 (by omega)
    have a1 := e1 (by omega)
    have a2 := e2 (by omega)
    have hv1 := hv rfl
    simp only [Nat.add_one_sub_one] at hfail
    have hres : stress_matrix_3d_exercise env fuel matrix_3d_method z n
        = some (ExitCode.EXIT_NO_RESOURCE,
            tidy_r (round_up env.page_size (exercise_matrix_3d_size n))
              (pr_fail_allocation env
                ((((s0.log (Event.mmap Buf.a
                    (round_up env.page_size (exercise_matrix_3d_size n)) true)).log
                  (Event.mmap Buf.b (round_up env.page_size (exercise_matrix_3d_size n))
                    true)).log
                  (Event.mmap Buf.r (round_up env.page_size (exercise_matrix_3d_size n))
                    true)).log
                  (Event.mmap Buf.s (round_up env.page_size (exercise_matrix_3d_size n))
                    false)))) := by
      simp [stress_matrix_3d_exercise, hf, hS, hfail, a0, a1, a2, hv1]
    refine ⟨_, hres, ?_, ?_, ?_⟩ <;>
      simp [pr_fail_allocation, tidy_a, tidy_b, tidy_r, State.log, htr, hcm, hname, fails_of,
        calls_of]

/-- The names of the 13 table entries are pairwise different. -/
theorem method_name_inj (i j : Nat) (hi : i < 13) (hj : j < 13)
    (h : method_name i = method_name j) : i = j := by
  revert h
  interval_cases i <;> interval_cases j <;> decide

/-- The loop from its entry state: after `t` iterations the cursor is
`1 + t % 12` in all mode and still 1 with a fixed method, and with a fixed method
`current_method` is still the name of the configured entry. -/
theorem entry_passes (env : Env) (matrix_3d_method z n t : Nat)
    (hm : matrix_3d_method < 13) (hz : z < 2) :
    ∃ func st0 st, exercise_func matrix_3d_method z = some func ∧
      exercise_loop_entry env matrix_3d_method n = some st0 ∧
      st0.method_all_index = 1 ∧
      loop_passes env func matrix_3d_method n t st0 = some st ∧
      st.method_all_index = (if matrix_3d_method = 0 then 1 + t % 12 else 1) ∧
      (matrix_3d_method ≠ 0 → st.current_method = method_name matrix_3d_method) := by
  obtain ⟨func, hfunc⟩ := table_func matrix_3d_method z hm hz
  obtain ⟨m0, st0, hm0, he, _, _, hidx, hcm, _, _, _, _, _⟩ :=
    loop_entry_spec env matrix_3d_method n hm
  have hname : method_name matrix_3d_method = m0.name := by
    simp only [method_name, hm0]
  obtain ⟨st, e, _, _, q1, q2⟩ :=
    loop_passes_induction env matrix_3d_method z n func hm hz hfunc
      (fun t st => st.method_all_index = (if matrix_3d_method = 0 then 1 + t % 12 else 1) ∧
        (matrix_3d_method ≠ 0 → st.current_method = method_name matrix_3d_method))
      st0 (by omega) (by omega)
      ⟨by simp [hidx], fun _ => by rw [hcm, hname]⟩
      (by
        intro t st st1 f kern ⟨q1, q2⟩ _ _ _ _ _ p
        refine ⟨?_, fun h0 => by rw [p.name_fixed h0, q2 h0]⟩
        rw [p.index, q1]
        unfold next_index
        by_cases h0 : matrix_3d_method = 0
        · simp only [h0, if_true]
          split_ifs <;> omega
        · simp [h0])
      t
  exact ⟨func, st0, st, hfunc, he, hidx, e, q1, q2⟩

/-- One loop iteration is the timed call into `r`, the verification block, the
advance of the cursor and the evaluation of the loop condition. -/
theorem loop_pass_steps (env : Env) (func : stress_matrix_3d_func_t)
    (matrix_3d_method n : Nat) (st s1 s2 : State)
    (h1 : timed_call env func matrix_3d_method n Buf.r st = some s1)
    (h2 : verify_block env func matrix_3d_method n s1 = some s2) :
    loop_pass env func matrix_3d_method n st
      = some (loop_condition env (advance_all_index matrix_3d_method s2)).2 := by
  simp only [loop_pass, loop_body, h1, h2]

/-- The verification block after its timed call into `s`. -/
theorem verify_block_steps (env : Env) (func : stress_matrix_3d_func_t)
    (matrix_3d_method n : Nat) (s1 s2 : State) (hv : env.verify = true)
    (h : timed_call env func matrix_3d_method n Buf.s s1 = some s2) :
    verify_block env func matrix_3d_method n s1
      = some (if shim_memcmp s2.r s2.s n then pr_fail_difference env s2 else s2) := by
  simp only [verify_block, hv, if_true, h]

/-- A function of one traversal order is not in the table column of the other. -/
theorem table_columns_disjoint (i j z : Nat) (hi : i < 13) (hj : j < 13) (hz : z < 2)
    (f : stress_matrix_3d_func_t) (h : exercise_func i z = some f) :
    exercise_func j (1 - z) ≠ some f := by
  interval_cases z <;> interval_cases i <;>
    (simp only [exercise_func, matrix_3d_methods, List.getElem?_cons_succ,
        List.getElem?_cons_zero, Option.some.injEq] at h
     subst h
     interval_cases j <;> decide)

/-- A loop whose body at each index below the bound agrees with another body. -/
theorem forLoop_congr {σ : Type} (n : Nat) (f g : Nat → σ → σ) (s : σ)
    (h : ∀ i, i < n → ∀ x, f i x = g i x) : forLoop n f s = forLoop n g s := by
  induction n with
  | zero => rfl
  | succ n ih =>
    rw [forLoop_succ, forLoop_succ, ih (fun i hi x => h i (by omega) x), h n (by omega)]

/-- The reverse frobenius variant accumulates what the forward variant
accumulates on the arrays with first and third index exchanged. -/
theorem zyx_frobenius_sum_swap (n : Nat) (a b : Vol) :
    stress_matrix_3d_zyx_frobenius_sum n a b
      = stress_matrix_3d_xyz_frobenius_sum n a.swap13 b.swap13 := rfl

/-- The forward frobenius accumulation only reads the cells of the cube. -/
theorem xyz_frobenius_sum_congr (n : Nat) (a b a1 b1 : Vol)
    (ha : ∀ i, i < n → ∀ j, j < n → ∀ k, k < n → a i j k = a1 i j k)
    (hb : ∀ i, i < n → ∀ j, j < n → ∀ k, k < n → b i j k = b1 i j k) :
    stress_matrix_3d_xyz_frobenius_sum n a b = stress_matrix_3d_xyz_frobenius_sum n a1 b1 := by
  unfold stress_matrix_3d_xyz_frobenius_sum
  apply forLoop_congr
  intro i hi x
  apply forLoop_congr
  intro j hj y
  apply forLoop_congr
  intro k hk w
  rw [ha i hi j hj k hk, hb i hi j hj k hk]

set_option maxRecDepth 100000 in
/-- The forward accumulation on the array `Vol.skew`: `2^24`. -/
theorem skew_xyz_sum :
    stress_matrix_3d_xyz_frobenius_sum 2 Vol.skew Vol.skew = Binary32.fin false (2 ^ 23) 1 := by
  decide

set_option maxRecDepth 100000 in
/-- The reverse accumulation on the array `Vol.skew`: `2^24 + 2`. -/
theorem skew_zyx_sum :
    stress_matrix_3d_zyx_frobenius_sum 2 Vol.skew Vol.skew
      = Binary32.fin false (2 ^ 23 + 1) 1 := by
  decide

/-- Every call of `run_calls_spec` is a call of the configured function or, in
all mode, of the function of an entry `1 + t % 12` in the configured order. -/
theorem mem_run_calls_spec (env : Env) (matrix_3d_method z k : Nat)
    (hm : matrix_3d_method < 13) (hz : z < 2) (func : stress_matrix_3d_func_t)
    (hfunc : exercise_func matrix_3d_method z = some func)
    (c : stress_matrix_3d_func_t × Buf)
    (hc : c ∈ run_calls_spec env matrix_3d_method z k) :
    c.1 = func ∨ (matrix_3d_method = 0 ∧
      ∃ t, t < k ∧ exercise_func (1 + t % 12) z = some c.1) := by
  induction k with
  | zero => simp [run_calls_spec] at hc
  | succ k ih =>
    simp only [run_calls_spec, List.mem_append] at hc
    rcases hc with hc | hc
    · rcases ih hc with h | ⟨h0, t, ht, h⟩
      · exact Or.inl h
      · exact Or.inr ⟨h0, t, by omega, h⟩
    · obtain ⟨f, kern, hf, _⟩ :=
        active_kernel matrix_3d_method z (1 + k % 12) hm hz (by omega) (by omega)
      simp only [pass_calls_spec, hfunc, hf] at hc
      by_cases h0 : matrix_3d_method = 0
      · simp only [h0, if_true] at hf
        cases hv : env.verify <;> simp [h0, hv] at hc
        · rcases hc with rfl | rfl
          · exact Or.inl rfl
          · exact Or.inr ⟨h0, k, by omega, hf⟩
        · rcases hc with rfl | rfl | rfl | rfl
          · exact Or.inl rfl
          · exact Or.inr ⟨h0, k, by omega, hf⟩
          · exact Or.inl rfl
          · exact Or.inr ⟨h0, k, by omega, hf⟩
      · simp only [h0, if_false] at hf
        have hff : f = func := by
          rw [hfunc] at hf
          exact (Option.some.inj hf).symm
        cases hv : env.verify <;> simp [h0, hv] at hc
        · rcases hc with rfl
          exact Or.inl hff
        · rcases hc with rfl | rfl
          · exact Or.inl hff
          · exact Or.inl hff

/-- Outside the table there is no function. -/
theorem exercise_func_none (j z : Nat) (hj : 13 ≤ j) : exercise_func j z = none := by
  have h : matrix_3d_methods[j]? = none := by
    apply List.getElem?_eq_none
    have : matrix_3d_methods.length = 13 := rfl
    omega
  simp only [exercise_func, h]

/-- The verification block always has a result and leaves the cursor alone. -/
theorem verify_block_index (env : Env) (matrix_3d_method z : Nat) (hz : z < 2)
    (func f : stress_matrix_3d_func_t) (kern : Nat → Vol → Vol → Vol → Vol) (n : Nat)
    (s1 : State) (hfunc : exercise_func matrix_3d_method z = some func)
    (hf : exercise_func (if matrix_3d_method = 0 then s1.method_all_index else matrix_3d_method) z
      = some f)
    (hk : kernel_of f = some kern) :
    ∃ s2, verify_block env func matrix_3d_method n s1 = some s2 ∧
      s2.method_all_index = s1.method_all_index := by
  by_cases hv : env.verify = true
  · obtain ⟨s2, e2, c2⟩ :=
      timed_call_spec env matrix_3d_method z hz func f kern n Buf.s s1 hfunc hf hk
    refine ⟨_, verify_block_steps env func matrix_3d_method n s1 s2 hv e2, ?_⟩
    split_ifs
    · rw [pr_fail_method_all_index, c2.index]
    · exact c2.index
  · have hv0 : env.verify = false := by simpa using hv
    exact ⟨s1, by simp [verify_block, hv0], rfl⟩

/-! ## The answers of the continuation predicate, and what kernels overwrite -/

@[simp]
theorem continues_of_append (l1 l2 : List Event) :
    continues_of (l1 ++ l2) = continues_of l1 ++ continues_of l2 := by
  induction l1 with
  | nil => rfl
  | cons e l ih => cases e <;> simp [continues_of, ih]

@[simp]
theorem continues_of_call_events (m : Nat) (func f : stress_matrix_3d_func_t) (t : Buf) :
    continues_of (call_events m func f t) = [] := by
  unfold call_events
  split_ifs <;> rfl

theorem continues_of_map_set (l : List (Nat × String × ℚ)) :
    continues_of (l.map (fun p => Event.stress_metrics_set p.1 p.2.1 p.2.2)) = [] := by
  induction l with
  | nil => rfl
  | cons p l ih => simp [continues_of, ih]

/-- A predicate that answers true to each of its first `j` evaluations maps
`0, ..., j - 1` to `j` times true. -/
theorem map_range_true (c : Nat → Bool) (j : Nat) (h : ∀ t, t < j → c t = true) :
    (List.range j).map c = List.replicate j true := by
  induction j with
  | zero => rfl
  | succ j ih =>
    rw [List.range_succ, List.map_append, ih (fun t ht => h t (by omega)),
      List.replicate_succ', List.map_singleton, h j (by omega)]

/-- A run in which every mapping succeeds and that makes `k` iterations: the
answers `stress_continue` gave are those to its evaluations `0, ..., k - 1`, one
per iteration. -/
theorem run_continues (env : Env) (fuel matrix_3d_method z n k : Nat)
    (hm : matrix_3d_method < 13) (hz : z < 2)
    (hmaps : maps_ok env) (hstop : stops_after env k) (hfuel : k ≤ fuel) :
    ∃ st, stress_matrix_3d_exercise env fuel matrix_3d_method z n
        = some (ExitCode.EXIT_SUCCESS, st) ∧
      continues_of st.trace = (List.range k).map env.stress_continue := by
  obtain ⟨func, st0, stk, st, hfunc, e, hres, g1, _, _, g4, _, _, _, g8, _, _, g11⟩ :=
    run_success env fuel matrix_3d_method z n k hm hz hmaps hstop hfuel
  have hc0 : continues_of st0.trace = [] := by
    rw [g8]
    cases hv : env.verify <;> simp [continues_of]
  obtain ⟨st', e', _, _, _, hC⟩ :=
    loop_passes_induction env matrix_3d_method z n func hm hz hfunc
      (fun t st => st.continue_calls = t ∧
        continues_of st.trace = (List.range t).map env.stress_continue)
      st0 (by omega) (by omega) ⟨g4, by simpa using hc0⟩
      (by
        intro t st st1 f kern ⟨q1, q2⟩ _ _ _ _ _ p
        refine ⟨by rw [p.continue_calls, q1], ?_⟩
        rw [p.trace, List.range_succ, List.map_append, List.map_singleton, ← q2, q1]
        by_cases hv : env.verify = true
        · cases hc : shim_memcmp st1.r st1.s n <;> simp [continues_of, hv, hc]
        · have hv0 : env.verify = false := by simpa using hv
          simp [continues_of, hv0])
      k
  have hst := loop_passes_unique env func matrix_3d_method n k st0 st' stk e' e
  subst hst
  refine ⟨st, hres, ?_⟩
  rw [g11]
  cases hv : env.verify <;> simp [continues_of, continues_of_map_set, hC]

/-- Every plain kernel other than the two frobenius variants fills the cube
with values that do not depend on the prior contents of the result array, and
leaves the rest of the array alone. -/
theorem kernel_fill (f : stress_matrix_3d_func_t) (kern : Nat → Vol → Vol → Vol → Vol)
    (hk : kernel_of f = some kern) (hx : f ≠ stress_matrix_3d_func_t.xyz_frobenius)
    (hy : f ≠ stress_matrix_3d_func_t.zyx_frobenius) (n : Nat) (a b : Vol) :
    ∃ F : Nat → Nat → Nat → stress_matrix_3d_type_t, ∀ r, kern n a b r = Vol.fill n F r := by
  cases f with
  | xyz_all => simp [kernel_of] at hk
  | zyx_all => simp [kernel_of] at hk
  | xyz_frobenius => exact absurd rfl hx
  | zyx_frobenius => exact absurd rfl hy
  | xyz_add =>
    simp only [kernel_of, Option.some.injEq] at hk
    subst hk
    exact ⟨_, fun r => xyz_add_eq n a b r⟩
  | zyx_add =>
    simp only [kernel_of, Option.some.injEq] at hk
    subst hk
    exact ⟨_, fun r => zyx_add_eq n a b r⟩
  | xyz_sub =>
    simp only [kernel_of, Option.some.injEq] at hk
    subst hk
    exact ⟨_, fun r => xyz_sub_eq n a b r⟩
  | zyx_sub =>
    simp only [kernel_of, Option.some.injEq] at hk
    subst hk
    exact ⟨_, fun r => zyx_sub_eq n a b r⟩
  | xyz_trans =>
    simp only [kernel_of, Option.some.injEq] at hk
    subst hk
    exact ⟨_, fun r => xyz_trans_eq n a b r⟩
  | zyx_trans =>
    simp only [kernel_of, Option.some.injEq] at hk
    subst hk
    exact ⟨_, fun r => zyx_trans_eq n a b r⟩
  | xyz_mult =>
    simp only [kernel_of, Option.some.injEq] at hk
    subst hk
    exact ⟨_, fun r => xyz_mult_eq n a b r⟩
  | zyx_mult =>
    simp only [kernel_of, Option.some.injEq] at hk
    subst hk
    exact ⟨_, fun r => zyx_mult_eq n a b r⟩
  | xyz_div =>
    simp only [kernel_of, Option.some.injEq] at hk
    subst hk
    exact ⟨_, fun r => xyz_div_eq n a b r⟩
  | zyx_div =>
    simp only [kernel_of, Option.some.injEq] at hk
    subst hk
    exact ⟨_, fun r => zyx_div_eq n a b r⟩
  | xyz_hadamard =>
    simp only [kernel_of, Option.some.injEq] at hk
    subst hk
    exact ⟨_, fun r => xyz_hadamard_eq n a b r⟩
  | zyx_hadamard =>
    simp only [kernel_of, Option.some.injEq] at hk
    subst hk
    exact ⟨_, fun r => zyx_hadamard_eq n a b r⟩
  | xyz_copy =>
    simp only [kernel_of, Option.some.injEq] at hk
    subst hk
    exact ⟨_, fun r => xyz_copy_eq n a b r⟩
  | zyx_copy =>
    simp only [kernel_of, Option.some.injEq] at hk
    subst hk
    exact ⟨_, fun r => zyx_copy_eq n a b r⟩
  | xyz_mean =>
    simp only [kernel_of, Option.some.injEq] at hk
    subst hk
    exact ⟨_, fun r => xyz_mean_eq n a b r⟩
  | zyx_mean =>
    simp only [kernel_of, Option.some.injEq] at hk
    subst hk
    exact ⟨_, fun r => zyx_mean_eq n a b r⟩
  | xyz_zero =>
    simp only [kernel_of, Option.some.injEq] at hk
    subst hk
    exact ⟨_, fun r => xyz_zero_eq n a b r⟩
  | zyx_zero =>
    simp only [kernel_of, Option.some.injEq] at hk
    subst hk
    exact ⟨_, fun r => zyx_zero_eq n a b r⟩
  | xyz_negate =>
    simp only [kernel_of, Option.some.injEq] at hk
    subst hk
    exact ⟨_, fun r => xyz_negate_eq n a b r⟩
  | zyx_negate =>
    simp only [kernel_of, Option.some.injEq] at hk
    subst hk
    exact ⟨_, fun r => zyx_negate_eq n a b r⟩
  | xyz_identity =>
    simp only [kernel_of, Option.some.injEq] at hk
    subst hk
    exact ⟨_, fun r => xyz_identity_eq n a b r⟩
  | zyx_identity =>
    simp only [kernel_of, Option.some.injEq] at hk
    subst hk
    exact ⟨_, fun r => zyx_identity_eq n a b r⟩

/-- The two frobenius variants return the result array as they got it. -/
theorem kernel_frobenius_frame (f : stress_matrix_3d_func_t)
    (kern : Nat → Vol → Vol → Vol → Vol) (hk : kernel_of f = some kern)
    (hf : f = stress_matrix_3d_func_t.xyz_frobenius ∨ f = stress_matrix_3d_func_t.zyx_frobenius)
    (n : Nat) (a b r : Vol) : kern n a b r = r := by
  rcases hf with rfl | rfl <;>
    (simp only [kernel_of, Option.some.injEq] at hk
     subst hk
     rfl)

/-- In either table column, the frobenius variants are the functions of entry 4
and of no other entry. -/
theorem frobenius_iff_entry (sel z : Nat) (h1 : 1 ≤ sel) (h2 : sel < 13) (hz : z < 2)
    (f : stress_matrix_3d_func_t) (hf : exercise_func sel z = some f) :
    (f = stress_matrix_3d_func_t.xyz_frobenius ∨ f = stress_matrix_3d_func_t.zyx_frobenius)
      ↔ sel = 4 := by
  interval_cases z <;> interval_cases sel <;>
    (simp only [exercise_func, matrix_3d_methods, List.getElem?_cons_succ,
        List.getElem?_cons_zero, Option.some.injEq] at hf
     subst hf
     decide)

/-! ## The claims -/

/-- C1 (code defect). Registry entry 10, `sub`: with `n = 16`, every element of
`a` and `b` equal to `1.0` and `r` zeroed, the forward variant `func[0]` and the
reverse variant `func[1]` leave different values in `r[0][0][0]`. -/
theorem C1_sub_forward_reverse_differ :
    ∃ f0 f1 k0 k1,
      (matrix_3d_methods[10]?).map (fun m => (m.name, m.func)) = some ("sub", [f0, f1]) ∧
      kernel_of f0 = some k0 ∧ kernel_of f1 = some k1 ∧
      k0 16 (Vol.const Binary32.one) (Vol.const Binary32.one) mmap_zero 0 0 0
        ≠ k1 16 (Vol.const Binary32.one) (Vol.const Binary32.one) mmap_zero 0 0 0 := by
  refine ⟨.xyz_sub, .zyx_sub, stress_matrix_3d_xyz_sub, stress_matrix_3d_zyx_sub, rfl, rfl, rfl, ?_⟩
  rw [xyz_sub_eq, zyx_sub_eq,
    fill_inside 16 _ _ 0 0 0 (by decide) (by decide) (by decide),
    fill_inside 16 _ _ 0 0 0 (by decide) (by decide) (by decide)]
  simp only [Vol.const]
  decide

/-- C2 (code defect). With `n = 16`, every element of `a` and `b` equal to `1.0`
and `r` zeroed, `stress_matrix_3d_zyx_sub` leaves `2.0 = 1.0 + 1.0` in
`r[0][0][0]`, whereas `a[0][0][0] - b[0][0][0]` is `0.0`. -/
theorem C2_zyx_sub_adds :
    stress_matrix_3d_zyx_sub 16 (Vol.const Binary32.one) (Vol.const Binary32.one) mmap_zero 0 0 0
        = Binary32.two ∧
      Binary32.sub (Vol.const Binary32.one 0 0 0) (Vol.const Binary32.one 0 0 0) = Binary32.zero ∧
      Binary32.two ≠ Binary32.zero := by
  refine ⟨?_, ?_, ?_⟩
  · rw [zyx_sub_eq, fill_inside 16 _ _ 0 0 0 (by decide) (by decide) (by decide)]
    simp only [Vol.const]
    decide
  · simp only [Vol.const]
    decide
  · decide

/-- C3. With verification enabled, for every configured method of the table
(method 0 is all), either traversal order, every `n` and every seeding of `a`
and `b`: the loop can make any number `k` of iterations, after which `r` and `s`
agree on the whole `n`-cube, so `shim_memcmp` over the logical size returns 0, and
no data-difference failure has been reported at any comparison so far. The
iterations that run frobenius are included. -/
theorem C3_verify_never_mismatch (env : Env) (matrix_3d_method matrix_3d_zyx n k : Nat)
    (hv : env.verify = true) (hm : matrix_3d_method < matrix_3d_methods.length)
    (hz : matrix_3d_zyx < 2) :
    ∃ func st0 st,
      exercise_func matrix_3d_method matrix_3d_zyx = some func ∧
      exercise_loop_entry env matrix_3d_method n = some st0 ∧
      loop_passes env func matrix_3d_method n k st0 = some st ∧
      cube_eq n st.r st.s ∧ shim_memcmp st.r st.s n = false ∧ fails_of st.trace = [] := by
  have hm13 : matrix_3d_method < 13 := hm
  obtain ⟨func, hfunc⟩ := table_func matrix_3d_method matrix_3d_zyx hm13 hz
  obtain ⟨m, st0, _, he, hr, hs, hidx, _, _, htr, _, _, _⟩ :=
    loop_entry_spec env matrix_3d_method n hm
  have hrs : cube_eq n st0.r st0.s := by
    intro i _ j _ k _
    rw [hr, hs]
  obtain ⟨st, e, _, _, g3, g4⟩ :=
    verify_invariant env matrix_3d_method matrix_3d_zyx n func hv hm13 hz hfunc st0
      (by omega) (by omega) hrs (by rw [htr]; rfl) k
  exact ⟨func, st0, st, hfunc, he, e, g3, shim_memcmp_eq_false n st.r st.s g3, g4⟩

/-- Witness for C3: the sample environment, method 4 (frobenius), forward order,
`n = 16`, 30 iterations. -/
theorem C3_verify_never_mismatch_witness :
    ∃ func st0 st,
      exercise_func 4 0 = some func ∧
      exercise_loop_entry Env.sample 4 16 = some st0 ∧
      loop_passes Env.sample func 4 16 30 st0 = some st ∧
      cube_eq 16 st.r st.s ∧ shim_memcmp st.r st.s 16 = false ∧ fails_of st.trace = [] :=
  C3_verify_never_mismatch Env.sample 4 0 16 30 rfl (by decide) (by decide)

/-- C4 counterexample. With `n = 16`, every element of `a` equal to `2^-10`
and every element of `b` equal to `2^15` (both inside the range `[0, 65535]` the
run seeds its inputs in), the float sum `a + b` rounds to `2^15`, so
`sub(add(a, b), b)` holds `0.0` in `[0][0][0]`, not `a[0][0][0]`. -/
theorem C4_roundtrip_counterexample :
    stress_matrix_3d_xyz_sub 16
        (stress_matrix_3d_xyz_add 16 (Vol.const (Binary32.fin false (2 ^ 23) (-33)))
          (Vol.const (Binary32.fin false (2 ^ 23) (-8))) mmap_zero)
        (Vol.const (Binary32.fin false (2 ^ 23) (-8))) mmap_zero 0 0 0
      ≠ Vol.const (Binary32.fin false (2 ^ 23) (-33)) 0 0 0 := by
  rw [xyz_sub_eq, fill_inside 16 _ _ 0 0 0 (by decide) (by decide) (by decide),
    xyz_add_eq, fill_inside 16 _ _ 0 0 0 (by decide) (by decide) (by decide)]
  simp only [Vol.const]
  decide

/-- C4 (amended). For every `n`, `a`, `b`, all prior contents of the two result
arrays and all `i, j, k < n`: if `a[i][j][k]` is a finite float other than `-0.0`
and the float sum `a[i][j][k] + b[i][j][k]` is finite and exact (its value is the
sum of the two values, no rounding error), then the forward add kernel followed by
the forward sub kernel leaves `a[i][j][k]` in element `[i][j][k]`. -/
theorem C4_roundtrip_when_exact (n : Nat) (a b r0 r1 : Vol) (i j k : Nat)
    (hi : i < n) (hj : j < n) (hk : k < n)
    (hfinite : (a i j k).isCanonical = true)
    (hnz : a i j k ≠ Binary32.fin true 0 (-149))
    (hexact : Binary32.exactSum (a i j k) (b i j k)) :
    stress_matrix_3d_xyz_sub n (stress_matrix_3d_xyz_add n a b r0) b r1 i j k = a i j k := by
  rw [roundtrip_elementwise n a b r0 r1 i j k hi hj hk]
  obtain ⟨x, y, hx, hy, hsum⟩ := hexact
  cases ha : a i j k with
  | nan => rw [ha] at hfinite; simp [Binary32.isCanonical] at hfinite
  | inf s => rw [ha] at hfinite; simp [Binary32.isCanonical] at hfinite
  | fin s m e =>
    rw [ha] at hfinite hx hsum hnz
    have hcan := hfinite
    simp only [Binary32.isCanonical, decide_eq_true_eq] at hcan
    have hnz2 : ¬ (s = true ∧ m = 0) := by
      rintro ⟨hs, hm⟩
      subst hs hm
      have he : e = -149 := by
        rcases hcan.2.2.2 with h | h
        · omega
        · exact h
      subst he
      exact hnz rfl
    exact Binary32.sub_add_cancel_of_exact s m e (b i j k) hfinite hnz2 x y hx hy hsum

/-- Witness for C4 (amended): `n = 16`, `a` the sample array, `b` all `1.0`,
element `[3][5][7]`, where `a` holds `855.0` and `855.0 + 1.0 = 856.0` exactly. -/
theorem C4_roundtrip_when_exact_witness :
    stress_matrix_3d_xyz_sub 16
        (stress_matrix_3d_xyz_add 16 Vol.sample (Vol.const Binary32.one) mmap_zero)
        (Vol.const Binary32.one) mmap_zero 3 5 7 = Vol.sample 3 5 7 :=
  C4_roundtrip_when_exact 16 Vol.sample (Vol.const Binary32.one) mmap_zero mmap_zero 3 5 7
    (by decide) (by decide) (by decide) (by decide) (by decide)
    (by
      have ha : Vol.sample 3 5 7 = Binary32.fin false 14008320 (-14) := by decide
      have hb : Vol.const Binary32.one 3 5 7 = Binary32.fin false 8388608 (-23) := by decide
      have hc : Binary32.add (Binary32.fin false 14008320 (-14)) (Binary32.fin false 8388608 (-23))
          = Binary32.fin false 14024704 (-14) := by decide
      rw [ha, hb]
      refine ⟨_, _, rfl, rfl, ?_⟩
      rw [hc]
      simp only [Binary32.toRat, Binary32.signed, Option.some.injEq]
      norm_num)

/-- C5. Negate is an involution: for every `n`, `a`, every `b` and prior result
contents of either call, and all `i, j, k < n`, applying the negate kernel to
`a` and then to that result gives back `a[i][j][k]`, whichever traversal
variant is used for either application. -/
theorem C5_negate_involution (n : Nat) (a b b1 r0 r1 : Vol) (i j k : Nat)
    (hi : i < n) (hj : j < n) (hk : k < n) :
    stress_matrix_3d_xyz_negate n (stress_matrix_3d_xyz_negate n a b r0) b1 r1 i j k = a i j k ∧
    stress_matrix_3d_zyx_negate n (stress_matrix_3d_zyx_negate n a b r0) b1 r1 i j k = a i j k ∧
    stress_matrix_3d_xyz_negate n (stress_matrix_3d_zyx_negate n a b r0) b1 r1 i j k = a i j k ∧
    stress_matrix_3d_zyx_negate n (stress_matrix_3d_xyz_negate n a b r0) b1 r1 i j k = a i j k := by
  refine ⟨?_, ?_, ?_, ?_⟩ <;>
    simp only [xyz_negate_eq, zyx_negate_eq, fill_inside n _ _ i j k hi hj hk, neg_neg_eq]

/-- Witness for C5: `n = 16`, `a` the sample array, element `[3][5][7]`. -/
theorem C5_negate_involution_witness :
    stress_matrix_3d_xyz_negate 16 (stress_matrix_3d_xyz_negate 16 Vol.sample mmap_zero mmap_zero)
        mmap_zero mmap_zero 3 5 7 = Vol.sample 3 5 7 ∧
    stress_matrix_3d_zyx_negate 16 (stress_matrix_3d_zyx_negate 16 Vol.sample mmap_zero mmap_zero)
        mmap_zero mmap_zero 3 5 7 = Vol.sample 3 5 7 ∧
    stress_matrix_3d_xyz_negate 16 (stress_matrix_3d_zyx_negate 16 Vol.sample mmap_zero mmap_zero)
        mmap_zero mmap_zero 3 5 7 = Vol.sample 3 5 7 ∧
    stress_matrix_3d_zyx_negate 16 (stress_matrix_3d_xyz_negate 16 Vol.sample mmap_zero mmap_zero)
        mmap_zero mmap_zero 3 5 7 = Vol.sample 3 5 7 :=
  C5_negate_involution 16 Vol.sample mmap_zero mmap_zero mmap_zero mmap_zero 3 5 7
    (by decide) (by decide) (by decide)

/-- C6. For every `n`, `a`, `b`, every prior content `r0` of the result array and
all `i, j, k < n`, after the copy kernel (either variant) `r[i][j][k] = a[i][j][k]`. -/
theorem C6_copy_result (n : Nat) (a b r0 : Vol) (i j k : Nat)
    (hi : i < n) (hj : j < n) (hk : k < n) :
    stress_matrix_3d_xyz_copy n a b r0 i j k = a i j k ∧
    stress_matrix_3d_zyx_copy n a b r0 i j k = a i j k := by
  refine ⟨?_, ?_⟩ <;> simp only [xyz_copy_eq, zyx_copy_eq, fill_inside n _ _ i j k hi hj hk]

/-- Witness for C6: `n = 16`, `a` the sample array, `b` all `1.0`, `r` all `2.0`
before the call, element `[3][5][7]`. -/
theorem C6_copy_result_witness :
    stress_matrix_3d_xyz_copy 16 Vol.sample (Vol.const Binary32.one) (Vol.const Binary32.two) 3 5 7
        = Vol.sample 3 5 7 ∧
    stress_matrix_3d_zyx_copy 16 Vol.sample (Vol.const Binary32.one) (Vol.const Binary32.two) 3 5 7
        = Vol.sample 3 5 7 :=
  C6_copy_result 16 Vol.sample (Vol.const Binary32.one) (Vol.const Binary32.two) 3 5 7
    (by decide) (by decide) (by decide)

/-- C7. For every `n`, `a`, `b`, every prior content `r0` of the result array and
all `i, j, k < n`, after the identity kernel (either variant) `r[i][j][k]` is
`1.0` when `i = j` and `j = k`, and `0.0` otherwise; `1.0` and `0.0` differ, so
the element is `1.0` exactly when `i = j = k`. -/
theorem C7_identity_result (n : Nat) (a b r0 : Vol) (i j k : Nat)
    (hi : i < n) (hj : j < n) (hk : k < n) :
    (stress_matrix_3d_xyz_identity n a b r0 i j k = Binary32.one ↔ (i = j ∧ j = k)) ∧
    (¬ (i = j ∧ j = k) → stress_matrix_3d_xyz_identity n a b r0 i j k = Binary32.zero) ∧
    (stress_matrix_3d_zyx_identity n a b r0 i j k = Binary32.one ↔ (i = j ∧ j = k)) ∧
    (¬ (i = j ∧ j = k) → stress_matrix_3d_zyx_identity n a b r0 i j k = Binary32.zero) := by
  have h01 : Binary32.zero ≠ Binary32.one := by decide
  simp only [xyz_identity_eq, zyx_identity_eq, fill_inside n _ _ i j k hi hj hk]
  by_cases h : i = j ∧ j = k
  · simp [h]
  · simp [h, h01]

/-- Witness for C7: `n = 16`, `a` the sample array, `b` all `1.0`, `r` all `2.0`
before the call, the diagonal element `[5][5][5]`. -/
theorem C7_identity_result_witness :
    (stress_matrix_3d_xyz_identity 16 Vol.sample (Vol.const Binary32.one)
        (Vol.const Binary32.two) 5 5 5 = Binary32.one ↔ (5 = 5 ∧ 5 = 5)) ∧
    (¬ (5 = 5 ∧ 5 = 5) → stress_matrix_3d_xyz_identity 16 Vol.sample (Vol.const Binary32.one)
        (Vol.const Binary32.two) 5 5 5 = Binary32.zero) ∧
    (stress_matrix_3d_zyx_identity 16 Vol.sample (Vol.const Binary32.one)
        (Vol.const Binary32.two) 5 5 5 = Binary32.one ↔ (5 = 5 ∧ 5 = 5)) ∧
    (¬ (5 = 5 ∧ 5 = 5) → stress_matrix_3d_zyx_identity 16 Vol.sample (Vol.const Binary32.one)
        (Vol.const Binary32.two) 5 5 5 = Binary32.zero) :=
  C7_identity_result 16 Vol.sample (Vol.const Binary32.one) (Vol.const Binary32.two) 5 5 5
    (by decide) (by decide) (by decide)

/-- C8. For every `n`, `a`, `b`, every prior content `r0` of the result array and
all `i, j, k < n`, after the zero kernel (either variant) `r[i][j][k] = 0.0`. -/
theorem C8_zero_result (n : Nat) (a b r0 : Vol) (i j k : Nat)
    (hi : i < n) (hj : j < n) (hk : k < n) :
    stress_matrix_3d_xyz_zero n a b r0 i j k = Binary32.zero ∧
    stress_matrix_3d_zyx_zero n a b r0 i j k = Binary32.zero := by
  refine ⟨?_, ?_⟩ <;> simp only [xyz_zero_eq, zyx_zero_eq, fill_inside n _ _ i j k hi hj hk]

/-- Witness for C8: `n = 16`, `a` the sample array, `b` all `1.0`, `r` all `2.0`
before the call, element `[3][5][7]`. -/
theorem C8_zero_result_witness :
    stress_matrix_3d_xyz_zero 16 Vol.sample (Vol.const Binary32.one) (Vol.const Binary32.two) 3 5 7
        = Binary32.zero ∧
    stress_matrix_3d_zyx_zero 16 Vol.sample (Vol.const Binary32.one) (Vol.const Binary32.two) 3 5 7
        = Binary32.zero :=
  C8_zero_result 16 Vol.sample (Vol.const Binary32.one) (Vol.const Binary32.two) 3 5 7
    (by decide) (by decide) (by decide)

/-- C9. In all mode (configured method 0), for either traversal order: the cursor
`method_all_index` is 1 on entry to the loop; the loop can make any number `t` of
iterations, after which the cursor is `1 + t % (N - 1)` with `N` the table size;
the next iteration (number `t`, counting from 0) calls the all wrapper, which
calls the plain kernel `f` of table entry `1 + t % (N - 1)` and nothing else
(once into `r`, and once more into `s` with verification), and leaves the cursor
at `1 + (t + 1) % (N - 1)`. Entry 0 is never the entry run: `f` is a plain
kernel, not an all wrapper. -/
theorem C9_all_rotation (env : Env) (matrix_3d_zyx n t : Nat) (hz : matrix_3d_zyx < 2) :
    ∃ w st0 st st1 f,
      exercise_func 0 matrix_3d_zyx = some w ∧
      exercise_loop_entry env 0 n = some st0 ∧
      st0.method_all_index = 1 ∧
      loop_passes env w 0 n t st0 = some st ∧
      st.method_all_index = 1 + t % (matrix_3d_methods.length - 1) ∧
      exercise_func (1 + t % (matrix_3d_methods.length - 1)) matrix_3d_zyx = some f ∧
      (kernel_of f).isSome = true ∧
      loop_pass env w 0 n st = some st1 ∧
      calls_of st1.trace = calls_of st.trace ++
        (if env.verify then [(w, Buf.r), (f, Buf.r), (w, Buf.s), (f, Buf.s)]
         else [(w, Buf.r), (f, Buf.r)]) ∧
      st1.method_all_index = 1 + (t + 1) % (matrix_3d_methods.length - 1) := by
  have h12 : matrix_3d_methods.length - 1 = 12 := rfl
  rw [h12]
  obtain ⟨w, hw⟩ := table_func 0 matrix_3d_zyx (by decide) hz
  obtain ⟨m, st0, _, he, _, _, hidx, _, hmet, _, _, _, _⟩ :=
    loop_entry_spec env 0 n (by decide)
  obtain ⟨st, e, g1, _, _⟩ :=
    all_mode_invariant env matrix_3d_zyx n w hz hw st0 hidx (by intro i; rw [hmet]) t
  obtain ⟨f, kern, hf, hk⟩ :=
    active_kernel 0 matrix_3d_zyx st.method_all_index (by decide) hz (by omega) (by omega)
  obtain ⟨st1, e1, p⟩ := loop_pass_spec env 0 matrix_3d_zyx hz w f kern n st hw hf hk
  simp only [if_true] at hf
  rw [g1] at hf
  refine ⟨w, st0, st, st1, f, hw, he, hidx, e, g1, hf, by simp [hk], e1, ?_, ?_⟩
  · rw [p.trace]
    by_cases hv : env.verify = true
    · simp [hv, calls_of]
      split_ifs <;> simp [calls_of]
    · have hv0 : env.verify = false := by simpa using hv
      simp [hv0, calls_of]
  · rw [p.index, g1]
    unfold next_index
    simp only [if_true]
    split_ifs <;> omega

/-- Witness for C9: the sample environment, reverse order, `n = 16`, iteration
number 13 (which runs entry 2, copy). -/
theorem C9_all_rotation_witness :
    ∃ w st0 st st1 f,
      exercise_func 0 1 = some w ∧
      exercise_loop_entry Env.sample 0 16 = some st0 ∧
      st0.method_all_index = 1 ∧
      loop_passes Env.sample w 0 16 13 st0 = some st ∧
      st.method_all_index = 1 + 13 % (matrix_3d_methods.length - 1) ∧
      exercise_func (1 + 13 % (matrix_3d_methods.length - 1)) 1 = some f ∧
      (kernel_of f).isSome = true ∧
      loop_pass Env.sample w 0 16 st = some st1 ∧
      calls_of st1.trace = calls_of st.trace ++
        (if Env.sample.verify then [(w, Buf.r), (f, Buf.r), (w, Buf.s), (f, Buf.s)]
         else [(w, Buf.r), (f, Buf.r)]) ∧
      st1.method_all_index = 1 + (13 + 1) % (matrix_3d_methods.length - 1) :=
  C9_all_rotation Env.sample 1 16 13 (by decide)

/-- C10. In all mode, for either traversal order and with or without
verification: after any number `k ≥ 2 * (N - 1)` of loop iterations (`N` the
table size), the invocation count `matrix_3d_metrics[i].count` of every entry
`i` in `1..N-1` is at least 2. -/
theorem C10_all_counts_at_least_two (env : Env) (matrix_3d_zyx n k : Nat)
    (hz : matrix_3d_zyx < 2) (hk : 2 * (matrix_3d_methods.length - 1) ≤ k) :
    ∃ w st0 st,
      exercise_func 0 matrix_3d_zyx = some w ∧
      exercise_loop_entry env 0 n = some st0 ∧
      loop_passes env w 0 n k st0 = some st ∧
      ∀ i, 1 ≤ i → i < matrix_3d_methods.length → 2 ≤ (st.matrix_3d_metrics i).count := by
  have h12 : matrix_3d_methods.length - 1 = 12 := rfl
  have h13 : matrix_3d_methods.length = 13 := rfl
  rw [h12] at hk
  obtain ⟨w, hw⟩ := table_func 0 matrix_3d_zyx (by decide) hz
  obtain ⟨m, st0, _, he, _, _, hidx, _, hmet, _, _, _, _⟩ :=
    loop_entry_spec env 0 n (by decide)
  obtain ⟨st, e, _, _, g3⟩ :=
    all_mode_invariant env matrix_3d_zyx n w hz hw st0 hidx (by intro i; rw [hmet]) k
  refine ⟨w, st0, st, hw, he, e, ?_⟩
  intro i hi1 hi2
  rw [h13] at hi2
  rw [g3 i hi1 hi2]
  have ha : 2 ≤ (k + 12 - i) / 12 := by omega
  have hb : 1 ≤ calls_per_pass env := by
    unfold calls_per_pass
    split_ifs <;> omega
  calc 2 = 1 * 2 := rfl
    _ ≤ calls_per_pass env * ((k + 12 - i) / 12) := Nat.mul_le_mul hb ha

/-- Witness for C10: the sample environment, forward order, `n = 16`, 24
iterations. -/
theorem C10_all_counts_at_least_two_witness :
    ∃ w st0 st,
      exercise_func 0 0 = some w ∧
      exercise_loop_entry Env.sample 0 16 = some st0 ∧
      loop_passes Env.sample w 0 16 24 st0 = some st ∧
      ∀ i, 1 ≤ i → i < matrix_3d_methods.length → 2 ≤ (st.matrix_3d_metrics i).count :=
  C10_all_counts_at_least_two Env.sample 0 16 24 (by decide) (by decide)

/-- C11 counterexample. With verification enabled (the environment `Env.frozen`)
an all-mode run of one loop iteration with `n = 16` ends with the invocation
counts of the entries `1..12` summing to 2, not to the 1 iteration completed: the
iteration invokes the selected kernel twice and counts it twice. -/
theorem C11_counts_sum_counterexample :
    ∃ st, stress_matrix_3d_exercise Env.frozen 1 0 0 16 = some (ExitCode.EXIT_SUCCESS, st) ∧
      stops_after Env.frozen 1 ∧ Env.frozen.verify = true ∧
      kernel_counts_sum st = 2 ∧ kernel_counts_sum st ≠ 1 := by
  obtain ⟨st, h, _, _, _, _, _, _, _, _, hall, _⟩ :=
    run_facts Env.frozen 1 0 0 16 1 (by decide) (by decide) maps_ok_frozen stops_after_frozen
      (Nat.le_refl 1)
  have hs : kernel_counts_sum st = 2 := by rw [(hall rfl).2.2]; rfl
  exact ⟨st, h, stops_after_frozen, rfl, hs, by rw [hs]; decide⟩

/-- C11 (amended). For every all-mode run in which every mapping succeeds and
that completes `k` loop iterations, in either loop order: the run returns
`EXIT_SUCCESS` and at its end the invocation counts of the entries `1..12` of the
metrics table sum to the number of kernel invocations, which is `k` when
verification is disabled and `2 * k` when it is enabled. -/
theorem C11_all_counts_sum (env : Env) (fuel z n k : Nat) (hz : z < 2)
    (hmaps : maps_ok env) (hstop : stops_after env k) (hfuel : k ≤ fuel) :
    ∃ st, stress_matrix_3d_exercise env fuel 0 z n = some (ExitCode.EXIT_SUCCESS, st) ∧
      kernel_counts_sum st = (if env.verify = true then 2 * k else k) ∧
      kernel_counts_sum st = kernel_calls_of st.trace := by
  obtain ⟨st, h, _, _, hk, _, _, _, _, _, hall, _⟩ :=
    run_facts env fuel 0 z n k (by decide) hz hmaps hstop hfuel
  exact ⟨st, h, by rw [(hall rfl).2.2, calls_per_pass_eq], by rw [(hall rfl).2.2, hk]⟩

/-- Witness for C11 (amended): the environment `Env.ticking` (no verification,
three iterations), forward order, `n = 2`. -/
theorem C11_all_counts_sum_witness :
    ∃ st, stress_matrix_3d_exercise Env.ticking 3 0 0 2 = some (ExitCode.EXIT_SUCCESS, st) ∧
      kernel_counts_sum st = (if Env.ticking.verify = true then 2 * 3 else 3) ∧
      kernel_counts_sum st = kernel_calls_of st.trace :=
  C11_all_counts_sum Env.ticking 3 0 2 3 (by decide) maps_ok_ticking stops_after_ticking
    (Nat.le_refl 3)

/-- C12 counterexample. An all-mode run of three iterations with `n = 16`, without
verification, on a clock that advances by one unit per reading (the environment
`Env.ticking`) ends with `matrix_3d_metrics[0].count = 3` and
`matrix_3d_metrics[0].duration = 9`, not 0 and 0: the loop itself adds every
call and the time around it to the entry of `matrix_3d_method`, which is entry
0 in all mode. -/
theorem C12_all_bucket_counterexample :
    ∃ st, stress_matrix_3d_exercise Env.ticking 3 0 0 16 = some (ExitCode.EXIT_SUCCESS, st) ∧
      (st.matrix_3d_metrics 0).count = 3 ∧ (st.matrix_3d_metrics 0).duration = 9 := by
  obtain ⟨st, h, _, _, _, _, _, _, hd, _, hall, _⟩ :=
    run_facts Env.ticking 3 0 0 16 3 (by decide) (by decide) maps_ok_ticking stops_after_ticking
      (Nat.le_refl 3)
  refine ⟨st, h, ?_, ?_⟩
  · rw [(hall rfl).1]; rfl
  · rw [hd 0]; decide

/-- C12 (amended). For every all-mode run in which every mapping succeeds and
that completes `k` loop iterations: iteration `t` adds its invocations, and the
time measured inside the wrapper around the kernel, to the record of the entry
`1 + t % 12` selected by the cursor, so entry `i` of `1..12` ends with count
`c * ((k + 12 - i) / 12)` (`c` the timed calls per iteration); the loop adds the
same invocations, and the time it measures around the wrapper, to the record of
entry 0, which ends with count `c * k`; every entry ends with the duration
`run_elapsed`; and no rate is reported under the label of entry 0. -/
theorem C12_all_mode_attribution (env : Env) (fuel z n k : Nat) (hz : z < 2)
    (hmaps : maps_ok env) (hstop : stops_after env k) (hfuel : k ≤ fuel) :
    ∃ st, stress_matrix_3d_exercise env fuel 0 z n = some (ExitCode.EXIT_SUCCESS, st) ∧
      (∀ i, 1 ≤ i → i < 13 →
        (st.matrix_3d_metrics i).count = calls_per_pass env * ((k + 12 - i) / 12)) ∧
      (st.matrix_3d_metrics 0).count = calls_per_pass env * k ∧
      (∀ i, (st.matrix_3d_metrics i).duration = run_elapsed env 0 k i) ∧
      reports_for st.trace 0 = 0 := by
  obtain ⟨st, h, _, _, _, _, _, hr, hd, _, hall, _⟩ :=
    run_facts env fuel 0 z n k (by decide) hz hmaps hstop hfuel
  refine ⟨st, h, (hall rfl).2.1, (hall rfl).1, hd, ?_⟩
  rw [reports_for_spec st.trace st 0 (by decide) hr]
  simp

/-- Witness for C12 (amended): the environment `Env.ticking` (three iterations),
forward order, `n = 2`. -/
theorem C12_all_mode_attribution_witness :
    ∃ st, stress_matrix_3d_exercise Env.ticking 3 0 0 2 = some (ExitCode.EXIT_SUCCESS, st) ∧
      (∀ i, 1 ≤ i → i < 13 →
        (st.matrix_3d_metrics i).count = calls_per_pass Env.ticking * ((3 + 12 - i) / 12)) ∧
      (st.matrix_3d_metrics 0).count = calls_per_pass Env.ticking * 3 ∧
      (∀ i, (st.matrix_3d_metrics i).duration = run_elapsed Env.ticking 0 3 i) ∧
      reports_for st.trace 0 = 0 :=
  C12_all_mode_attribution Env.ticking 3 0 2 3 (by decide) maps_ok_ticking stops_after_ticking
    (Nat.le_refl 3)

/-- C13. For every run in which every mapping succeeds and that completes `k`
loop iterations, with any method and either loop order: the calls of
`stress_metrics_set` the run makes are exactly those of `metrics_report_spec`
for the final metrics table, that is, one for each entry `i` with `i ≥ 1` and
cumulative duration `> 0` and for no other entry (so none for entry 0), in table
order, in the slots `0, 1, 2, ...`, each labelled with `"<name> matrix-3d ops per
sec"` for the name of its entry and with rate `count / duration` of its entry. -/
theorem C13_metrics_report (env : Env) (fuel matrix_3d_method z n k : Nat)
    (hm : matrix_3d_method < matrix_3d_methods.length) (hz : z < 2)
    (hmaps : maps_ok env) (hstop : stops_after env k) (hfuel : k ≤ fuel) :
    ∃ st, stress_matrix_3d_exercise env fuel matrix_3d_method z n
        = some (ExitCode.EXIT_SUCCESS, st) ∧
      metrics_of st.trace = (reported_entries_spec st).enum.map (fun p =>
        (p.1, method_name p.2 ++ " matrix-3d ops per sec",
          ((st.matrix_3d_metrics p.2).count : ℚ) / ((st.matrix_3d_metrics p.2).duration : ℚ))) ∧
      (∀ i, i ∈ reported_entries_spec st ↔
        1 ≤ i ∧ i < matrix_3d_methods.length ∧ 0 < (st.matrix_3d_metrics i).duration) ∧
      0 ∉ reported_entries_spec st ∧
      (reported_entries_spec st).Pairwise (fun x y => x < y) ∧
      (metrics_of st.trace).map (fun p => p.1) = List.range (reported_entries_spec st).length ∧
      (∀ i, i < matrix_3d_methods.length → reports_for st.trace i
        = if 1 ≤ i ∧ 0 < (st.matrix_3d_metrics i).duration then 1 else 0) := by
  obtain ⟨st, h, _, _, _, _, _, hr, _, _, _, _⟩ :=
    run_facts env fuel matrix_3d_method z n k hm hz hmaps hstop hfuel
  refine ⟨st, h, hr, mem_reported_entries_spec st, ?_, reported_entries_spec_sorted st, ?_, ?_⟩
  · intro h0
    have := (mem_reported_entries_spec st 0).mp h0
    omega
  · rw [hr]
    exact (metrics_report_spec_labels st).2
  · intro i hi
    exact reports_for_spec st.trace st i hi hr

/-- Witness for C13: the environment `Env.ticking` (three iterations), method 4
(frobenius), reverse order, `n = 2`. -/
theorem C13_metrics_report_witness :
    ∃ st, stress_matrix_3d_exercise Env.ticking 3 4 1 2 = some (ExitCode.EXIT_SUCCESS, st) ∧
      metrics_of st.trace = (reported_entries_spec st).enum.map (fun p =>
        (p.1, method_name p.2 ++ " matrix-3d ops per sec",
          ((st.matrix_3d_metrics p.2).count : ℚ) / ((st.matrix_3d_metrics p.2).duration : ℚ))) ∧
      (∀ i, i ∈ reported_entries_spec st ↔
        1 ≤ i ∧ i < matrix_3d_methods.length ∧ 0 < (st.matrix_3d_metrics i).duration) ∧
      0 ∉ reported_entries_spec st ∧
      (reported_entries_spec st).Pairwise (fun x y => x < y) ∧
      (metrics_of st.trace).map (fun p => p.1) = List.range (reported_entries_spec st).length ∧
      (∀ i, i < matrix_3d_methods.length → reports_for st.trace i
        = if 1 ≤ i ∧ 0 < (st.matrix_3d_metrics i).duration then 1 else 0) :=
  C13_metrics_report Env.ticking 3 4 1 2 3 (by decide) (by decide) maps_ok_ticking
    stops_after_ticking (Nat.le_refl 3)

/-- C14 counterexample. On a clock that returns the same value at every reading
(the environment `Env.frozen`), an all-mode run of one iteration with `n = 16`
ends with
`matrix_3d_metrics[1].count = 2`, so the add kernel executed, and with no rate
reported for it (no rate is reported at all): its cumulative duration is 0 and
the dump reports only entries whose duration is `> 0`. -/
theorem C14_rate_per_executed_kernel_counterexample :
    ∃ st, stress_matrix_3d_exercise Env.frozen 1 0 0 16 = some (ExitCode.EXIT_SUCCESS, st) ∧
      (st.matrix_3d_metrics 1).count = 2 ∧ reports_for st.trace 1 = 0 ∧
      metrics_of st.trace = [] := by
  obtain ⟨st, h, _, _, _, _, _, hr, hd, _, hall, _⟩ :=
    run_facts Env.frozen 1 0 0 16 1 (by decide) (by decide) maps_ok_frozen stops_after_frozen
      (Nat.le_refl 1)
  have hzero : ∀ i, (st.matrix_3d_metrics i).duration = 0 := by
    intro i
    rw [hd i]
    simp [run_elapsed, pass_elapsed, call_elapsed, Env.frozen]
  have hnone : reported_entries_spec st = [] := by
    apply List.eq_nil_iff_forall_not_mem.mpr
    intro i hi
    have := ((mem_reported_entries_spec st i).mp hi).2.2
    rw [hzero i] at this
    omega
  refine ⟨st, h, ?_, ?_, ?_⟩
  · rw [(hall rfl).2.1 1 (by decide) (by decide)]; rfl
  · rw [reports_for_spec st.trace st 1 (by decide) hr, hzero 1]
    simp
  · rw [hr, metrics_report_spec, hnone]
    rfl

/-- C14 (amended). For every run in which every mapping succeeds and that
completes `k` loop iterations, with any method, either loop order and any clock:
for every kernel entry `i` of `1..12`, exactly one rate is reported under its
label when its cumulative duration is `> 0` and none otherwise; a kernel that
never executed (count 0) has duration 0 and so has none; and when the clock
returns the same value at every reading no rate is reported at all. -/
theorem C14_rate_per_timed_kernel (env : Env) (fuel matrix_3d_method z n k : Nat)
    (hm : matrix_3d_method < matrix_3d_methods.length) (hz : z < 2)
    (hmaps : maps_ok env) (hstop : stops_after env k) (hfuel : k ≤ fuel) :
    ∃ st, stress_matrix_3d_exercise env fuel matrix_3d_method z n
        = some (ExitCode.EXIT_SUCCESS, st) ∧
      (∀ i, 1 ≤ i → i < matrix_3d_methods.length →
        reports_for st.trace i = if 0 < (st.matrix_3d_metrics i).duration then 1 else 0) ∧
      (∀ i, 1 ≤ i → i < matrix_3d_methods.length →
        (st.matrix_3d_metrics i).count = 0 → reports_for st.trace i = 0) ∧
      ((∀ x y, env.time_now x = env.time_now y) → metrics_of st.trace = []) := by
  obtain ⟨st, h, _, _, _, _, _, hr, hd, hu, _, _⟩ :=
    run_facts env fuel matrix_3d_method z n k hm hz hmaps hstop hfuel
  refine ⟨st, h, ?_, ?_, ?_⟩
  · intro i h1 h2
    rw [reports_for_spec st.trace st i h2 hr]
    simp [h1]
  · intro i h1 h2 hc
    rw [reports_for_spec st.trace st i h2 hr, hu i hc]
    simp
  · intro hclock
    have hzero : ∀ i, (st.matrix_3d_metrics i).duration = 0 := by
      intro i
      rw [hd i]
      have h0 : ∀ x y, env.time_now x - env.time_now y = 0 := by
        intro x y; rw [hclock x y]; omega
      simp [run_elapsed, pass_elapsed, call_elapsed, h0]
    have hnone : reported_entries_spec st = [] := by
      apply List.eq_nil_iff_forall_not_mem.mpr
      intro i hi
      have := ((mem_reported_entries_spec st i).mp hi).2.2
      rw [hzero i] at this
      omega
    rw [hr, metrics_report_spec, hnone]
    rfl

/-- Witness for C14 (amended): the environment `Env.ticking` (three iterations),
method 10 (sub), forward order, `n = 2`. -/
theorem C14_rate_per_timed_kernel_witness :
    ∃ st, stress_matrix_3d_exercise Env.ticking 3 10 0 2 = some (ExitCode.EXIT_SUCCESS, st) ∧
      (∀ i, 1 ≤ i → i < matrix_3d_methods.length →
        reports_for st.trace i = if 0 < (st.matrix_3d_metrics i).duration then 1 else 0) ∧
      (∀ i, 1 ≤ i → i < matrix_3d_methods.length →
        (st.matrix_3d_metrics i).count = 0 → reports_for st.trace i = 0) ∧
      ((∀ x y, Env.ticking.time_now x = Env.ticking.time_now y) → metrics_of st.trace = []) :=
  C14_rate_per_timed_kernel Env.ticking 3 10 0 2 3 (by decide) (by decide) maps_ok_ticking
    stops_after_ticking (Nat.le_refl 3)

/-- C15. If the mapping of step `m` fails (`m = 1` for `a`, 2 for `b`, 3 for `r`,
4 for the shadow `s`, which is mapped only when verifying) after the mappings of
the steps before it succeeded, then, whatever the method, the loop order, `n`
and the fuel, the run returns `EXIT_NO_RESOURCE`; the buffers it mapped are the
first `m - 1` of `a, b, r, s`; the buffers it unmapped are exactly those, each
once, in the reverse of the order they were mapped in; and it ran no kernel. -/
theorem C15_failed_acquisition_releases (env : Env) (fuel matrix_3d_method z n m : Nat)
    (hm : matrix_3d_method < matrix_3d_methods.length) (hz : z < 2)
    (h1 : 1 ≤ m) (h4 : m ≤ 4) (hv : m = 4 → env.verify = true)
    (hok : ∀ j, j + 1 < m → env.mmap_ok j = true)
    (hfail : env.mmap_ok (m - 1) = false) :
    ∃ st, stress_matrix_3d_exercise env fuel matrix_3d_method z n
        = some (ExitCode.EXIT_NO_RESOURCE, st) ∧
      mapped_of st.trace = acquisition_order.take (m - 1) ∧
      unmapped_of st.trace = (mapped_of st.trace).reverse ∧
      (unmapped_of st.trace).Nodup ∧
      kernel_calls_of st.trace = 0 := by
  obtain ⟨st, h, _, hmap, hun, _, hk⟩ :=
    run_failure env fuel matrix_3d_method z n m hm hz h1 h4 hv hok hfail
  refine ⟨st, h, hmap, by rw [hun, hmap], ?_, hk⟩
  rw [hun]
  apply List.nodup_reverse.mpr
  exact List.Sublist.nodup (List.take_sublist _ _) (by decide)

/-- Witness for C15: the environment `Env.frozen` with the mapping of `r` (step
3) failing, all mode, forward order, `n = 2`, fuel 5. -/
theorem C15_failed_acquisition_releases_witness :
    ∃ st, stress_matrix_3d_exercise
          { Env.frozen with mmap_ok := fun j => decide (j < 2) } 5 0 0 2
        = some (ExitCode.EXIT_NO_RESOURCE, st) ∧
      mapped_of st.trace = acquisition_order.take (3 - 1) ∧
      unmapped_of st.trace = (mapped_of st.trace).reverse ∧
      (unmapped_of st.trace).Nodup ∧
      kernel_calls_of st.trace = 0 :=
  C15_failed_acquisition_releases { Env.frozen with mmap_ok := fun j => decide (j < 2) }
    5 0 0 2 3 (by decide) (by decide) (by decide) (by decide) (by decide)
    (fun j hj => decide_eq_true (by omega)) (by decide)

/-- C16. The exercise routine always returns when its loop ends within the fuel
(and whatever the fuel when a mapping fails), and on every exit path the buffers
it unmapped are exactly the buffers it mapped, each once, in the reverse of the
order they were mapped in. When every mapping succeeds it returns
`EXIT_SUCCESS`, having mapped `a, b, r` and, only if verifying, `s`, and having
unmapped `s` (only if verifying), `r`, `b`, `a` in this order; when a mapping
fails it returns `EXIT_NO_RESOURCE`. -/
theorem C16_every_exit_releases (env : Env) (fuel matrix_3d_method z n k : Nat)
    (hm : matrix_3d_method < matrix_3d_methods.length) (hz : z < 2)
    (hrun : maps_ok env → stops_after env k ∧ k ≤ fuel) :
    ∃ ret st, stress_matrix_3d_exercise env fuel matrix_3d_method z n = some (ret, st) ∧
      unmapped_of st.trace = (mapped_of st.trace).reverse ∧
      (mapped_of st.trace).Nodup ∧ (unmapped_of st.trace).Nodup ∧
      (maps_ok env → ret = ExitCode.EXIT_SUCCESS ∧
        mapped_of st.trace = [Buf.a, Buf.b, Buf.r] ++ (if env.verify = true then [Buf.s] else []) ∧
        unmapped_of st.trace
          = (if env.verify = true then [Buf.s] else []) ++ [Buf.r, Buf.b, Buf.a]) ∧
      (¬ maps_ok env → ret = ExitCode.EXIT_NO_RESOURCE) := by
  by_cases hmaps : maps_ok env
  · obtain ⟨hstop, hfuel⟩ := hrun hmaps
    obtain ⟨st, h, _, _, _, hmap, hun, _⟩ :=
      run_facts env fuel matrix_3d_method z n k hm hz hmaps hstop hfuel
    refine ⟨_, st, h, ?_, ?_, ?_, fun _ => ⟨rfl, hmap, hun⟩, fun hn => absurd hmaps hn⟩
    · rw [hun, hmap]; split_ifs <;> rfl
    · rw [hmap]; split_ifs <;> decide
    · rw [hun]; split_ifs <;> decide
  · obtain ⟨m, h1, h4, hv, hok, hfail⟩ := first_failing_step env hmaps
    obtain ⟨st, h, _, hmap, hun, _, _⟩ :=
      run_failure env fuel matrix_3d_method z n m hm hz h1 h4 hv hok hfail
    have hnd : (acquisition_order.take (m - 1)).Nodup :=
      List.Sublist.nodup (List.take_sublist _ _) (by decide)
    refine ⟨_, st, h, by rw [hun, hmap], by rw [hmap]; exact hnd, ?_,
      fun hy => absurd hy hmaps, fun _ => rfl⟩
    rw [hun]
    exact List.nodup_reverse.mpr hnd

/-- Witness for C16: the environment `Env.ticking` (every mapping succeeds, three
iterations), method 8 (mult), forward order, `n = 2`, fuel 3. -/
theorem C16_every_exit_releases_witness :
    ∃ ret st, stress_matrix_3d_exercise Env.ticking 3 8 0 2 = some (ret, st) ∧
      unmapped_of st.trace = (mapped_of st.trace).reverse ∧
      (mapped_of st.trace).Nodup ∧ (unmapped_of st.trace).Nodup ∧
      (maps_ok Env.ticking → ret = ExitCode.EXIT_SUCCESS ∧
        mapped_of st.trace
          = [Buf.a, Buf.b, Buf.r] ++ (if Env.ticking.verify = true then [Buf.s] else []) ∧
        unmapped_of st.trace
          = (if Env.ticking.verify = true then [Buf.s] else []) ++ [Buf.r, Buf.b, Buf.a]) ∧
      (¬ maps_ok Env.ticking → ret = ExitCode.EXIT_NO_RESOURCE) :=
  C16_every_exit_releases Env.ticking 3 8 0 2 3 (by decide) (by decide)
    (fun _ => ⟨stops_after_ticking, Nat.le_refl 3⟩)

/-- C17. For every `name`: `stress_set_matrix_3d_method(name)` returns 0 if and
only if `name` is the name of some entry of `matrix_3d_methods`; for every other
name it returns -1, stores no `matrix-3d-method` setting, and writes to `stderr`
the heading followed by the names of all 13 entries in table order and a
newline. When it returns 0 it has written nothing to `stderr`. -/
theorem C17_set_method_unknown_name (name : String) :
    ((stress_set_matrix_3d_method name).ret = 0 ↔ ∃ m, m ∈ matrix_3d_methods ∧ m.name = name) ∧
    ((stress_set_matrix_3d_method name).ret = 0 → (stress_set_matrix_3d_method name).stderr = []) ∧
    ((¬ ∃ m, m ∈ matrix_3d_methods ∧ m.name = name) →
      (stress_set_matrix_3d_method name).ret = -1 ∧
      (stress_set_matrix_3d_method name).setting = none ∧
      (stress_set_matrix_3d_method name).stderr
        = ["matrix-3d-method must be one of:"] ++ matrix_3d_methods.map (fun m => " " ++ m.name)
            ++ ["\n"] ∧
      (matrix_3d_methods.map (fun m => " " ++ m.name)).length = 13) := by
  unfold stress_set_matrix_3d_method
  cases h : set_method_search name with
  | some i =>
    obtain ⟨hi, ⟨m, hm, hname⟩, _⟩ := set_method_search_some name i h
    have hmem : ∃ m, m ∈ matrix_3d_methods ∧ m.name = name :=
      ⟨m, List.getElem?_mem hm, hname⟩
    exact ⟨⟨fun _ => hmem, fun _ => rfl⟩, fun _ => rfl, fun hn => absurd hmem hn⟩
  | none =>
    have hnone := set_method_search_none name h
    refine ⟨⟨fun h0 => ?_, fun ⟨m, hm, hname⟩ => absurd hname (hnone m hm)⟩, fun h0 => ?_,
      fun _ => ⟨rfl, rfl, set_method_usage_eq, rfl⟩⟩
    · simp at h0
    · simp at h0

/-- C18. The names of the table entries are pairwise distinct, and for every
index `i` of the table, holding entry `m`, `stress_set_matrix_3d_method` called
with the name of `m` returns 0, stores exactly `i` and writes nothing to
`stderr`; in particular `"all"` stores 0. -/
theorem C18_set_method_round_trip (i : Nat) (m : stress_matrix_3d_method_info_t)
    (hm : matrix_3d_methods[i]? = some m) :
    (matrix_3d_methods.map (fun m => m.name)).Nodup ∧
    stress_set_matrix_3d_method m.name = { ret := 0, setting := some i, stderr := [] } ∧
    stress_set_matrix_3d_method "all" = { ret := 0, setting := some 0, stderr := [] } := by
  refine ⟨method_names_nodup, ?_, by decide⟩
  have hi : i < 13 := by
    obtain ⟨h, _⟩ := List.getElem?_eq_some.mp hm
    exact h
  interval_cases i <;>
    (simp only [matrix_3d_methods, List.getElem?_cons_succ, List.getElem?_cons_zero,
        Option.some.injEq] at hm
     subst hm
     decide)

/-- Witness for C18: entry 10, `sub`. -/
theorem C18_set_method_round_trip_witness :
    (matrix_3d_methods.map (fun m => m.name)).Nodup ∧
    stress_set_matrix_3d_method
        ({ name := "sub", func := [.xyz_sub, .zyx_sub] } : stress_matrix_3d_method_info_t).name
      = { ret := 0, setting := some 10, stderr := [] } ∧
    stress_set_matrix_3d_method "all" = { ret := 0, setting := some 0, stderr := [] } :=
  C18_set_method_round_trip 10 { name := "sub", func := [.xyz_sub, .zyx_sub] } rfl

/-- C20. For every run in which every mapping succeeds and that completes `k`
loop iterations, with any method (a fixed kernel or all) and either loop order:
the run returns `EXIT_SUCCESS`, the bogo-op counter at its end equals the number
of `stress_bogo_inc` calls made and equals the number of plain kernel
invocations made, and this number is `k` when verification is disabled and
`2 * k` when it is enabled. -/
theorem C20_bogo_once_per_invocation (env : Env) (fuel matrix_3d_method z n k : Nat)
    (hm : matrix_3d_method < matrix_3d_methods.length) (hz : z < 2)
    (hmaps : maps_ok env) (hstop : stops_after env k) (hfuel : k ≤ fuel) :
    ∃ st, stress_matrix_3d_exercise env fuel matrix_3d_method z n
        = some (ExitCode.EXIT_SUCCESS, st) ∧
      st.bogo = bogo_incs_of st.trace ∧
      st.bogo = kernel_calls_of st.trace ∧
      st.bogo = (if env.verify = true then 2 * k else k) := by
  obtain ⟨st, h, hb, hi, hk, _⟩ :=
    run_facts env fuel matrix_3d_method z n k hm hz hmaps hstop hfuel
  exact ⟨st, h, by rw [hb, hi], by rw [hb, hk], by rw [hb, calls_per_pass_eq]⟩

/-- Witness for C20: the environment `Env.frozen` (verification enabled, one
iteration), all mode, reverse order, `n = 2`. -/
theorem C20_bogo_once_per_invocation_witness :
    ∃ st, stress_matrix_3d_exercise Env.frozen 1 0 1 2 = some (ExitCode.EXIT_SUCCESS, st) ∧
      st.bogo = bogo_incs_of st.trace ∧
      st.bogo = kernel_calls_of st.trace ∧
      st.bogo = (if Env.frozen.verify = true then 2 * 1 else 1) :=
  C20_bogo_once_per_invocation Env.frozen 1 0 1 2 1 (by decide) (by decide) maps_ok_frozen
    stops_after_frozen (Nat.le_refl 1)

/-- C21 counterexample. With verification enabled (the environment `Env.frozen`)
a run of one loop iteration in all mode with `n = 16` makes two plain kernel
invocations, the
primary one into `r` and the shadow one into `s`, before the first evaluation of
`stress_continue`: the only segment of its trace holds 2 invocations, so there is
no evaluation between these two consecutive invocations. -/
theorem C21_continue_between_counterexample :
    ∃ st, stress_matrix_3d_exercise Env.frozen 1 0 0 16 = some (ExitCode.EXIT_SUCCESS, st) ∧
      Env.frozen.verify = true ∧ invocation_gaps st.trace = ([2], 0) ∧
      ¬ (∀ c, c ∈ (invocation_gaps st.trace).1 → c ≤ 1) := by
  obtain ⟨st, h, hg, _⟩ :=
    run_gaps_calls Env.frozen 1 0 0 16 1 (by decide) (by decide) maps_ok_frozen stops_after_frozen
      (Nat.le_refl 1)
  have hg2 : invocation_gaps st.trace = ([2], 0) := by rw [hg]; rfl
  refine ⟨st, h, rfl, hg2, ?_⟩
  intro hall
  have := hall 2 (by rw [hg2]; simp)
  omega

/-- C21 (amended). For every run in which every mapping succeeds and that
completes `k` loop iterations, with any method (a fixed kernel or all), either
loop order and verification enabled or not: `stress_continue` is evaluated
exactly once per loop iteration, after the invocations of that iteration, so its
`k` evaluations cut the trace into `k` segments that each hold the kernel
invocations of one iteration, 1 without verification and 2 (the primary one and
the shadow one, with no evaluation between them) with it, and no kernel is
invoked after the last evaluation. In particular at most 2 invocations, and
without verification exactly 1, lie between two evaluations. -/
theorem C21_continue_once_per_iteration (env : Env) (fuel matrix_3d_method z n k : Nat)
    (hm : matrix_3d_method < matrix_3d_methods.length) (hz : z < 2)
    (hmaps : maps_ok env) (hstop : stops_after env k) (hfuel : k ≤ fuel) :
    ∃ st, stress_matrix_3d_exercise env fuel matrix_3d_method z n
        = some (ExitCode.EXIT_SUCCESS, st) ∧
      invocation_gaps st.trace
        = (List.replicate k (if env.verify = true then 2 else 1), 0) ∧
      (∀ c, c ∈ (invocation_gaps st.trace).1 → c ≤ 2) ∧
      (env.verify = false → ∀ c, c ∈ (invocation_gaps st.trace).1 → c = 1) := by
  obtain ⟨st, h, hg, _⟩ :=
    run_gaps_calls env fuel matrix_3d_method z n k hm hz hmaps hstop hfuel
  have hcpp : calls_per_pass env = (if env.verify = true then 2 else 1) := by
    unfold calls_per_pass; rfl
  rw [hcpp] at hg
  refine ⟨st, h, hg, ?_, ?_⟩
  · intro c hc
    rw [hg] at hc
    have := List.eq_of_mem_replicate hc
    split_ifs at this <;> omega
  · intro hv c hc
    rw [hg] at hc
    have := List.eq_of_mem_replicate hc
    simpa [hv] using this

/-- Witness for C21 (amended): the environment `Env.ticking` (no verification,
three iterations), method 4 (frobenius), forward order, `n = 2`. -/
theorem C21_continue_once_per_iteration_witness :
    ∃ st, stress_matrix_3d_exercise Env.ticking 3 4 0 2 = some (ExitCode.EXIT_SUCCESS, st) ∧
      invocation_gaps st.trace
        = (List.replicate 3 (if Env.ticking.verify = true then 2 else 1), 0) ∧
      (∀ c, c ∈ (invocation_gaps st.trace).1 → c ≤ 2) ∧
      (Env.ticking.verify = false → ∀ c, c ∈ (invocation_gaps st.trace).1 → c = 1) :=
  C21_continue_once_per_iteration Env.ticking 3 4 0 2 3 (by decide) (by decide) maps_ok_ticking
    stops_after_ticking (Nat.le_refl 3)

/-- C23 counterexample. In all mode with verification (the sample environment,
forward order, `n = 16`), iteration number 3 runs entry 4, frobenius, which
assigns nothing to its result array. In the state in which `r` and `s` are
compared in that iteration, `current_method` is `"frobenius"`, while `r` and `s`
are what they were before the iteration: the output of the div kernel, entry 3,
which iteration number 2 ran. So the name a mismatch message would carry is not
the name of the entry whose function produced the data compared. -/
theorem C23_frobenius_names_unwritten_data_counterexample :
    ∃ func st0 stp st s1 s2,
      exercise_func 0 0 = some func ∧
      exercise_loop_entry Env.sample 0 16 = some st0 ∧
      loop_passes Env.sample func 0 16 2 st0 = some stp ∧
      loop_passes Env.sample func 0 16 3 st0 = some st ∧
      timed_call Env.sample func 0 16 Buf.r st = some s1 ∧
      timed_call Env.sample func 0 16 Buf.s s1 = some s2 ∧
      verify_block Env.sample func 0 16 s1
        = some (if shim_memcmp s2.r s2.s 16 then pr_fail_difference Env.sample s2 else s2) ∧
      s2.current_method = "frobenius" ∧
      s2.r = st.r ∧ s2.s = st.s ∧
      st.r = stress_matrix_3d_xyz_div 16 stp.a stp.b stp.r ∧
      st.s = stress_matrix_3d_xyz_div 16 stp.a stp.b stp.s ∧
      (∀ i j k, i < 16 → j < 16 → k < 16 →
        s2.r i j k = Binary32.div (stp.a i j k) (stp.b 0 0 0) ∧
        s2.s i j k = Binary32.div (stp.a i j k) (stp.b 0 0 0)) := by
  have hz : (0 : Nat) < 2 := by decide
  obtain ⟨func, st0, stp, hfunc, he, _, e, hidx, _⟩ :=
    entry_passes Env.sample 0 0 16 2 (by decide) hz
  have hidx3 : stp.method_all_index = 3 := by rw [hidx]; rfl
  have hdiv : exercise_func (if (0 : Nat) = 0 then stp.method_all_index else 0) 0
      = some stress_matrix_3d_func_t.xyz_div := by rw [hidx3]; rfl
  obtain ⟨st, ep, p⟩ :=
    loop_pass_spec Env.sample 0 0 hz func stress_matrix_3d_func_t.xyz_div
      stress_matrix_3d_xyz_div 16 stp hfunc hdiv rfl
  have e3 : loop_passes Env.sample func 0 16 3 st0 = some st := by
    simp only [loop_passes] at e ⊢
    simp only [e, ep]
  have hidx4 : st.method_all_index = 4 := by rw [p.index, hidx3]; rfl
  have hfro : exercise_func (if (0 : Nat) = 0 then st.method_all_index else 0) 0
      = some stress_matrix_3d_func_t.xyz_frobenius := by rw [hidx4]; rfl
  obtain ⟨s1, e1, c1⟩ :=
    timed_call_spec Env.sample 0 0 hz func stress_matrix_3d_func_t.xyz_frobenius
      stress_matrix_3d_xyz_frobenius 16 Buf.r st hfunc hfro rfl
  have hfro1 : exercise_func (if (0 : Nat) = 0 then s1.method_all_index else 0) 0
      = some stress_matrix_3d_func_t.xyz_frobenius := by rw [c1.index]; exact hfro
  obtain ⟨s2, e2, c2⟩ :=
    timed_call_spec Env.sample 0 0 hz func stress_matrix_3d_func_t.xyz_frobenius
      stress_matrix_3d_xyz_frobenius 16 Buf.s s1 hfunc hfro1 rfl
  have hr1 : s1.r = st.r := c1.buf_target
  have hs1 : s1.s = st.s := c1.buf_other Buf.s (by decide)
  have hr2 : s2.r = s1.r := c2.buf_other Buf.r (by decide)
  have hs2 : s2.s = s1.s := c2.buf_target
  have hr : s2.r = st.r := by rw [hr2, hr1]
  have hs : s2.s = st.s := by rw [hs2, hs1]
  have hpr : st.r = stress_matrix_3d_xyz_div 16 stp.a stp.b stp.r := p.r
  have hps : st.s = stress_matrix_3d_xyz_div 16 stp.a stp.b stp.s := by
    have := p.s
    simpa [Env.sample] using this
  have hname : s2.current_method = "frobenius" := by
    obtain ⟨m, hmm, hcur⟩ := c2.name_all rfl
    rw [c1.index, hidx4] at hmm
    simp only [matrix_3d_methods, List.getElem?_cons_succ, List.getElem?_cons_zero,
      Option.some.injEq] at hmm
    rw [hcur, ← hmm]
  refine ⟨func, st0, stp, st, s1, s2, hfunc, he, e, e3, e1, e2,
    verify_block_steps Env.sample func 0 16 s1 s2 rfl e2, hname, hr, hs, hpr, hps, ?_⟩
  intro i j k hi hj hk
  rw [hr, hs, hpr, hps, xyz_div_eq, xyz_div_eq, fill_inside 16 _ stp.r i j k hi hj hk,
    fill_inside 16 _ stp.s i j k hi hj hk]
  exact ⟨rfl, rfl⟩

/-- C23 (amended). With verification enabled, for every configured method of the
table, either loop order, every `n` and every iteration number `t` (counting
from 0): let `sel` be the configured method when it is a fixed kernel and the
cursor `1 + t % 12` in all mode, and `f` the function
`matrix_3d_methods[sel].func[zyx]`. Iteration `t` invokes `f` into `r` and again
into `s`, and in the state in which `r` and `s` are then compared
`current_method` is the name of entry `sel`, so that is the name a mismatch
message carries; it is never `"all"`, and in all mode it is not the name of the
next entry of the rotation. When `sel` is not 4 (frobenius), `f` produced the
data compared: inside the cube `r` and `s` both hold values that `f` fixes from
`n`, `a` and `b` alone. When `sel` is 4, `f` is a frobenius variant, which writes
neither array: `r` and `s` are what they were before the iteration. -/
theorem C23_mismatch_names_invoked_kernel (env : Env)
    (matrix_3d_method matrix_3d_zyx n t : Nat)
    (hv : env.verify = true) (hm : matrix_3d_method < matrix_3d_methods.length)
    (hz : matrix_3d_zyx < 2) :
    ∃ func st0 st s1 s2 f kern,
      exercise_func matrix_3d_method matrix_3d_zyx = some func ∧
      exercise_loop_entry env matrix_3d_method n = some st0 ∧
      loop_passes env func matrix_3d_method n t st0 = some st ∧
      exercise_func (if matrix_3d_method = 0 then 1 + t % 12 else matrix_3d_method)
        matrix_3d_zyx = some f ∧
      kernel_of f = some kern ∧
      timed_call env func matrix_3d_method n Buf.r st = some s1 ∧
      timed_call env func matrix_3d_method n Buf.s s1 = some s2 ∧
      verify_block env func matrix_3d_method n s1
        = some (if shim_memcmp s2.r s2.s n then pr_fail_difference env s2 else s2) ∧
      s2.r = kern n st.a st.b st.r ∧ s2.s = kern n st.a st.b st.s ∧
      s2.current_method
        = method_name (if matrix_3d_method = 0 then 1 + t % 12 else matrix_3d_method) ∧
      fails_of (pr_fail_difference env s2).trace = fails_of s2.trace ++
        [env.name ++ ": "
          ++ method_name (if matrix_3d_method = 0 then 1 + t % 12 else matrix_3d_method)
          ++ ": data difference between identical matrix-3d computations\n"] ∧
      s2.current_method ≠ "all" ∧
      (matrix_3d_method = 0 → s2.current_method ≠ method_name (1 + (t + 1) % 12)) ∧
      ((if matrix_3d_method = 0 then 1 + t % 12 else matrix_3d_method) ≠ 4 →
        ∃ F : Nat → Nat → Nat → stress_matrix_3d_type_t,
          (∀ r, kern n st.a st.b r = Vol.fill n F r) ∧
          (∀ i j k, i < n → j < n → k < n → s2.r i j k = F i j k ∧ s2.s i j k = F i j k)) ∧
      ((if matrix_3d_method = 0 then 1 + t % 12 else matrix_3d_method) = 4 →
        (f = stress_matrix_3d_func_t.xyz_frobenius ∨
          f = stress_matrix_3d_func_t.zyx_frobenius) ∧
        s2.current_method = "frobenius" ∧ s2.r = st.r ∧ s2.s = st.s) := by
  have hm13 : matrix_3d_method < 13 := hm
  obtain ⟨func, st0, st, hfunc, he, _, e, hidx, hcm⟩ :=
    entry_passes env matrix_3d_method matrix_3d_zyx n t hm13 hz
  have hb1 : 1 ≤ st.method_all_index := by rw [hidx]; split_ifs <;> omega
  have hb2 : st.method_all_index < 13 := by rw [hidx]; split_ifs <;> omega
  obtain ⟨f, kern, hf, hk⟩ :=
    active_kernel matrix_3d_method matrix_3d_zyx st.method_all_index hm13 hz hb1 hb2
  obtain ⟨s1, e1, c1⟩ :=
    timed_call_spec env matrix_3d_method matrix_3d_zyx hz func f kern n Buf.r st hfunc hf hk
  have hf1 : exercise_func
      (if matrix_3d_method = 0 then s1.method_all_index else matrix_3d_method) matrix_3d_zyx
        = some f := by rw [c1.index]; exact hf
  obtain ⟨s2, e2, c2⟩ :=
    timed_call_spec env matrix_3d_method matrix_3d_zyx hz func f kern n Buf.s s1 hfunc hf1 hk
  have hsel : (if matrix_3d_method = 0 then st.method_all_index else matrix_3d_method)
      = (if matrix_3d_method = 0 then 1 + t % 12 else matrix_3d_method) := by
    by_cases h0 : matrix_3d_method = 0
    · simp only [h0, if_true] at hidx ⊢
      exact hidx
    · simp only [h0, if_false]
  rw [hsel] at hf
  have ha : s1.a = st.a := c1.buf_other Buf.a (by decide)
  have hb : s1.b = st.b := c1.buf_other Buf.b (by decide)
  have hs1 : s1.s = st.s := c1.buf_other Buf.s (by decide)
  have hr1 : s1.r = kern n st.a st.b st.r := c1.buf_target
  have hr2 : s2.r = s1.r := c2.buf_other Buf.r (by decide)
  have hs2 : s2.s = kern n s1.a s1.b s1.s := c2.buf_target
  have hr : s2.r = kern n st.a st.b st.r := by rw [hr2, hr1]
  have hs : s2.s = kern n st.a st.b st.s := by rw [hs2, ha, hb, hs1]
  have hname : s2.current_method
      = method_name (if matrix_3d_method = 0 then 1 + t % 12 else matrix_3d_method) := by
    by_cases h0 : matrix_3d_method = 0
    · obtain ⟨m, hmm, hcur⟩ := c2.name_all h0
      rw [c1.index] at hmm
      simp only [h0, if_true] at hidx ⊢
      rw [hidx] at hmm
      rw [hcur]
      simp only [method_name, hmm]
    · rw [c2.name_fixed h0, c1.name_fixed h0, hcm h0]
      simp only [h0, if_false]
  have hsel1 : 1 ≤ (if matrix_3d_method = 0 then 1 + t % 12 else matrix_3d_method) := by
    split_ifs <;> omega
  have hsel2 : (if matrix_3d_method = 0 then 1 + t % 12 else matrix_3d_method) < 13 := by
    split_ifs <;> omega
  have hfro := frobenius_iff_entry _ matrix_3d_zyx hsel1 hsel2 hz f hf
  refine ⟨func, st0, st, s1, s2, f, kern, hfunc, he, e, hf, hk, e1, e2,
    verify_block_steps env func matrix_3d_method n s1 s2 hv e2, hr, hs, hname,
    ?_, ?_, ?_, ?_, ?_⟩
  · simp only [pr_fail_difference, State.log, fails_of_append, hname]
    rfl
  · rw [hname]
    intro hall
    have h0 : method_name 0 = "all" := by decide
    rw [← h0] at hall
    have := method_name_inj _ 0 hsel2 (by omega) hall
    omega
  · intro h0 hnext
    rw [hname] at hnext
    simp only [h0, if_true] at hnext
    have := method_name_inj _ _ (by omega) (by omega) hnext
    omega
  · intro hne
    have hx : f ≠ stress_matrix_3d_func_t.xyz_frobenius :=
      fun h => hne (hfro.mp (Or.inl h))
    have hy : f ≠ stress_matrix_3d_func_t.zyx_frobenius :=
      fun h => hne (hfro.mp (Or.inr h))
    obtain ⟨F, hF⟩ := kernel_fill f kern hk hx hy n st.a st.b
    refine ⟨F, hF, ?_⟩
    intro i j k hi hj hk1
    rw [hr, hs, hF st.r, hF st.s, fill_inside n F st.r i j k hi hj hk1,
      fill_inside n F st.s i j k hi hj hk1]
    exact ⟨rfl, rfl⟩
  · intro h4
    have hff := hfro.mpr h4
    refine ⟨hff, ?_, ?_, ?_⟩
    · rw [hname, h4]
      decide
    · rw [hr]
      exact kernel_frobenius_frame f kern hk hff n st.a st.b st.r
    · rw [hs]
      exact kernel_frobenius_frame f kern hk hff n st.a st.b st.s

/-- Witness for C23 (amended): the sample environment, all mode, reverse order,
`n = 16`, iteration number 13 (which runs entry 2, copy). -/
theorem C23_mismatch_names_invoked_kernel_witness :
    ∃ func st0 st s1 s2 f kern,
      exercise_func 0 1 = some func ∧
      exercise_loop_entry Env.sample 0 16 = some st0 ∧
      loop_passes Env.sample func 0 16 13 st0 = some st ∧
      exercise_func (if 0 = 0 then 1 + 13 % 12 else 0) 1 = some f ∧
      kernel_of f = some kern ∧
      timed_call Env.sample func 0 16 Buf.r st = some s1 ∧
      timed_call Env.sample func 0 16 Buf.s s1 = some s2 ∧
      verify_block Env.sample func 0 16 s1
        = some (if shim_memcmp s2.r s2.s 16 then pr_fail_difference Env.sample s2 else s2) ∧
      s2.r = kern 16 st.a st.b st.r ∧ s2.s = kern 16 st.a st.b st.s ∧
      s2.current_method = method_name (if 0 = 0 then 1 + 13 % 12 else 0) ∧
      fails_of (pr_fail_difference Env.sample s2).trace = fails_of s2.trace ++
        [Env.sample.name ++ ": " ++ method_name (if 0 = 0 then 1 + 13 % 12 else 0)
          ++ ": data difference between identical matrix-3d computations\n"] ∧
      s2.current_method ≠ "all" ∧
      (0 = 0 → s2.current_method ≠ method_name (1 + (13 + 1) % 12)) ∧
      ((if 0 = 0 then 1 + 13 % 12 else 0) ≠ 4 →
        ∃ F : Nat → Nat → Nat → stress_matrix_3d_type_t,
          (∀ r, kern 16 st.a st.b r = Vol.fill 16 F r) ∧
          (∀ i j k, i < 16 → j < 16 → k < 16 →
            s2.r i j k = F i j k ∧ s2.s i j k = F i j k)) ∧
      ((if 0 = 0 then 1 + 13 % 12 else 0) = 4 →
        (f = stress_matrix_3d_func_t.xyz_frobenius ∨
          f = stress_matrix_3d_func_t.zyx_frobenius) ∧
        s2.current_method = "frobenius" ∧ s2.r = st.r ∧ s2.s = st.s) :=
  C23_mismatch_names_invoked_kernel Env.sample 0 1 16 13 rfl (by decide) (by decide)

/-- C24. For every `n`, all arrays `a`, `b`, every prior content `r0` of the
result array and all `i, j, k < n` (so `n ≥ 1`): with `v = b[0][0][0]`, both mult
variants leave `r[i][j][k] = v * a[i][j][k]` and both div variants leave
`r[i][j][k] = a[i][j][k] / v`, the float quotient, whatever `v` is. When `v` is
a zero (of either sign) and `a[i][j][k]` is finite, the quotient is a NaN for a
zero `a[i][j][k]` and an infinity otherwise: no guard replaces it. -/
theorem C24_scalar_kernels (n : Nat) (a b r0 : Vol) (i j k : Nat)
    (hi : i < n) (hj : j < n) (hk : k < n) :
    1 ≤ n ∧
    stress_matrix_3d_xyz_mult n a b r0 i j k = Binary32.mul (b 0 0 0) (a i j k) ∧
    stress_matrix_3d_zyx_mult n a b r0 i j k = Binary32.mul (b 0 0 0) (a i j k) ∧
    stress_matrix_3d_xyz_div n a b r0 i j k = Binary32.div (a i j k) (b 0 0 0) ∧
    stress_matrix_3d_zyx_div n a b r0 i j k = Binary32.div (a i j k) (b 0 0 0) ∧
    (∀ s m e t f, a i j k = Binary32.fin s m e → b 0 0 0 = Binary32.fin t 0 f →
      stress_matrix_3d_xyz_div n a b r0 i j k
        = (if m = 0 then Binary32.nan else Binary32.inf (xor s t)) ∧
      stress_matrix_3d_zyx_div n a b r0 i j k
        = (if m = 0 then Binary32.nan else Binary32.inf (xor s t))) := by
  have hx : stress_matrix_3d_xyz_div n a b r0 i j k = Binary32.div (a i j k) (b 0 0 0) := by
    rw [xyz_div_eq, fill_inside n _ r0 i j k hi hj hk]
  have hy : stress_matrix_3d_zyx_div n a b r0 i j k = Binary32.div (a i j k) (b 0 0 0) := by
    rw [zyx_div_eq, fill_inside n _ r0 i j k hi hj hk]
  refine ⟨by omega, ?_, ?_, hx, hy, ?_⟩
  · rw [xyz_mult_eq, fill_inside n _ r0 i j k hi hj hk]
  · rw [zyx_mult_eq, fill_inside n _ r0 i j k hi hj hk]
  · intro s m e t f ha hb
    rw [hx, hy, ha, hb]
    simp [Binary32.div]

/-- Witness for C24: `n = 16`, `a` the sample array, `b` all `0.0`, `r` all `2.0`
before the call, element `[3][5][7]`. -/
theorem C24_scalar_kernels_witness :
    1 ≤ 16 ∧
    stress_matrix_3d_xyz_mult 16 Vol.sample (Vol.const Binary32.zero) (Vol.const Binary32.two)
        3 5 7 = Binary32.mul (Vol.const Binary32.zero 0 0 0) (Vol.sample 3 5 7) ∧
    stress_matrix_3d_zyx_mult 16 Vol.sample (Vol.const Binary32.zero) (Vol.const Binary32.two)
        3 5 7 = Binary32.mul (Vol.const Binary32.zero 0 0 0) (Vol.sample 3 5 7) ∧
    stress_matrix_3d_xyz_div 16 Vol.sample (Vol.const Binary32.zero) (Vol.const Binary32.two)
        3 5 7 = Binary32.div (Vol.sample 3 5 7) (Vol.const Binary32.zero 0 0 0) ∧
    stress_matrix_3d_zyx_div 16 Vol.sample (Vol.const Binary32.zero) (Vol.const Binary32.two)
        3 5 7 = Binary32.div (Vol.sample 3 5 7) (Vol.const Binary32.zero 0 0 0) ∧
    (∀ s m e t f, Vol.sample 3 5 7 = Binary32.fin s m e →
      Vol.const Binary32.zero 0 0 0 = Binary32.fin t 0 f →
      stress_matrix_3d_xyz_div 16 Vol.sample (Vol.const Binary32.zero) (Vol.const Binary32.two)
          3 5 7 = (if m = 0 then Binary32.nan else Binary32.inf (xor s t)) ∧
      stress_matrix_3d_zyx_div 16 Vol.sample (Vol.const Binary32.zero) (Vol.const Binary32.two)
          3 5 7 = (if m = 0 then Binary32.nan else Binary32.inf (xor s t))) :=
  C24_scalar_kernels 16 Vol.sample (Vol.const Binary32.zero) (Vol.const Binary32.two) 3 5 7
    (by decide) (by decide) (by decide)

/-- C25 counterexample. With `n = 2` and `a = b` the array `Vol.skew` (`4096.0`
in `[0][0][1]`, `1.0` in `[1][0][0]` and `[0][1][0]`, `0.0` elsewhere, all inside
the range the run seeds its inputs in), the products are `2^24`, 1, 1 and zeros.
The forward variant adds the ones to `2^24` one at a time, each sum rounding back
to `2^24`, and puts `2^24`; the reverse variant adds the ones first and puts
`2^24 + 2`. The two scalars differ. -/
theorem C25_frobenius_order_counterexample :
    (stress_matrix_3d_xyz_frobenius_put 2 Vol.skew Vol.skew mmap_zero).2
        = Binary32.fin false (2 ^ 23) 1 ∧
    (stress_matrix_3d_zyx_frobenius_put 2 Vol.skew Vol.skew mmap_zero).2
        = Binary32.fin false (2 ^ 23 + 1) 1 ∧
    (stress_matrix_3d_xyz_frobenius_put 2 Vol.skew Vol.skew mmap_zero).2
        ≠ (stress_matrix_3d_zyx_frobenius_put 2 Vol.skew Vol.skew mmap_zero).2 := by
  have hx : (stress_matrix_3d_xyz_frobenius_put 2 Vol.skew Vol.skew mmap_zero).2
      = Binary32.fin false (2 ^ 23) 1 := by
    simp only [stress_matrix_3d_xyz_frobenius_put]
    exact skew_xyz_sum
  have hy : (stress_matrix_3d_zyx_frobenius_put 2 Vol.skew Vol.skew mmap_zero).2
      = Binary32.fin false (2 ^ 23 + 1) 1 := by
    simp only [stress_matrix_3d_zyx_frobenius_put]
    exact skew_zyx_sum
  refine ⟨hx, hy, ?_⟩
  rw [hx, hy]
  decide

/-- C25 (amended). For every `n` and all inputs `a`, `b`, each frobenius variant
hands `stress_float_put` the float sum of the float products
`a[i][j][k] * b[i][j][k]` accumulated from `0.0` in its own traversal order, and
leaves `r` alone. The scalar of the reverse variant on `(a, b)` is the scalar of
the forward variant on the arrays with first and third index exchanged. So the
two variants hand over the same scalar whenever `a` and `b` are unchanged by that
exchange inside the cube, in particular whenever `n ≤ 1`. -/
theorem C25_frobenius_order (n : Nat) (a b r0 : Vol) :
    (stress_matrix_3d_xyz_frobenius_put n a b r0).2
      = forLoop n (fun i sum => forLoop n (fun j sum => forLoop n (fun k sum =>
          Binary32.add sum (Binary32.mul (a i j k) (b i j k))) sum) sum) Binary32.zero ∧
    (stress_matrix_3d_zyx_frobenius_put n a b r0).2
      = forLoop n (fun k sum => forLoop n (fun j sum => forLoop n (fun i sum =>
          Binary32.add sum (Binary32.mul (a i j k) (b i j k))) sum) sum) Binary32.zero ∧
    (stress_matrix_3d_xyz_frobenius_put n a b r0).1 = r0 ∧
    (stress_matrix_3d_zyx_frobenius_put n a b r0).1 = r0 ∧
    (stress_matrix_3d_zyx_frobenius_put n a b r0).2
      = (stress_matrix_3d_xyz_frobenius_put n a.swap13 b.swap13 r0).2 ∧
    ((∀ i, i < n → ∀ j, j < n → ∀ k, k < n → a i j k = a k j i ∧ b i j k = b k j i) →
      (stress_matrix_3d_xyz_frobenius_put n a b r0).2
        = (stress_matrix_3d_zyx_frobenius_put n a b r0).2) ∧
    (n ≤ 1 → (stress_matrix_3d_xyz_frobenius_put n a b r0).2
        = (stress_matrix_3d_zyx_frobenius_put n a b r0).2) := by
  have hsym : (∀ i, i < n → ∀ j, j < n → ∀ k, k < n → a i j k = a k j i ∧ b i j k = b k j i) →
      (stress_matrix_3d_xyz_frobenius_put n a b r0).2
        = (stress_matrix_3d_zyx_frobenius_put n a b r0).2 := by
    intro h
    show stress_matrix_3d_xyz_frobenius_sum n a b = stress_matrix_3d_zyx_frobenius_sum n a b
    rw [zyx_frobenius_sum_swap]
    exact xyz_frobenius_sum_congr n a b a.swap13 b.swap13
      (fun i hi j hj k hk => (h i hi j hj k hk).1) (fun i hi j hj k hk => (h i hi j hj k hk).2)
  refine ⟨rfl, rfl, rfl, rfl, rfl, hsym, ?_⟩
  intro hn
  apply hsym
  intro i hi j hj k hk
  have hi0 : i = 0 := by omega
  have hk0 : k = 0 := by omega
  subst hi0 hk0
  exact ⟨rfl, rfl⟩

/-- C26. The setter stores a `matrix-3d-size` exactly when the value is in
`[16, 1024]`, and stores that value. For every state of the settings in which
the size, when set, was stored by the setter, and all values of the maximize and
minimize flags: `stress_matrix_3d` hands `stress_matrix_3d_exercise` an `n` in
`[16, 1024]`, which is the setting when there is one, and otherwise 16 if the
minimize flag is set, else 1024 if the maximize flag is set, else 128. -/
theorem C26_exercise_size_in_range (env : Env) (fuel : Nat) (settings : Settings)
    (maximize minimize : Bool)
    (hset : ∀ v, settings.matrix_3d_size = some v →
      ∃ opt, stress_set_matrix_3d_size opt = some v) :
    (∀ opt, (stress_set_matrix_3d_size opt).isSome = true ↔ 16 ≤ opt ∧ opt ≤ 1024) ∧
    (∀ opt v, stress_set_matrix_3d_size opt = some v → v = opt) ∧
    stress_matrix_3d env fuel settings maximize minimize
      = stress_matrix_3d_exercise env fuel (settings.matrix_3d_method.getD 0)
          (settings.matrix_3d_zyx.getD 0)
          (exercise_n settings.matrix_3d_size maximize minimize) ∧
    16 ≤ exercise_n settings.matrix_3d_size maximize minimize ∧
    exercise_n settings.matrix_3d_size maximize minimize ≤ 1024 ∧
    (∀ v, settings.matrix_3d_size = some v →
      exercise_n settings.matrix_3d_size maximize minimize = v) ∧
    (settings.matrix_3d_size = none →
      exercise_n settings.matrix_3d_size maximize minimize
        = if minimize = true then 16 else if maximize = true then 1024 else 128) := by
  have hsetter : ∀ opt v, stress_set_matrix_3d_size opt = some v →
      v = opt ∧ 16 ≤ opt ∧ opt ≤ 1024 := by
    intro opt v h
    unfold stress_set_matrix_3d_size stress_check_range MIN_MATRIX3D_SIZE
      MAX_MATRIX3D_SIZE at h
    by_cases hr : 16 ≤ opt ∧ opt ≤ 1024
    · simp only [hr, and_self, if_true, Option.some.injEq] at h
      exact ⟨h.symm, hr⟩
    · simp [hr] at h
  refine ⟨?_, fun opt v h => (hsetter opt v h).1, rfl, ?_, ?_, ?_, ?_⟩
  · intro opt
    constructor
    · intro h
      obtain ⟨v, hv⟩ := Option.isSome_iff_exists.mp h
      exact (hsetter opt v hv).2
    · intro hr
      simp [stress_set_matrix_3d_size, stress_check_range, MIN_MATRIX3D_SIZE,
        MAX_MATRIX3D_SIZE, hr]
  · cases hs : settings.matrix_3d_size with
    | none =>
      cases maximize <;> cases minimize <;>
        simp [exercise_n, DEFAULT_MATRIX3D_SIZE, MIN_MATRIX3D_SIZE, MAX_MATRIX3D_SIZE]
    | some v =>
      obtain ⟨opt, ho⟩ := hset v hs
      have := hsetter opt v ho
      simp only [exercise_n]
      omega
  · cases hs : settings.matrix_3d_size with
    | none =>
      cases maximize <;> cases minimize <;>
        simp [exercise_n, DEFAULT_MATRIX3D_SIZE, MIN_MATRIX3D_SIZE, MAX_MATRIX3D_SIZE]
    | some v =>
      obtain ⟨opt, ho⟩ := hset v hs
      have := hsetter opt v ho
      simp only [exercise_n]
      omega
  · intro v hv
    simp only [hv, exercise_n]
  · intro hn
    rw [hn]
    cases maximize <;> cases minimize <;>
      simp [exercise_n, DEFAULT_MATRIX3D_SIZE, MIN_MATRIX3D_SIZE, MAX_MATRIX3D_SIZE]

/-- Witness for C26: the environment `Env.ticking`, fuel 3, the settings with
only the size set, to 64, and the maximize flag set. -/
theorem C26_exercise_size_in_range_witness :
    (∀ opt, (stress_set_matrix_3d_size opt).isSome = true ↔ 16 ≤ opt ∧ opt ≤ 1024) ∧
    (∀ opt v, stress_set_matrix_3d_size opt = some v → v = opt) ∧
    stress_matrix_3d Env.ticking 3
        { matrix_3d_method := none, matrix_3d_zyx := none, matrix_3d_size := some 64 } true false
      = stress_matrix_3d_exercise Env.ticking 3 ((none : Option Nat).getD 0)
          ((none : Option Nat).getD 0) (exercise_n (some 64) true false) ∧
    16 ≤ exercise_n (some 64) true false ∧
    exercise_n (some 64) true false ≤ 1024 ∧
    (∀ v, some 64 = some v → exercise_n (some 64) true false = v) ∧
    (some 64 = (none : Option Nat) →
      exercise_n (some 64) true false
        = if false = true then 16 else if true = true then 1024 else 128) :=
  C26_exercise_size_in_range Env.ticking 3
    { matrix_3d_method := none, matrix_3d_zyx := none, matrix_3d_size := some 64 } true false
    (fun v h => ⟨64, by cases h; rfl⟩)

/-- C27. For every run in which every mapping succeeds and that completes `k`
loop iterations, with any method and either value `zyx` of the order flag: the
calls through function pointers the run makes are exactly those of
`run_calls_spec`, that is, in iteration `t` the function
`matrix_3d_methods[sel].func[zyx]` with `sel` the configured method when it is a
fixed kernel and the cursor `1 + t % 12` in all mode (there called by the wrapper
`matrix_3d_methods[0].func[zyx]`). Every function called is the configured one
or, in all mode, the `func[zyx]` of an entry of `1..12`; none is the function any
entry holds for the other order. -/
theorem C27_variant_matches_order (env : Env) (fuel matrix_3d_method matrix_3d_zyx n k : Nat)
    (hm : matrix_3d_method < matrix_3d_methods.length) (hz : matrix_3d_zyx < 2)
    (hmaps : maps_ok env) (hstop : stops_after env k) (hfuel : k ≤ fuel) :
    ∃ func st, exercise_func matrix_3d_method matrix_3d_zyx = some func ∧
      stress_matrix_3d_exercise env fuel matrix_3d_method matrix_3d_zyx n
        = some (ExitCode.EXIT_SUCCESS, st) ∧
      calls_of st.trace = run_calls_spec env matrix_3d_method matrix_3d_zyx k ∧
      (∀ c, c ∈ calls_of st.trace →
        c.1 = func ∨ (matrix_3d_method = 0 ∧
          ∃ t, t < k ∧ exercise_func (1 + t % 12) matrix_3d_zyx = some c.1)) ∧
      (matrix_3d_method ≠ 0 → ∀ c, c ∈ calls_of st.trace → c.1 = func) ∧
      (∀ c, c ∈ calls_of st.trace → ∀ j, exercise_func j (1 - matrix_3d_zyx) ≠ some c.1) := by
  have hm13 : matrix_3d_method < 13 := hm
  obtain ⟨func, hfunc⟩ := table_func matrix_3d_method matrix_3d_zyx hm13 hz
  obtain ⟨st, h, _, hc⟩ :=
    run_gaps_calls env fuel matrix_3d_method matrix_3d_zyx n k hm13 hz hmaps hstop hfuel
  have hmem : ∀ c, c ∈ calls_of st.trace →
      c.1 = func ∨ (matrix_3d_method = 0 ∧
        ∃ t, t < k ∧ exercise_func (1 + t % 12) matrix_3d_zyx = some c.1) := by
    intro c hcm
    rw [hc] at hcm
    exact mem_run_calls_spec env matrix_3d_method matrix_3d_zyx k hm13 hz func hfunc c hcm
  refine ⟨func, st, hfunc, h, hc, hmem, ?_, ?_⟩
  · intro h0 c hcm
    rcases hmem c hcm with h1 | ⟨h1, _⟩
    · exact h1
    · exact absurd h1 h0
  · intro c hcm j
    by_cases hj : j < 13
    · rcases hmem c hcm with h1 | ⟨_, t, _, h1⟩
      · rw [h1]
        exact table_columns_disjoint matrix_3d_method j matrix_3d_zyx hm13 hj hz func hfunc
      · exact table_columns_disjoint (1 + t % 12) j matrix_3d_zyx (by omega) hj hz c.1 h1
    · rw [exercise_func_none j _ (by omega)]
      simp

/-- Witness for C27: the environment `Env.ticking` (three iterations), all mode,
reverse order, `n = 2`. -/
theorem C27_variant_matches_order_witness :
    ∃ func st, exercise_func 0 1 = some func ∧
      stress_matrix_3d_exercise Env.ticking 3 0 1 2 = some (ExitCode.EXIT_SUCCESS, st) ∧
      calls_of st.trace = run_calls_spec Env.ticking 0 1 3 ∧
      (∀ c, c ∈ calls_of st.trace →
        c.1 = func ∨ ((0 : Nat) = 0 ∧ ∃ t, t < 3 ∧ exercise_func (1 + t % 12) 1 = some c.1)) ∧
      ((0 : Nat) ≠ 0 → ∀ c, c ∈ calls_of st.trace → c.1 = func) ∧
      (∀ c, c ∈ calls_of st.trace → ∀ j, exercise_func j (1 - 1) ≠ some c.1) :=
  C27_variant_matches_order Env.ticking 3 0 1 2 3 (by decide) (by decide) maps_ok_ticking
    stops_after_ticking (Nat.le_refl 3)

/-- C28. In all mode with verification enabled, for either loop order, every `n`
and every iteration number `t` (counting from 0): the cursor is `1 + t % 12`
before the iteration and still so between the primary call and the shadow call;
the iteration calls the wrapper, which calls the plain kernel `f` of entry
`1 + t % 12`, into `r` and then the wrapper, which calls the same `f`, into `s`;
the count of entry `1 + t % 12` grows by 2 and the count of no other entry of
`1..12` changes; and the cursor is `1 + (t + 1) % 12` after the iteration, one
step on, not two. -/
theorem C28_shadow_same_entry (env : Env) (matrix_3d_zyx n t : Nat)
    (hv : env.verify = true) (hz : matrix_3d_zyx < 2) :
    ∃ w st0 st s1 st1 f,
      exercise_func 0 matrix_3d_zyx = some w ∧
      exercise_loop_entry env 0 n = some st0 ∧
      loop_passes env w 0 n t st0 = some st ∧
      st.method_all_index = 1 + t % 12 ∧
      exercise_func (1 + t % 12) matrix_3d_zyx = some f ∧
      (kernel_of f).isSome = true ∧
      timed_call env w 0 n Buf.r st = some s1 ∧
      s1.method_all_index = 1 + t % 12 ∧
      loop_pass env w 0 n st = some st1 ∧
      calls_of st1.trace = calls_of st.trace
        ++ [(w, Buf.r), (f, Buf.r), (w, Buf.s), (f, Buf.s)] ∧
      (st1.matrix_3d_metrics (1 + t % 12)).count
        = (st.matrix_3d_metrics (1 + t % 12)).count + 2 ∧
      (∀ i, 1 ≤ i → i ≠ 1 + t % 12 →
        (st1.matrix_3d_metrics i).count = (st.matrix_3d_metrics i).count) ∧
      st1.method_all_index = 1 + (t + 1) % 12 := by
  obtain ⟨w, st0, st, hw, he, _, e, hidx, _⟩ :=
    entry_passes env 0 matrix_3d_zyx n t (by decide) hz
  simp only [if_true] at hidx
  obtain ⟨f, kern, hf, hk⟩ :=
    active_kernel 0 matrix_3d_zyx st.method_all_index (by decide) hz (by omega) (by omega)
  obtain ⟨s1, e1, c1⟩ :=
    timed_call_spec env 0 matrix_3d_zyx hz w f kern n Buf.r st hw hf hk
  obtain ⟨st1, ep, p⟩ := loop_pass_spec env 0 matrix_3d_zyx hz w f kern n st hw hf hk
  simp only [if_true] at hf
  rw [hidx] at hf
  have hcpp : calls_per_pass env = 2 := by simp [calls_per_pass, hv]
  refine ⟨w, st0, st, s1, st1, f, hw, he, e, hidx, hf, by simp [hk], e1,
    by rw [c1.index, hidx], ep, ?_, ?_, ?_, ?_⟩
  · rw [p.trace]
    cases hc : shim_memcmp st1.r st1.s n <;> simp [calls_of_append, calls_of, hv, hc]
  · rw [p.count, hcpp, hidx]
    have hne : ¬ (1 + t % 12 = 0) := by omega
    simp [hne]
  · intro i hi hne
    rw [p.count, hcpp, hidx]
    have h0 : ¬ (i = 0) := by omega
    simp [h0, hne]
  · rw [p.index, hidx]
    unfold next_index
    simp only [if_true]
    split_ifs <;> omega

/-- Witness for C28: the sample environment, forward order, `n = 16`, iteration
number 11 (which runs entry 12, zero, and wraps the cursor to 1). -/
theorem C28_shadow_same_entry_witness :
    ∃ w st0 st s1 st1 f,
      exercise_func 0 0 = some w ∧
      exercise_loop_entry Env.sample 0 16 = some st0 ∧
      loop_passes Env.sample w 0 16 11 st0 = some st ∧
      st.method_all_index = 1 + 11 % 12 ∧
      exercise_func (1 + 11 % 12) 0 = some f ∧
      (kernel_of f).isSome = true ∧
      timed_call Env.sample w 0 16 Buf.r st = some s1 ∧
      s1.method_all_index = 1 + 11 % 12 ∧
      loop_pass Env.sample w 0 16 st = some st1 ∧
      calls_of st1.trace = calls_of st.trace
        ++ [(w, Buf.r), (f, Buf.r), (w, Buf.s), (f, Buf.s)] ∧
      (st1.matrix_3d_metrics (1 + 11 % 12)).count
        = (st.matrix_3d_metrics (1 + 11 % 12)).count + 2 ∧
      (∀ i, 1 ≤ i → i ≠ 1 + 11 % 12 →
        (st1.matrix_3d_metrics i).count = (st.matrix_3d_metrics i).count) ∧
      st1.method_all_index = 1 + (11 + 1) % 12 :=
  C28_shadow_same_entry Env.sample 0 16 11 rfl (by decide)

/-- C29. For every `n`, all arrays `a`, `b`, all prior contents `r0`, `r1` of
the result arrays and all `i, j, k < n`: both trans variants leave
`r[i][j][k] = a[k][j][i]`, the element of `a` at the index with first and third
component exchanged, which is again an index of the cube, and exchanging twice
gives the index back; so applying trans (either variant) to the result of trans
(either variant) on `a` leaves `a[i][j][k]` in `[i][j][k]`. -/
theorem C29_trans_axis_permutation (n : Nat) (a b r0 r1 : Vol) (i j k : Nat)
    (hi : i < n) (hj : j < n) (hk : k < n) :
    stress_matrix_3d_xyz_trans n a b r0 i j k = a k j i ∧
    stress_matrix_3d_zyx_trans n a b r0 i j k = a k j i ∧
    stress_matrix_3d_xyz_trans n a b r0 i j k = a.swap13 i j k ∧
    a.swap13.swap13 = a ∧
    stress_matrix_3d_xyz_trans n (stress_matrix_3d_xyz_trans n a b r0) b r1 i j k = a i j k ∧
    stress_matrix_3d_zyx_trans n (stress_matrix_3d_zyx_trans n a b r0) b r1 i j k = a i j k ∧
    stress_matrix_3d_xyz_trans n (stress_matrix_3d_zyx_trans n a b r0) b r1 i j k = a i j k ∧
    stress_matrix_3d_zyx_trans n (stress_matrix_3d_xyz_trans n a b r0) b r1 i j k = a i j k := by
  have hx : ∀ (c r : Vol) x y z, x < n → y < n → z < n →
      stress_matrix_3d_xyz_trans n c b r x y z = c z y x := by
    intro c r x y z h1 h2 h3
    rw [xyz_trans_eq, fill_inside n _ r x y z h1 h2 h3]
  have hy : ∀ (c r : Vol) x y z, x < n → y < n → z < n →
      stress_matrix_3d_zyx_trans n c b r x y z = c z y x := by
    intro c r x y z h1 h2 h3
    rw [zyx_trans_eq, fill_inside n _ r x y z h1 h2 h3]
  refine ⟨hx a r0 i j k hi hj hk, hy a r0 i j k hi hj hk, hx a r0 i j k hi hj hk, rfl,
    ?_, ?_, ?_, ?_⟩
  · rw [hx _ r1 i j k hi hj hk, hx a r0 k j i hk hj hi]
  · rw [hy _ r1 i j k hi hj hk, hy a r0 k j i hk hj hi]
  · rw [hx _ r1 i j k hi hj hk, hy a r0 k j i hk hj hi]
  · rw [hy _ r1 i j k hi hj hk, hx a r0 k j i hk hj hi]

/-- Witness for C29: `n = 16`, `a` the sample array, `b` all `1.0`, `r` all `2.0`
before the first call and all `0.0` before the second, element `[3][5][7]`. -/
theorem C29_trans_axis_permutation_witness :
    stress_matrix_3d_xyz_trans 16 Vol.sample (Vol.const Binary32.one) (Vol.const Binary32.two)
        3 5 7 = Vol.sample 7 5 3 ∧
    stress_matrix_3d_zyx_trans 16 Vol.sample (Vol.const Binary32.one) (Vol.const Binary32.two)
        3 5 7 = Vol.sample 7 5 3 ∧
    stress_matrix_3d_xyz_trans 16 Vol.sample (Vol.const Binary32.one) (Vol.const Binary32.two)
        3 5 7 = Vol.sample.swap13 3 5 7 ∧
    Vol.sample.swap13.swap13 = Vol.sample ∧
    stress_matrix_3d_xyz_trans 16
        (stress_matrix_3d_xyz_trans 16 Vol.sample (Vol.const Binary32.one)
          (Vol.const Binary32.two))
        (Vol.const Binary32.one) mmap_zero 3 5 7 = Vol.sample 3 5 7 ∧
    stress_matrix_3d_zyx_trans 16
        (stress_matrix_3d_zyx_trans 16 Vol.sample (Vol.const Binary32.one)
          (Vol.const Binary32.two))
        (Vol.const Binary32.one) mmap_zero 3 5 7 = Vol.sample 3 5 7 ∧
    stress_matrix_3d_xyz_trans 16
        (stress_matrix_3d_zyx_trans 16 Vol.sample (Vol.const Binary32.one)
          (Vol.const Binary32.two))
        (Vol.const Binary32.one) mmap_zero 3 5 7 = Vol.sample 3 5 7 ∧
    stress_matrix_3d_zyx_trans 16
        (stress_matrix_3d_xyz_trans 16 Vol.sample (Vol.const Binary32.one)
          (Vol.const Binary32.two))
        (Vol.const Binary32.one) mmap_zero 3 5 7 = Vol.sample 3 5 7 :=
  C29_trans_axis_permutation 16 Vol.sample (Vol.const Binary32.one) (Vol.const Binary32.two)
    mmap_zero 3 5 7 (by decide) (by decide) (by decide)

/-- C31. For every run in which every mapping succeeds, with any method, either
loop order and verification enabled or not: when `stress_continue` answers true
to each of its first `j` evaluations and false to the next one, and the fuel
allows `j + 1` iterations, the run returns `EXIT_SUCCESS` after exactly `j + 1`
iterations. The predicate was evaluated `j + 1` times, with the answers true `j`
times and then false; each evaluation comes after the kernel invocations of its
iteration (1, or 2 with verification), and no kernel is invoked after the false
answer. So at least one kernel invocation is made, also when `j = 0`, that is
when the predicate is false from the start. -/
theorem C31_do_while_iterations (env : Env) (fuel matrix_3d_method z n j : Nat)
    (hm : matrix_3d_method < matrix_3d_methods.length) (hz : z < 2)
    (hmaps : maps_ok env)
    (htrue : ∀ t, t < j → env.stress_continue t = true)
    (hfalse : env.stress_continue j = false) (hfuel : j + 1 ≤ fuel) :
    ∃ st, stress_matrix_3d_exercise env fuel matrix_3d_method z n
        = some (ExitCode.EXIT_SUCCESS, st) ∧
      continues_of st.trace = List.replicate j true ++ [false] ∧
      (continues_of st.trace).length = j + 1 ∧
      invocation_gaps st.trace
        = (List.replicate (j + 1) (if env.verify = true then 2 else 1), 0) ∧
      kernel_calls_of st.trace = (if env.verify = true then 2 else 1) * (j + 1) ∧
      1 ≤ kernel_calls_of st.trace := by
  have hm13 : matrix_3d_method < 13 := hm
  have hstop : stops_after env (j + 1) :=
    ⟨by omega, fun t ht => htrue t (by omega), by simpa using hfalse⟩
  obtain ⟨st, h, hc⟩ :=
    run_continues env fuel matrix_3d_method z n (j + 1) hm13 hz hmaps hstop hfuel
  obtain ⟨st1, h1, hg, _⟩ :=
    run_gaps_calls env fuel matrix_3d_method z n (j + 1) hm13 hz hmaps hstop hfuel
  obtain ⟨st2, h2, _, _, hk, _⟩ :=
    run_facts env fuel matrix_3d_method z n (j + 1) hm13 hz hmaps hstop hfuel
  have e1 : st1 = st := by
    rw [h] at h1
    exact (Prod.mk.inj (Option.some.inj h1)).2.symm
  have e2 : st2 = st := by
    rw [h] at h2
    exact (Prod.mk.inj (Option.some.inj h2)).2.symm
  rw [e1] at hg
  rw [e2] at hk
  have hcpp : calls_per_pass env = (if env.verify = true then 2 else 1) := by
    unfold calls_per_pass; rfl
  have hans : continues_of st.trace = List.replicate j true ++ [false] := by
    rw [hc, List.range_succ, List.map_append, map_range_true env.stress_continue j htrue,
      List.map_singleton, hfalse]
  rw [hcpp] at hg hk
  refine ⟨st, h, hans, by rw [hans]; simp, hg, hk, ?_⟩
  rw [hk]
  split_ifs <;> omega

/-- Witness for C31: the environment `Env.frozen`, whose predicate is false from
the start (`j = 0`), all mode, forward order, `n = 2`, fuel 1. -/
theorem C31_do_while_iterations_witness :
    ∃ st, stress_matrix_3d_exercise Env.frozen 1 0 0 2 = some (ExitCode.EXIT_SUCCESS, st) ∧
      continues_of st.trace = List.replicate 0 true ++ [false] ∧
      (continues_of st.trace).length = 0 + 1 ∧
      invocation_gaps st.trace
        = (List.replicate (0 + 1) (if Env.frozen.verify = true then 2 else 1), 0) ∧
      kernel_calls_of st.trace = (if Env.frozen.verify = true then 2 else 1) * (0 + 1) ∧
      1 ≤ kernel_calls_of st.trace :=
  C31_do_while_iterations Env.frozen 1 0 0 2 0 (by decide) (by decide) maps_ok_frozen
    (fun t ht => absurd ht (by omega)) rfl (Nat.le_refl 1)

/-- C32. For every plain kernel `f` of the table (every function other than the
two all wrappers), every `n` and all arrays `a`, `b`: when `f` is not a frobenius
variant there are values `F`, fixed by `n`, `a` and `b`, such that for every
prior content `r` of the result array `f` leaves `F i j k` in every cell
`[i][j][k]` with `i, j, k < n` and the prior content in every other cell, so two
calls with different prior contents leave the same cube; when `f` is a frobenius
variant it leaves every cell of `r` as it was. -/
theorem C32_kernels_overwrite_cube (f : stress_matrix_3d_func_t)
    (kern : Nat → Vol → Vol → Vol → Vol) (hk : kernel_of f = some kern)
    (n : Nat) (a b : Vol) :
    ((f ≠ stress_matrix_3d_func_t.xyz_frobenius ∧ f ≠ stress_matrix_3d_func_t.zyx_frobenius) →
      (∃ F : Nat → Nat → Nat → stress_matrix_3d_type_t, ∀ r,
        (∀ i j k, i < n → j < n → k < n → kern n a b r i j k = F i j k) ∧
        (∀ i j k, ¬ (i < n ∧ j < n ∧ k < n) → kern n a b r i j k = r i j k)) ∧
      (∀ r r1 i j k, i < n → j < n → k < n → kern n a b r i j k = kern n a b r1 i j k)) ∧
    ((f = stress_matrix_3d_func_t.xyz_frobenius ∨ f = stress_matrix_3d_func_t.zyx_frobenius) →
      ∀ r, kern n a b r = r) := by
  constructor
  · rintro ⟨hx, hy⟩
    obtain ⟨F, hF⟩ := kernel_fill f kern hk hx hy n a b
    refine ⟨⟨F, fun r => ⟨?_, ?_⟩⟩, ?_⟩
    · intro i j k hi hj hk1
      rw [hF r, fill_inside n F r i j k hi hj hk1]
    · intro i j k hout
      rw [hF r]
      simp only [Vol.fill, hout, if_false]
    · intro r r1 i j k hi hj hk1
      rw [hF r, hF r1, fill_inside n F r i j k hi hj hk1, fill_inside n F r1 i j k hi hj hk1]
  · intro hf r
    exact kernel_frobenius_frame f kern hk hf n a b r

/-- Witness for C32: the reverse mean kernel, `n = 16`, `a` the sample array, `b`
all `1.0`. -/
theorem C32_kernels_overwrite_cube_witness :
    ((stress_matrix_3d_func_t.zyx_mean ≠ stress_matrix_3d_func_t.xyz_frobenius ∧
        stress_matrix_3d_func_t.zyx_mean ≠ stress_matrix_3d_func_t.zyx_frobenius) →
      (∃ F : Nat → Nat → Nat → stress_matrix_3d_type_t, ∀ r,
        (∀ i j k, i < 16 → j < 16 → k < 16 →
          stress_matrix_3d_zyx_mean 16 Vol.sample (Vol.const Binary32.one) r i j k = F i j k) ∧
        (∀ i j k, ¬ (i < 16 ∧ j < 16 ∧ k < 16) →
          stress_matrix_3d_zyx_mean 16 Vol.sample (Vol.const Binary32.one) r i j k
            = r i j k)) ∧
      (∀ r r1 i j k, i < 16 → j < 16 → k < 16 →
        stress_matrix_3d_zyx_mean 16 Vol.sample (Vol.const Binary32.one) r i j k
          = stress_matrix_3d_zyx_mean 16 Vol.sample (Vol.const Binary32.one) r1 i j k)) ∧
    ((stress_matrix_3d_func_t.zyx_mean = stress_matrix_3d_func_t.xyz_frobenius ∨
        stress_matrix_3d_func_t.zyx_mean = stress_matrix_3d_func_t.zyx_frobenius) →
      ∀ r, stress_matrix_3d_zyx_mean 16 Vol.sample (Vol.const Binary32.one) r = r) :=
  C32_kernels_overwrite_cube stress_matrix_3d_func_t.zyx_mean stress_matrix_3d_zyx_mean rfl 16
    Vol.sample (Vol.const Binary32.one)

end Matrix3D
